import Mathlib

/-!
The nuster cache filter (src/nuster/cache/filter.c).

A shallow embedding of the cache filter callbacks of nuster:
`_nst_cache_filter_attach`, `_nst_cache_filter_detach`,
`_nst_cache_filter_http_headers`, `_nst_cache_filter_http_payload`,
`_nst_cache_filter_http_end`, and of the sample fetch `nst_smp_fetch_cache_hit`.

Conventions of the embedding.

* The per-request context `struct nst_ctx` is the record `nst_ctx`.  The rule
  cursor `ctx->rule` is the suffix of the proxy's rule list that starts at the
  rule pointed to; the empty list is the NULL pointer.
* Every function that filter.c calls but does not define (key builder, store,
  ACL test, conditional-request handler, ...) is a field of `Env`: a parameter
  of the development, never a fixed behaviour.  A callee that receives the
  whole context by pointer returns a `nst_ctx_view`: the fields of the context
  that belong to the store side (state, transaction, disk handle, entry).  The
  rule cursor, the two counts and the key array are written by filter.c alone.
* Every call of such a function is appended, in program order, to a trace of
  `Call` values together with the arguments and results that matter.
* A NULL rule dereference, a key index outside the key array and a NULL entry
  dereference have no defined behaviour in C: the embedding returns `none`.
* `unsigned int` values are naturals; the conversion to the `int` that
  `_nst_cache_filter_http_payload` returns is `int_of_uint`.
-/

namespace Nuster

/-- States of a context (`NST_CTX_STATE_*`).  filter.c names six of them; every
other enumerator is `OTHER n`. -/
inductive nst_ctx_state where
  | INIT
  | BYPASS
  | HIT_MEMORY
  | HIT_DISK
  | PASS
  | CREATE
  | OTHER (n : Nat)
  deriving DecidableEq, Repr

/-- Return codes: `NST_OK` and anything else. -/
inductive nst_rc where
  | NST_OK
  | NST_ERR
  deriving DecidableEq, Repr

/-- Administrative status values (`NST_STATUS_*`); filter.c only tests for `ON`. -/
inductive nst_status where
  | ON
  | OFF
  | UNDEFINED
  deriving DecidableEq, Repr

/-- Rule states; filter.c only tests for `NST_RULE_DISABLED`. -/
inductive nst_rule_state where
  | DISABLED
  | ENABLED
  deriving DecidableEq, Repr

/-- Entry states; filter.c only writes `NST_DICT_ENTRY_STATE_INVALID`. -/
inductive nst_dict_entry_state where
  | INVALID
  | OTHER (n : Nat)
  deriving DecidableEq, Repr

/-- HTTP methods of the host proxy (`enum http_meth`). -/
inductive http_meth where
  | OPTIONS
  | GET
  | HEAD
  | POST
  | PUT
  | DELETE
  | TRACE
  | CONNECT
  | OTHER
  deriving DecidableEq, Repr

/-- An indirect string: address and length. -/
structure ist where
  ptr : Nat
  len : Nat
  deriving DecidableEq, Repr

/-- A cache key: `data` is NULL (`none`) until the key is built. -/
structure nst_key where
  data : Option (List Nat)
  hash : Nat
  deriving DecidableEq, Repr

/-- A rule of the proxy.  `id` is the identity of the rule object (its address,
the value of the pointer `ctx->rule`): filter.c hands the pointer to
`nst_test_rule` and `nst_key_build`, which reach through it the parts of the
rule that filter.c never reads itself (the name, the ACL condition, the key
template), so two rules that agree on every field filter.c reads can still get
different ACL answers.  The other fields are the ones filter.c reads: `key_idx`
is `rule->key->idx`, `code` the linked list of accepted status codes; the `next`
pointer is the tail of the list the rule sits in. -/
structure nst_rule where
  id : Nat
  state : nst_rule_state
  key_idx : Nat
  code : List Nat
  etag : nst_status
  last_modified : nst_status
  deriving DecidableEq, Repr

/-- The persistent-store read handle `ctx->disk`. -/
structure nst_disk where
  fd : Int
  meta : Nat
  deriving DecidableEq, Repr

/-- The store entry `ctx->entry` points to. -/
structure nst_dict_entry where
  state : nst_dict_entry_state
  data : Option Nat
  deriving DecidableEq, Repr

/-- The embedded transaction `ctx->txn`: the buffer position, the two response
validators, and the parsed request facts (`req`, not interpreted here). -/
structure nst_http_txn where
  buf_area : Nat
  buf_data : Nat
  res_etag : ist
  res_last_modified : ist
  req : List Nat
  deriving DecidableEq, Repr

/-- The per-request context `struct nst_ctx`. -/
structure nst_ctx where
  state : nst_ctx_state
  pid : Nat
  rule_cnt : Nat
  key_cnt : Nat
  rule : List nst_rule
  txn : nst_http_txn
  disk : nst_disk
  entry : Option nst_dict_entry
  keys : List nst_key
  deriving DecidableEq, Repr

/-- The fields of the context a store function may write through the context
pointer it is given. -/
structure nst_ctx_view where
  state : nst_ctx_state
  txn : nst_http_txn
  disk : nst_disk
  entry : Option nst_dict_entry
  deriving DecidableEq, Repr

/-- The store-side fields of a context. -/
def nst_ctx.view (c : nst_ctx) : nst_ctx_view :=
  { state := c.state, txn := c.txn, disk := c.disk, entry := c.entry }

/-- Write the store-side fields back into the context. -/
def nst_ctx.commit (c : nst_ctx) (v : nst_ctx_view) : nst_ctx :=
  { c with state := v.state, txn := v.txn, disk := v.disk, entry := v.entry }

/-- One call of a function that filter.c uses but does not define. -/
inductive Call where
  | http_parse_htx (rc : nst_rc)
  | key_build (idx : Nat) (rc : nst_rc)
  | key_hash (idx : Nat)
  | cache_exists (idx : Nat) (key : nst_key) (ret : nst_ctx_state)
  | persist_get_etag (rc : nst_rc)
  | persist_get_last_modified (rc : nst_rc)
  | http_handle_conditional_req (handled : Bool)
  | test_rule (r : nst_rule) (isresp : Bool) (rc : nst_rc)
  | cache_hit (st : nst_ctx_state)
  | cache_build_etag
  | cache_build_last_modified
  | cache_create
  | cache_update (offset len : Nat) (rc : nst_rc)
  | cache_finish
  | cache_abort
  | stats_update_cache (st : nst_ctx_state)
  | close (fd : Int)
  | free_key_data (i : Nat)
  | http_txn_detach
  | free_ctx
  deriving DecidableEq, Repr

/-- Everything a callback reads from outside the context: the stream facts
(`s->txn->meth`, `s->txn->status`), the proxy's rule list
(`nuster.proxy[px->uuid]->rule`) and the functions filter.c calls. -/
structure Env where
  meth : http_meth
  status : Nat
  proxy_rule : List nst_rule
  nst_http_parse_htx : nst_http_txn → nst_rc × nst_http_txn
  nst_key_build : nst_rule → nst_http_txn → nst_key → http_meth → nst_rc × nst_http_txn × nst_key
  nst_key_hash : nst_key → nst_key
  nst_cache_exists : nst_ctx → nst_ctx_state × nst_ctx_view
  nst_persist_meta_get_etag_len : Nat → Nat
  nst_persist_meta_get_last_modified_len : Nat → Nat
  nst_persist_get_etag : Int → Nat → ist → nst_rc
  nst_persist_get_last_modified : Int → Nat → ist → nst_rc
  nst_http_handle_conditional_req : ist → ist → nst_status → nst_status → Bool
  nst_test_rule : nst_rule → Bool → nst_rc
  nst_cache_hit : nst_ctx → nst_ctx_view
  nst_cache_build_etag : nst_ctx → nst_ctx_view
  nst_cache_build_last_modified : nst_ctx → nst_ctx_view
  nst_cache_create : nst_ctx → nst_ctx_view
  nst_cache_update : nst_ctx → Nat → Nat → nst_rc × nst_ctx_view
  nst_cache_finish : nst_ctx → nst_ctx_view
  nst_cache_abort : nst_ctx → nst_ctx_view

/-- Machine state while a callback runs: the context and the calls made so far. -/
structure St where
  ctx : nst_ctx
  trace : List Call
  deriving DecidableEq, Repr

/-- Record one call. -/
def St.call (s : St) (c : Call) : St :=
  { s with trace := s.trace ++ [c] }

/-- Result of a callback: final context, calls made, returned `int`. -/
structure Out where
  ctx : nst_ctx
  trace : List Call
  ret : Int
  deriving DecidableEq, Repr

/-- How one pass through a loop body ends. -/
inductive Flow where
  | next (s : St)
  | brk (s : St)
  | ret (s : St) (v : Int)
  deriving DecidableEq, Repr

/-- `ctx->state == NST_CTX_STATE_HIT_MEMORY || ctx->state == NST_CTX_STATE_HIT_DISK`. -/
def is_hit (st : nst_ctx_state) : Bool :=
  st = .HIT_MEMORY || st = .HIT_DISK

/-- Conversion of an `unsigned int` to the `int` a callback returns
(two's complement, 32 bits). -/
def int_of_uint (n : Nat) : Int :=
  if n % 2 ^ 32 < 2 ^ 31 then ((n % 2 ^ 32 : Nat) : Int) else ((n % 2 ^ 32 : Nat) : Int) - 2 ^ 32

/-! ## Request direction of `_nst_cache_filter_http_headers` -/

/-- Lines 171-178: build the key unless `key->data` is set.  The result is the
return code (`NST_OK` when nothing was built) and the new machine state. -/
def req_build_key (E : Env) (s : St) (r : nst_rule) (key : nst_key) : nst_rc × St :=
  match key.data with
  | some _ => (.NST_OK, s)
  | none =>
    let res := E.nst_key_build r s.ctx.txn key E.meth
    (res.1, ({ s with ctx := { s.ctx with txn := res.2.1,
                                           keys := s.ctx.keys.set r.key_idx res.2.2 } }).call
      (.key_build r.key_idx res.1))

/-- Line 183: `nst_key_hash(key)` on `keys[idx]`. -/
def req_hash (E : Env) (s : St) (r : nst_rule) : St :=
  let keys1 := match s.ctx.keys[r.key_idx]? with
    | some k => s.ctx.keys.set r.key_idx (E.nst_key_hash k)
    | none => s.ctx.keys
  ({ s with ctx := { s.ctx with keys := keys1 } }).call (.key_hash r.key_idx)

/-- Lines 183-190: hash the key, then `ctx->state = nst_cache_exists(ctx)`. -/
def req_lookup (E : Env) (s : St) (r : nst_rule) : St :=
  let s1 := req_hash E s r
  let res := E.nst_cache_exists s1.ctx
  ({ s1 with ctx := { s1.ctx.commit res.2 with state := res.1 } }).call
    (.cache_exists r.key_idx ((s1.ctx.keys[r.key_idx]?).getD ⟨none, 0⟩) res.1)

/-- Lines 197-205 and 236-244: the conditional-request handler on a hit;
`return 1` when it handled the request, `break` otherwise. -/
def req_conditional (E : Env) (s : St) (r : nst_rule) : Flow :=
  let h := E.nst_http_handle_conditional_req s.ctx.txn.res_last_modified s.ctx.txn.res_etag
    r.last_modified r.etag
  let s1 := s.call (.http_handle_conditional_req h)
  if h then .ret s1 1 else .brk s1

/-- Lines 213-222: read the stored etag when the rule asks for it.  The result
is the return code of the read (`NST_OK` when nothing was read). -/
def req_disk_etag (E : Env) (s : St) (r : nst_rule) : nst_rc × St :=
  if r.etag = .ON then
    let e : ist := { ptr := s.ctx.txn.buf_area + s.ctx.txn.buf_data,
                     len := E.nst_persist_meta_get_etag_len s.ctx.disk.meta }
    let rc := E.nst_persist_get_etag s.ctx.disk.fd s.ctx.disk.meta e
    (rc, ({ s with ctx := { s.ctx with txn := { s.ctx.txn with res_etag := e } } }).call
      (.persist_get_etag rc))
  else (.NST_OK, s)

/-- Lines 224-234: read the stored last-modified when the rule asks for it. -/
def req_disk_last_modified (E : Env) (s : St) (r : nst_rule) : nst_rc × St :=
  if r.last_modified = .ON then
    let e : ist := { ptr := s.ctx.txn.buf_area + s.ctx.txn.buf_data,
                     len := E.nst_persist_meta_get_last_modified_len s.ctx.disk.meta }
    let rc := E.nst_persist_get_last_modified s.ctx.disk.fd s.ctx.disk.meta e
    (rc, ({ s with ctx := { s.ctx with txn := { s.ctx.txn with res_last_modified := e } } }).call
      (.persist_get_last_modified rc))
  else (.NST_OK, s)

/-- Lines 208-245: a disk hit.  A failed validator read is a `break`. -/
def req_hit_disk (E : Env) (s : St) (r : nst_rule) : Flow :=
  match req_disk_etag E s r with
  | (rc1, s1) =>
    if rc1 ≠ .NST_OK then .brk s1
    else
      match req_disk_last_modified E s1 r with
      | (rc2, s2) =>
        if rc2 ≠ .NST_OK then .brk s2
        else req_conditional E s2 r

/-- Lines 192-264: what follows the lookup for one rule. -/
def req_after_lookup (E : Env) (s : St) (r : nst_rule) (rest : List nst_rule) : Flow :=
  if s.ctx.state = .HIT_MEMORY then
    req_conditional E s r
  else if s.ctx.state = .HIT_DISK then
    req_hit_disk E s r
  else
    let rc := E.nst_test_rule r false
    let s1 := s.call (.test_rule r false rc)
    if rc = .NST_OK then
      .brk { s1 with ctx := { s1.ctx with state := .PASS } }
    else
      .next { s1 with ctx := { s1.ctx with rule := rest } }

/-- Lines 159-264: the body of the request-phase rule loop. -/
def req_body (E : Env) (s : St) : Option Flow :=
  match s.ctx.rule with
  | [] => none
  | r :: rest =>
    if r.state = .DISABLED then
      some (.next { s with ctx := { s.ctx with rule := rest } })
    else
      match s.ctx.keys[r.key_idx]? with
      | none => none
      | some key =>
        match req_build_key E s r key with
        | (rc, s1) =>
          if rc ≠ .NST_OK then
            some (.ret { s1 with ctx := { s1.ctx with state := .BYPASS } } 1)
          else
            some (req_after_lookup E (req_lookup E s1 r) r rest)

/-- Lines 158-264: `for(i = 0; i < ctx->rule_cnt; i++)`; the first argument is
the number of iterations left.  Leaving because the count is used up is
reported as `brk`. -/
def req_loop (E : Env) : Nat → St → Option Flow
  | 0, s => some (.brk s)
  | n + 1, s =>
    match req_body E s with
    | none => none
    | some (.next s1) => req_loop E n s1
    | some (.brk s1) => some (.brk s1)
    | some (.ret s1 v) => some (.ret s1 v)

/-- Lines 267-271: serve the cached response on a hit, then `return 1`. -/
def req_serve (E : Env) (s : St) : Out :=
  if s.ctx.state = .HIT_MEMORY ∨ s.ctx.state = .HIT_DISK then
    { ctx := s.ctx.commit (E.nst_cache_hit s.ctx),
      trace := s.trace ++ [.cache_hit s.ctx.state], ret := 1 }
  else
    { ctx := s.ctx, trace := s.trace, ret := 1 }

/-- Lines 265-271 and 342: what the request branch does once the rule loop was
left: a `return` inside the loop ends the callback, otherwise a hit is served. -/
def req_finish (E : Env) : Flow → Out
  | .ret s v => { ctx := s.ctx, trace := s.trace, ret := v }
  | .brk s => req_serve E s
  | .next s => req_serve E s

/-- Lines 139-271: the request branch. -/
def req_headers (E : Env) (ctx : nst_ctx) : Option Out :=
  let ctx1 := if E.meth = .OTHER then { ctx with state := .BYPASS } else ctx
  if ctx1.state = .INIT then
    match E.nst_http_parse_htx ctx1.txn with
    | (rc, txn1) =>
      let s0 : St := { ctx := { ctx1 with txn := txn1 }, trace := [.http_parse_htx rc] }
      if rc ≠ .NST_OK then
        some { ctx := { s0.ctx with state := .BYPASS }, trace := s0.trace, ret := 1 }
      else
        match req_loop E ctx1.rule_cnt { s0 with ctx := { s0.ctx with rule := E.proxy_rule } } with
        | none => none
        | some f => some (req_finish E f)
  else
    some (req_serve E { ctx := ctx1, trace := [] })

/-! ## Response direction of `_nst_cache_filter_http_headers` -/

/-- Lines 282-294: the body of the response-phase rule walk. -/
def res_body (E : Env) (s : St) : Option Flow :=
  match s.ctx.rule with
  | [] => none
  | r :: rest =>
    let rc := E.nst_test_rule r true
    let s1 := s.call (.test_rule r true rc)
    if rc = .NST_OK then
      some (.brk { s1 with ctx := { s1.ctx with state := .PASS } })
    else
      some (.next { s1 with ctx := { s1.ctx with rule := rest } })

/-- Lines 281-295: `for(i = 0; i < ctx->rule_cnt; i++)` of the response phase. -/
def res_loop (E : Env) : Nat → St → Option St
  | 0, s => some s
  | n + 1, s =>
    match res_body E s with
    | none => none
    | some (.next s1) => res_loop E n s1
    | some (.brk s1) => some s1
    | some (.ret s1 _) => some s1

/-- Lines 311-320: `while(cc)` over the accepted status codes. -/
def code_scan (status : Nat) : List Nat → Bool
  | [] => false
  | c :: cc => if c = status then true else code_scan status cc

/-- Lines 300-320: `valid` after the status-code check. -/
def code_valid (cc : List Nat) (status : Nat) : Bool :=
  (if cc = [] then true else false) || code_scan status cc

/-- Lines 299-338: the status-code check and the start of entry creation. -/
def res_create (E : Env) (s : St) : Option Out :=
  if s.ctx.state = .PASS then
    match s.ctx.rule with
    | [] => none
    | r :: _ =>
      if code_valid r.code E.status then
        let c1 := s.ctx.commit (E.nst_cache_build_etag s.ctx)
        let c2 := c1.commit (E.nst_cache_build_last_modified c1)
        let c3 := c2.commit (E.nst_cache_create c2)
        some { ctx := c3,
               trace := s.trace ++ [.cache_build_etag, .cache_build_last_modified, .cache_create],
               ret := 1 }
      else
        some { ctx := s.ctx, trace := s.trace, ret := 1 }
  else
    some { ctx := s.ctx, trace := s.trace, ret := 1 }

/-- Lines 274-340: the response branch. -/
def res_headers (E : Env) (ctx : nst_ctx) : Option Out :=
  if ctx.state = .INIT then
    match res_loop E ctx.rule_cnt { ctx := { ctx with rule := E.proxy_rule }, trace := [] } with
    | none => none
    | some s1 => res_create E s1
  else
    res_create E { ctx := ctx, trace := [] }

/-- The callback `_nst_cache_filter_http_headers`; `isresp` is
`msg->chn->flags & CF_ISRESP`. -/
def _nst_cache_filter_http_headers (E : Env) (isresp : Bool) (ctx : nst_ctx) : Option Out :=
  if isresp then res_headers E ctx else req_headers E ctx

/-! ## Payload, end of body, detach -/

/-- The callback `_nst_cache_filter_http_payload` (lines 345-370). -/
def _nst_cache_filter_http_payload (E : Env) (isresp : Bool) (ctx : nst_ctx)
    (offset len : Nat) : Option Out :=
  if len ≤ 0 then
    some { ctx := ctx, trace := [], ret := 0 }
  else if ctx.state = .CREATE ∧ isresp = true then
    match E.nst_cache_update ctx offset len with
    | (rc, v) =>
      let c1 := ctx.commit v
      if rc ≠ .NST_OK then
        match c1.entry with
        | none => none
        | some e =>
          some { ctx := { c1 with entry := some { e with state := .INVALID, data := none },
                                  state := .BYPASS },
                 trace := [.cache_update offset len rc], ret := int_of_uint len }
      else
        some { ctx := c1, trace := [.cache_update offset len rc], ret := int_of_uint len }
  else
    some { ctx := ctx, trace := [], ret := int_of_uint len }

/-- The callback `_nst_cache_filter_http_end` (lines 372-383). -/
def _nst_cache_filter_http_end (E : Env) (isresp : Bool) (ctx : nst_ctx) : Out :=
  if ctx.state = .CREATE ∧ isresp = true then
    { ctx := ctx.commit (E.nst_cache_finish ctx), trace := [.cache_finish], ret := 1 }
  else
    { ctx := ctx, trace := [], ret := 1 }

/-- Lines 116-122: `for(i = 0; i < ctx->key_cnt; i++)`, from index `i` with `n`
iterations left; the result is the list of `free` calls. -/
def detach_keys (keys : List nst_key) : Nat → Nat → Option (List Call)
  | 0, _ => some []
  | n + 1, i =>
    match keys[i]? with
    | none => none
    | some key =>
      match detach_keys keys n (i + 1) with
      | none => none
      | some tr =>
        match key.data with
        | some _ => some (Call.free_key_data i :: tr)
        | none => some tr

/-- The callback `_nst_cache_filter_detach` (lines 100-128) on `filter->ctx`
(`none` is NULL); the result is the list of calls made.  The function does not
reset `filter->ctx`. -/
def _nst_cache_filter_detach (E : Env) (fctx : Option nst_ctx) : Option (List Call) :=
  match fctx with
  | none => some []
  | some ctx =>
    let t1 : List Call := [.stats_update_cache ctx.state]
    let t2 := if ctx.disk.fd > 0 then t1 ++ [.close ctx.disk.fd] else t1
    let s3 : St :=
      if ctx.state = .CREATE then
        { ctx := ctx.commit (E.nst_cache_abort ctx), trace := t2 ++ [.cache_abort] }
      else { ctx := ctx, trace := t2 }
    match detach_keys s3.ctx.keys s3.ctx.key_cnt 0 with
    | none => none
    | some frees => some (s3.trace ++ frees ++ [.http_txn_detach, .free_ctx])

/-! ## Counting calls in a trace -/

/-- Number of `nst_key_build` calls in a trace. -/
def key_builds (t : List Call) : Nat :=
  t.countP (fun c => match c with | .key_build _ _ => true | _ => false)

/-- Number of `nst_cache_exists` calls (store lookups) in a trace. -/
def lookups (t : List Call) : Nat :=
  t.countP (fun c => match c with | .cache_exists _ _ _ => true | _ => false)

/-- Number of `nst_test_rule` calls (ACL tests) in a trace. -/
def acl_tests (t : List Call) : Nat :=
  t.countP (fun c => match c with | .test_rule _ _ _ => true | _ => false)

/-- Number of `nst_http_handle_conditional_req` calls in a trace. -/
def conditionals (t : List Call) : Nat :=
  t.countP (fun c => match c with | .http_handle_conditional_req _ => true | _ => false)

/-- Number of `nst_cache_hit` calls (servings of a cached response) in a trace. -/
def hit_serves (t : List Call) : Nat :=
  t.countP (fun c => match c with | .cache_hit _ => true | _ => false)

/-- Number of rules of a list that are not disabled. -/
def enabled_cnt (rs : List nst_rule) : Nat :=
  rs.countP (fun r => decide (r.state ≠ .DISABLED))

/-- A trace segment with at most `b` key builds and exactly `l` lookups, `a` ACL
tests, `c` conditional-request calls and `h` hit servings. -/
structure Seg (t : List Call) (b l a c h : Nat) : Prop where
  builds_le : key_builds t ≤ b
  lookups_eq : lookups t = l
  acls_eq : acl_tests t = a
  conds_eq : conditionals t = c
  serves_eq : hit_serves t = h

/-- The state `s2` continues `s`: same counts, same key-array length, and the
trace of `s` extended by `t`. -/
structure Continues (s s2 : St) (t : List Call) : Prop where
  rule_cnt_eq : s2.ctx.rule_cnt = s.ctx.rule_cnt
  key_cnt_eq : s2.ctx.key_cnt = s.ctx.key_cnt
  keys_len_eq : s2.ctx.keys.length = s.ctx.keys.length
  trace_eq : s2.trace = s.trace ++ t

/-! ## The claims' wording of the request phase -/

/-- A rule wins the request phase when it is enabled and either its store
lookup (`L r`) is a hit or its request ACL test succeeds. -/
def rule_wins (E : Env) (L : nst_rule → nst_ctx_state) (r : nst_rule) : Bool :=
  decide (r.state ≠ .DISABLED) && (is_hit (L r) || decide (E.nst_test_rule r false = .NST_OK))

/-- The state the loop has after running over rules none of which wins: the
lookup result of the last enabled one, or the starting state. -/
def last_lookup (L : nst_rule → nst_ctx_state) (st : nst_ctx_state) : List nst_rule → nst_ctx_state
  | [] => st
  | r :: rs => last_lookup L (if r.state = .DISABLED then st else L r) rs

/-- The setting of a request-direction header event that reaches the rule loop
and finds the winning rule `w` after the rules `pre`: the state is `INIT`, the
method is cacheable, the parse and every key build succeed, the context was
sized for the proxy's rule list `pre ++ w :: post`, the lookup result for a rule
is `L` of that rule, no rule of `pre` wins and `w` wins. -/
structure ReqRun (E : Env) (L : nst_rule → nst_ctx_state) (ctx : nst_ctx)
    (pre : List nst_rule) (w : nst_rule) (post : List nst_rule) : Prop where
  state_init : ctx.state = .INIT
  meth_ok : E.meth ≠ .OTHER
  parse_ok : (E.nst_http_parse_htx ctx.txn).1 = .NST_OK
  rules : E.proxy_rule = pre ++ w :: post
  cnt : ctx.rule_cnt = E.proxy_rule.length
  idx : ∀ r ∈ E.proxy_rule, r.key_idx < ctx.keys.length
  build_ok : ∀ r t k m, (E.nst_key_build r t k m).1 = .NST_OK
  lookup : ∀ c r rest, c.rule = r :: rest → (E.nst_cache_exists c).1 = L r
  losers : ∀ r ∈ pre, rule_wins E L r = false
  winner : rule_wins E L w = true

/-- The calls of one pass of the loop body for an enabled rule `r`, up to and
including its store lookup (lines 171-190): the key build when the key `key` at
the rule's index has no data yet, the hash, and the lookup with the hashed key
`k`, which answers `L r`. -/
def visit_trace (L : nst_rule → nst_ctx_state) (r : nst_rule) (key k : nst_key) : List Call :=
  (if key.data = none then [Call.key_build r.key_idx .NST_OK] else []) ++
    [.key_hash r.key_idx, .cache_exists r.key_idx k (L r)]

/-- The calls of the loop over rules none of which wins, in order, starting
with the key array `keys` and ending with the key array `keys2`: nothing for a
disabled rule; for an enabled rule the calls of `visit_trace` on the key its
index has at that moment, followed by its request ACL test, after which the
looked-up key sits in the key array. -/
def losers_trace (E : Env) (L : nst_rule → nst_ctx_state) :
    List nst_rule → List nst_key → List Call → List nst_key → Prop
  | [], keys, t, keys2 => t = [] ∧ keys2 = keys
  | r :: rs, keys, t, keys2 =>
    if r.state = .DISABLED then losers_trace E L rs keys t keys2
    else ∃ key k t2, keys[r.key_idx]? = some key ∧
      t = visit_trace L r key k ++ Call.test_rule r false (E.nst_test_rule r false) :: t2 ∧
      losers_trace E L rs (keys.set r.key_idx k) t2 keys2

/-- Every requested validator read of a disk hit succeeds. -/
def reads_ok (E : Env) (r : nst_rule) : Prop :=
  (r.etag = .ON → ∀ fd m i, E.nst_persist_get_etag fd m i = .NST_OK) ∧
  (r.last_modified = .ON → ∀ fd m i, E.nst_persist_get_last_modified fd m i = .NST_OK)

/-- A requested validator read of a disk hit fails. -/
def reads_fail (E : Env) (r : nst_rule) : Prop :=
  (r.etag = .ON ∧ ∀ fd m i, E.nst_persist_get_etag fd m i ≠ .NST_OK) ∨
  (r.last_modified = .ON ∧ ∀ fd m i, E.nst_persist_get_last_modified fd m i ≠ .NST_OK)

/-! ## Concrete environments -/

/-- A transaction with nothing in it. -/
def txn0 : nst_http_txn :=
  { buf_area := 0, buf_data := 0, res_etag := ⟨0, 0⟩, res_last_modified := ⟨0, 0⟩, req := [] }

/-- An environment in which nothing is cached and nothing fails: keys build
to the bytes `[key_idx]`, every lookup misses (`INIT`), a rule's ACL succeeds
exactly for the rules that accept some status code list other than `[0]`. -/
def env0 : Env :=
  { meth := .GET
    status := 200
    proxy_rule := []
    nst_http_parse_htx := fun t => (.NST_OK, t)
    nst_key_build := fun r t k _ => (.NST_OK, t, { k with data := some [r.key_idx] })
    nst_key_hash := fun k => { k with hash := (k.data.getD []).sum + 1 }
    nst_cache_exists := fun c => (.INIT, c.view)
    nst_persist_meta_get_etag_len := fun _ => 0
    nst_persist_meta_get_last_modified_len := fun _ => 0
    nst_persist_get_etag := fun _ _ _ => .NST_OK
    nst_persist_get_last_modified := fun _ _ _ => .NST_OK
    nst_http_handle_conditional_req := fun _ _ _ _ => false
    nst_test_rule := fun r _ => if r.code = [0] then .NST_ERR else .NST_OK
    nst_cache_hit := fun c => c.view
    nst_cache_build_etag := fun c => c.view
    nst_cache_build_last_modified := fun c => c.view
    nst_cache_create := fun c => { c.view with state := .CREATE, entry := some ⟨.OTHER 0, none⟩ }
    nst_cache_update := fun c _ _ => (.NST_OK, c.view)
    nst_cache_finish := fun c => { c.view with state := .OTHER 0 }
    nst_cache_abort := fun c => c.view }

/-- A fresh context, as attach leaves it, for `n` rules and `k` keys. -/
def ctx0 (n k : Nat) : nst_ctx :=
  { state := .INIT, pid := 0, rule_cnt := n, key_cnt := k, rule := [], txn := txn0,
    disk := ⟨0, 0⟩, entry := none, keys := List.replicate k ⟨none, 0⟩ }


/-- The environment `env0` with a store whose append always fails. -/
def env_update_fails : Env :=
  { env0 with nst_cache_update := fun c _ _ => (.NST_ERR, c.view) }

/-- A context in state `CREATE` with an entry under construction. -/
def ctx_create : nst_ctx :=
  { ctx0 1 1 with state := .CREATE, entry := some ⟨.OTHER 0, some 7⟩ }

/-- The environment `env0` with a response status of 404. -/
def env_404 : Env :=
  { env0 with status := 404 }

/-- A rule that accepts the status code 200 only. -/
def rule_200 : nst_rule :=
  { id := 3, state := .ENABLED, key_idx := 0, code := [200], etag := .OFF, last_modified := .OFF }

/-- A disabled rule (whose ACL succeeds in `env0`). -/
def rule_off : nst_rule :=
  { id := 1, state := .DISABLED, key_idx := 0, code := [], etag := .OFF, last_modified := .OFF }

/-- The environment `env0` with the single rule `rule_off`. -/
def env_rule_off : Env :=
  { env0 with proxy_rule := [rule_off] }

/-- A context in state `PASS` whose winning rule is `rule_200`. -/
def ctx_pass_200 : nst_ctx :=
  { ctx0 1 1 with state := .PASS, rule := [rule_200] }

/-- A context abandoned in state `CREATE` with an open disk descriptor and
three keys, of which the first and the third are built. -/
def ctx_detach : nst_ctx :=
  { ctx0 3 3 with state := .CREATE, disk := ⟨5, 0⟩, entry := some ⟨.OTHER 0, some 7⟩,
                  keys := [⟨some [1], 2⟩, ⟨none, 0⟩, ⟨some [], 1⟩] }

/-- An enabled rule with key index 0 whose ACL fails in `env0`. -/
def rule_miss : nst_rule :=
  { id := 0, state := .ENABLED, key_idx := 0, code := [0], etag := .OFF, last_modified := .OFF }

/-- An enabled rule with key index 1 that asks for the stored etag. -/
def rule_hit : nst_rule :=
  { id := 2, state := .ENABLED, key_idx := 1, code := [], etag := .ON, last_modified := .OFF }

/-- Lookup results of `env_hit`: `st` for a rule with key index 1, a miss otherwise. -/
def lookup_hit (st : nst_ctx_state) (r : nst_rule) : nst_ctx_state :=
  if r.key_idx = 1 then st else .INIT

/-- The environment `env0` with the rules `rule_miss`, `rule_off`, `rule_hit`,
`rule_200`, a store that answers `st` for key index 1, an etag read that returns
`etag_rc` and a conditional-request handler that answers `handled`. -/
def env_hit (st : nst_ctx_state) (etag_rc : nst_rc) (handled : Bool) : Env :=
  { env0 with
    proxy_rule := [rule_miss, rule_off, rule_hit, rule_200]
    nst_cache_exists := fun c =>
      (match c.rule with
       | r :: _ => lookup_hit st r
       | [] => .INIT, c.view)
    nst_persist_get_etag := fun _ _ _ => etag_rc
    nst_http_handle_conditional_req := fun _ _ _ _ => handled }

/-- The environment `env0` with the rules `rule_miss`, `rule_hit`, `rule_200` and
a key builder that fails for key index 1. -/
def env_build_fails : Env :=
  { env0 with
    proxy_rule := [rule_miss, rule_hit, rule_200]
    nst_key_build := fun r t k _ =>
      if r.key_idx = 1 then (.NST_ERR, t, k) else (.NST_OK, t, { k with data := some [r.key_idx] }) }

/-- An enabled rule with key index 0. -/
def rule_a : nst_rule :=
  { id := 10, state := .ENABLED, key_idx := 0, code := [], etag := .OFF, last_modified := .OFF }

/-- A second rule that agrees with `rule_a` on every field filter.c reads and
differs in identity only. -/
def rule_b : nst_rule :=
  { rule_a with id := 11 }

/-- The environment `env0` with the rules `rule_a`, `rule_b`, `rule_200`, which
all share key index 0, and an ACL test that succeeds for `rule_b` only. -/
def env_twins : Env :=
  { env0 with
    proxy_rule := [rule_a, rule_b, rule_200]
    nst_test_rule := fun r _ => if r.id = 11 then .NST_OK else .NST_ERR }

/-- A sequence of payload events delivered one after the other; each event is
its direction, offset and length.  The result is the final context and the
calls made. -/
def payload_seq (E : Env) : List (Bool × Nat × Nat) → nst_ctx → Option (nst_ctx × List Call)
  | [], c => some (c, [])
  | (isresp, offset, len) :: evs, c =>
    match _nst_cache_filter_http_payload E isresp c offset len with
    | none => none
    | some o =>
      match payload_seq E evs o.ctx with
      | none => none
      | some (c1, tr) => some (c1, o.trace ++ tr)

/-! ## Attach -/

/-- One call made by `_nst_cache_filter_attach`. -/
inductive AttachCall where
  | malloc (ok : Bool)
  | http_txn_attach (rc : nst_rc)
  | free_ctx
  | register_data_filter (isresp : Bool)
  deriving DecidableEq, Repr

/-- What `_nst_cache_filter_attach` reads from outside the filter: the global
cache status, the filter configuration (`conf->status`, `conf->pid`), the
compiled counts of the proxy (`nuster.proxy[conf->pid]->rule_cnt`, `->key_cnt`),
whether `malloc` returns memory, and `nst_http_txn_attach`. -/
structure AttachEnv where
  global_cache_status : nst_status
  conf_status : nst_status
  conf_pid : Nat
  proxy_rule_cnt : Nat
  proxy_key_cnt : Nat
  malloc_ok : Bool
  nst_http_txn_attach : nst_http_txn → nst_rc × nst_http_txn

/-- Result of `_nst_cache_filter_attach`: `filter->ctx` afterwards, the calls
made, the returned `int`. -/
structure AttachOut where
  ctx : Option nst_ctx
  trace : List AttachCall
  ret : Int
  deriving DecidableEq, Repr

/-- The context after `memset(ctx, 0, size)` and the four assignments of lines
80-83: every field zero, `key_cnt` zeroed keys. -/
def attach_ctx (A : AttachEnv) : nst_ctx :=
  { state := .INIT, pid := A.conf_pid, rule_cnt := A.proxy_rule_cnt, key_cnt := A.proxy_key_cnt,
    rule := [],
    txn := { buf_area := 0, buf_data := 0, res_etag := ⟨0, 0⟩, res_last_modified := ⟨0, 0⟩,
             req := [] },
    disk := ⟨0, 0⟩, entry := none, keys := List.replicate A.proxy_key_cnt ⟨none, 0⟩ }

/-- The callback `_nst_cache_filter_attach` (lines 55-98) on `filter->ctx`. -/
def _nst_cache_filter_attach (A : AttachEnv) (fctx : Option nst_ctx) : AttachOut :=
  if A.global_cache_status ≠ .ON ∨ A.conf_status ≠ .ON then
    { ctx := fctx, trace := [], ret := 0 }
  else
    match fctx with
    | some c =>
      { ctx := some c, trace := [.register_data_filter false, .register_data_filter true],
        ret := 1 }
    | none =>
      if A.malloc_ok = false then
        { ctx := none, trace := [.malloc false], ret := 0 }
      else
        let res := A.nst_http_txn_attach (attach_ctx A).txn
        if res.1 ≠ .NST_OK then
          { ctx := none, trace := [.malloc true, .http_txn_attach res.1, .free_ctx], ret := 0 }
        else
          { ctx := some { attach_ctx A with txn := res.2 },
            trace := [.malloc true, .http_txn_attach res.1, .register_data_filter false,
                      .register_data_filter true],
            ret := 1 }

/-- An attach environment with everything enabled and nothing failing, for a
proxy with three rules and two keys. -/
def attach_env0 : AttachEnv :=
  { global_cache_status := .ON, conf_status := .ON, conf_pid := 1, proxy_rule_cnt := 3,
    proxy_key_cnt := 2, malloc_ok := true, nst_http_txn_attach := fun t => (.NST_OK, t) }

/-! ## Sample fetch -/

/-- A filter of a stream, as far as the sample fetch reads it: `id` is
`FLT_ID(filter)`, `ctx` is `filter->ctx` (`none` is NULL). -/
structure filter where
  id : Nat
  ctx : Option nst_ctx
  deriving DecidableEq, Repr

/-- Sample types; the fetch only writes `SMP_T_BOOL`. -/
inductive smp_type where
  | SMP_T_BOOL
  | OTHER (n : Nat)
  deriving DecidableEq, Repr

/-- The part of a sample the fetch writes: `smp->data.type` and
`smp->data.u.sint`. -/
structure sample where
  data_type : smp_type
  data_sint : Int
  deriving DecidableEq, Repr

/-- The sample fetch `nst_smp_fetch_cache_hit` (lines 401-424) over the filter
list of the stream; `nst_cache_flt_id` is the identifier of the cache filter.
The result is the sample afterwards and the returned `int`. -/
def nst_smp_fetch_cache_hit (nst_cache_flt_id : Nat) : List filter → sample → sample × Int
  | [], smp => (smp, 0)
  | f :: fs, smp =>
    if f.id ≠ nst_cache_flt_id then
      nst_smp_fetch_cache_hit nst_cache_flt_id fs smp
    else
      match f.ctx with
      | none => (smp, 0)
      | some ctx =>
        ({ data_type := .SMP_T_BOOL,
           data_sint := if ctx.state = .HIT_MEMORY ∨ ctx.state = .HIT_DISK then 1 else 0 }, 1)

/-! ## Sequences of events -/

/-- A pipeline event delivered to the filter between attach and detach. -/
inductive Event where
  | headers (isresp : Bool)
  | payload (isresp : Bool) (offset len : Nat)
  | http_end (isresp : Bool)
  deriving DecidableEq, Repr

/-- Deliver one event to the callback registered for it. -/
def deliver (E : Env) (ev : Event) (ctx : nst_ctx) : Option Out :=
  match ev with
  | .headers d => _nst_cache_filter_http_headers E d ctx
  | .payload d offset len => _nst_cache_filter_http_payload E d ctx offset len
  | .http_end d => some (_nst_cache_filter_http_end E d ctx)

/-- Deliver events in order.  The result is the final context, the calls made
and the values the callbacks returned. -/
def deliver_all (E : Env) : List Event → nst_ctx → Option (nst_ctx × List Call × List Int)
  | [], c => some (c, [], [])
  | ev :: evs, c =>
    match deliver E ev c with
    | none => none
    | some o =>
      match deliver_all E evs o.ctx with
      | none => none
      | some (c1, tr, rets) => some (c1, o.trace ++ tr, o.ret :: rets)

/-- Payload and end-of-body events (the events that follow the headers). -/
def Event.is_body : Event → Bool
  | .headers _ => false
  | _ => true

/-- The input length of a payload event fits an `int`. -/
def Event.len_fits : Event → Bool
  | .payload _ _ len => decide (len < 2 ^ 31)
  | _ => true

/-- The value an event is expected to return: the input length of a payload
event, 1 otherwise. -/
def Event.full_ret : Event → Int
  | .payload _ _ len => (len : Int)
  | _ => 1

/-- Number of `nst_cache_create` calls in a trace. -/
def creates (t : List Call) : Nat :=
  t.countP (fun c => match c with | .cache_create => true | _ => false)

/-- Number of `nst_cache_update` calls (appends) in a trace. -/
def updates (t : List Call) : Nat :=
  t.countP (fun c => match c with | .cache_update _ _ _ => true | _ => false)

/-- Number of `nst_cache_finish` calls in a trace. -/
def finishes (t : List Call) : Nat :=
  t.countP (fun c => match c with | .cache_finish => true | _ => false)

/-- Number of `nst_cache_abort` calls in a trace. -/
def aborts (t : List Call) : Nat :=
  t.countP (fun c => match c with | .cache_abort => true | _ => false)

/-- Modelled from the spec: `nst_cache_finish` is not defined in filter.c.  The
spec says that finalizing the entry "clear[s] the create-in-progress linkage":
after the call the context is no longer in state `CREATE`. -/
def finish_clears_create (E : Env) : Prop :=
  ∀ c, (E.nst_cache_finish c).state ≠ .CREATE

/-- A failed append leaves the entry reference of the context non-NULL. -/
def update_keeps_entry (E : Env) : Prop :=
  ∀ c offset len, (E.nst_cache_update c offset len).1 ≠ .NST_OK →
    (E.nst_cache_update c offset len).2.entry ≠ none

/-! ## Bookkeeping for arbitrary runs of the request loop -/

/-- Calls made after the lookup of a rule, inside the loop: validator reads,
the conditional-request handler and the ACL test. -/
def quiet_call : Call → Bool
  | .persist_get_etag _ => true
  | .persist_get_last_modified _ => true
  | .http_handle_conditional_req _ => true
  | .test_rule _ _ _ => true
  | _ => false

/-- The state `s3` continues `s` with the same keys, state and cursor, the
trace extended by calls `t` that are all `quiet_call`s. -/
structure Frame (s s3 : St) (t : List Call) : Prop where
  keys_same : s3.ctx.keys = s.ctx.keys
  state_same : s3.ctx.state = s.ctx.state
  rule_same : s3.ctx.rule = s.ctx.rule
  rule_cnt_same : s3.ctx.rule_cnt = s.ctx.rule_cnt
  trace_ext : s3.trace = s.trace ++ t
  all_quiet : ∀ c ∈ t, quiet_call c = true

/-- Number of failed `nst_key_build` calls in a trace. -/
def failed_builds (t : List Call) : Nat :=
  t.countP (fun c => match c with | .key_build _ rc => decide (rc ≠ .NST_OK) | _ => false)

/-- Number of `nst_key_build` calls for key index `idx` in a trace. -/
def builds_of (idx : Nat) (t : List Call) : Nat :=
  t.countP (fun c => match c with | .key_build i _ => decide (i = idx) | _ => false)

/-- The keys (bytes and hash) with which the store was looked up for key index
`idx`, in call order. -/
def lookup_keys (idx : Nat) (t : List Call) : List nst_key :=
  t.filterMap (fun c => match c with
    | .cache_exists i k _ => if i = idx then some k else none
    | _ => none)

/-- A successful key build leaves the key's data non-NULL (the assumption
claim C13 names). -/
def build_sets_data (E : Env) : Prop :=
  ∀ r t k m, (E.nst_key_build r t k m).1 = .NST_OK → (E.nst_key_build r t k m).2.2.data ≠ none

/-- Modelled from the spec: `nst_key_hash` is not defined in filter.c.  The spec
gives the hasher the contract `hash(bytes) → uint64`: it leaves the key bytes
alone and the hash it stores depends on the bytes only. -/
def hash_of_bytes (E : Env) : Prop :=
  (∀ k, (E.nst_key_hash k).data = k.data) ∧
  (∀ k k2, k.data = k2.data → (E.nst_key_hash k).hash = (E.nst_key_hash k2).hash)

/-- The key array agrees with the trace: each key index was built at most
once, a key that was built has data, and every key the store was looked up with
still sits in the key array, has data and is left alone by hashing. -/
def Memo (E : Env) (keys : List nst_key) (t : List Call) : Prop :=
  ∀ idx, builds_of idx t ≤ 1 ∧
    (0 < builds_of idx t → ∃ k, keys[idx]? = some k ∧ k.data ≠ none) ∧
    (∀ k ∈ lookup_keys idx t, keys[idx]? = some k ∧ k.data ≠ none ∧ E.nst_key_hash k = k)

/-- Key building is memoized in a trace: each key index is built at most once
and all lookups for one key index use the same key (bytes and hash). -/
def memoized (t : List Call) : Prop :=
  ∀ idx, builds_of idx t ≤ 1 ∧
    ∀ k1 ∈ lookup_keys idx t, ∀ k2 ∈ lookup_keys idx t, k1 = k2

/-! ## Theorems -/

section trace_counts

lemma Seg.nil : Seg [] 0 0 0 0 0 :=
  ⟨by simp [key_builds], by simp [lookups], by simp [acl_tests], by simp [conditionals],
   by simp [hit_serves]⟩

lemma Seg.append {t1 t2 : List Call} {b1 l1 a1 c1 h1 b2 l2 a2 c2 h2 : Nat}
    (g1 : Seg t1 b1 l1 a1 c1 h1) (g2 : Seg t2 b2 l2 a2 c2 h2) :
    Seg (t1 ++ t2) (b1 + b2) (l1 + l2) (a1 + a2) (c1 + c2) (h1 + h2) := by
  obtain ⟨p1, p2, p3, p4, p5⟩ := g1
  obtain ⟨q1, q2, q3, q4, q5⟩ := g2
  simp only [key_builds] at p1 q1
  simp only [lookups] at p2 q2
  simp only [acl_tests] at p3 q3
  simp only [conditionals] at p4 q4
  simp only [hit_serves] at p5 q5
  exact ⟨by simp only [key_builds, List.countP_append]; omega,
         by simp only [lookups, List.countP_append]; omega,
         by simp only [acl_tests, List.countP_append]; omega,
         by simp only [conditionals, List.countP_append]; omega,
         by simp only [hit_serves, List.countP_append]; omega⟩

lemma Seg.mono {t : List Call} {b b2 l a c h : Nat} (g : Seg t b l a c h) (hb : b ≤ b2) :
    Seg t b2 l a c h :=
  ⟨le_trans g.builds_le hb, g.lookups_eq, g.acls_eq, g.conds_eq, g.serves_eq⟩

lemma Seg.cast {t : List Call} {b l a c h b2 l2 a2 c2 h2 : Nat} (g : Seg t b l a c h)
    (hb : b = b2) (hl : l = l2) (ha : a = a2) (hc : c = c2) (hh : h = h2) :
    Seg t b2 l2 a2 c2 h2 := by
  subst hb hl ha hc hh
  exact g

lemma Continues.refl (s : St) : Continues s s [] :=
  ⟨rfl, rfl, rfl, (List.append_nil _).symm⟩

lemma Continues.trans {s1 s2 s3 : St} {t1 t2 : List Call}
    (h1 : Continues s1 s2 t1) (h2 : Continues s2 s3 t2) : Continues s1 s3 (t1 ++ t2) :=
  ⟨h2.rule_cnt_eq.trans h1.rule_cnt_eq, h2.key_cnt_eq.trans h1.key_cnt_eq,
   h2.keys_len_eq.trans h1.keys_len_eq,
   by rw [h2.trace_eq, h1.trace_eq, List.append_assoc]⟩

end trace_counts


/-- C7: a request-direction header event whose method is `HTTP_METH_OTHER`
ends in state `BYPASS`, whatever the rule list and the prior state, and makes
no call at all: no parse, key build, lookup, ACL test or hit serving. -/
theorem req_headers_meth_other_bypass (E : Env) (ctx : nst_ctx) (hm : E.meth = .OTHER) :
    _nst_cache_filter_http_headers E false ctx
      = some { ctx := { ctx with state := .BYPASS }, trace := [], ret := 1 } := by
  simp [_nst_cache_filter_http_headers, req_headers, hm, req_serve]

theorem req_headers_meth_other_bypass_witness :
    ({ env0 with meth := .OTHER, proxy_rule := [⟨0, .ENABLED, 0, [], .ON, .ON⟩] } : Env).meth = .OTHER ∧
    _nst_cache_filter_http_headers
        { env0 with meth := .OTHER, proxy_rule := [⟨0, .ENABLED, 0, [], .ON, .ON⟩] } false (ctx0 1 1)
      = some { ctx := { ctx0 1 1 with state := .BYPASS }, trace := [], ret := 1 } :=
  ⟨rfl, req_headers_meth_other_bypass _ _ rfl⟩

/-- A disabled rule at the cursor: the loop body only moves the cursor. -/
lemma req_body_disabled (E : Env) (s : St) (r : nst_rule) (rest : List nst_rule)
    (hr : s.ctx.rule = r :: rest) (hd : r.state = .DISABLED) :
    req_body E s = some (.next { s with ctx := { s.ctx with rule := rest } }) := by
  simp [req_body, hr, hd]

/-- A run of the request loop over disabled rules only moves the cursor. -/
lemma req_loop_all_disabled (E : Env) :
    ∀ (n : Nat) (s : St), (∀ r ∈ s.ctx.rule, r.state = .DISABLED) → n ≤ s.ctx.rule.length →
      req_loop E n s = some (.brk { s with ctx := { s.ctx with rule := s.ctx.rule.drop n } }) := by
  intro n
  induction n with
  | zero => intro s _ _; simp [req_loop]
  | succ n ih =>
    intro s hall hlen
    match hr : s.ctx.rule with
    | [] => simp [hr] at hlen
    | r :: rest =>
      have hd : r.state = .DISABLED := hall r (by simp [hr])
      have hall1 : ∀ q ∈ rest, q.state = .DISABLED := fun q hq => hall q (by simp [hr, hq])
      have hlen1 : n ≤ rest.length := by simp [hr] at hlen; omega
      simp only [req_loop, req_body_disabled E s r rest hr hd]
      rw [ih { s with ctx := { s.ctx with rule := rest } } hall1 hlen1]
      simp

/-- C8: a disabled rule is skipped by the request-phase loop body: no call is
made (the trace is unchanged), the state and the keys are unchanged, only the
cursor advances; and when every rule is disabled a request-phase header event
that reaches the loop (state `INIT`, cacheable method, parse succeeding, a rule
list of at least `rule_cnt` nodes) makes no call besides the parse and leaves
the state `INIT` and the keys as they were. -/
theorem req_disabled_rule_skipped :
    (∀ (E : Env) (s : St) (r : nst_rule) (rest : List nst_rule),
      s.ctx.rule = r :: rest → r.state = .DISABLED →
      req_body E s = some (.next { ctx := { s.ctx with rule := rest }, trace := s.trace })) ∧
    (∀ (E : Env) (ctx : nst_ctx), ctx.state = .INIT → E.meth ≠ .OTHER →
      (E.nst_http_parse_htx ctx.txn).1 = .NST_OK →
      (∀ r ∈ E.proxy_rule, r.state = .DISABLED) → ctx.rule_cnt ≤ E.proxy_rule.length →
      _nst_cache_filter_http_headers E false ctx
        = some { ctx := { ctx with state := .INIT, txn := (E.nst_http_parse_htx ctx.txn).2,
                                   rule := E.proxy_rule.drop ctx.rule_cnt, keys := ctx.keys },
                 trace := [.http_parse_htx .NST_OK], ret := 1 }) := by
  refine ⟨fun E s r rest hr hd => req_body_disabled E s r rest hr hd, ?_⟩
  intro E ctx hst hm hp hall hlen
  have hloop := req_loop_all_disabled E ctx.rule_cnt
    { ctx := { ctx with txn := (E.nst_http_parse_htx ctx.txn).2, rule := E.proxy_rule },
      trace := [.http_parse_htx .NST_OK] } (by simpa using hall) (by simpa using hlen)
  rcases hpe : E.nst_http_parse_htx ctx.txn with ⟨rc, txn1⟩
  rw [hpe] at hp hloop
  simp only at hp hloop
  subst hp
  simp only [hst] at hloop
  simp [_nst_cache_filter_http_headers, req_headers, hm, hst, hpe, hloop, req_serve, req_finish]

theorem req_disabled_rule_skipped_witness :
    req_body env0 { ctx := { ctx0 2 1 with rule := [⟨0, .DISABLED, 0, [], .ON, .ON⟩] }, trace := [] }
        = some (.next { ctx := { ctx0 2 1 with rule := [] }, trace := [] }) ∧
    _nst_cache_filter_http_headers
        { env0 with proxy_rule := [⟨0, .DISABLED, 0, [], .ON, .ON⟩, ⟨1, .DISABLED, 0, [200], .OFF, .OFF⟩] }
        false (ctx0 2 1)
      = some { ctx := ctx0 2 1, trace := [.http_parse_htx .NST_OK], ret := 1 } :=
  ⟨req_disabled_rule_skipped.1 env0 _ ⟨0, .DISABLED, 0, [], .ON, .ON⟩ [] rfl rfl,
   req_disabled_rule_skipped.2
     { env0 with proxy_rule := [⟨0, .DISABLED, 0, [], .ON, .ON⟩, ⟨1, .DISABLED, 0, [200], .OFF, .OFF⟩] }
     (ctx0 2 1) rfl (by decide) rfl (by decide) (by decide)⟩

/-- Below `2 ^ 31` the conversion to `int` keeps the value. -/
lemma int_of_uint_small (n : Nat) (h : n < 2 ^ 31) : int_of_uint n = (n : Int) := by
  have h1 : n % 2 ^ 32 = n := Nat.mod_eq_of_lt (by omega)
  unfold int_of_uint
  rw [h1, if_pos h]

/-- C3 as stated fails for chunk lengths above `INT_MAX`: with the store append
failing in state `CREATE`, a chunk of 4294967295 bytes makes the callback
return -1, not the chunk length. -/
theorem payload_update_failure_returns_len_refuted :
    ∃ o, _nst_cache_filter_http_payload env_update_fails true ctx_create 0 4294967295 = some o ∧
      o.ctx.state = .BYPASS ∧ o.ret = -1 ∧ o.ret ≠ ((4294967295 : Nat) : Int) := by
  refine ⟨_, rfl, ?_, ?_, ?_⟩ <;> decide

/-- C3 (amended): a response-direction payload event with `0 < len <= INT_MAX`
in state `CREATE` whose store append fails returns exactly `len`, sets the
context state to `BYPASS` and sets the state of the entry under construction to
`INVALID` (and its data reference to NULL); the append is the only call made. -/
theorem payload_update_failure (E : Env) (ctx : nst_ctx) (offset len : Nat) (rc : nst_rc)
    (v : nst_ctx_view) (e : nst_dict_entry)
    (hlen : 0 < len) (hmax : len < 2 ^ 31) (hst : ctx.state = .CREATE)
    (hu : E.nst_cache_update ctx offset len = (rc, v)) (hrc : rc ≠ .NST_OK)
    (he : v.entry = some e) :
    _nst_cache_filter_http_payload E true ctx offset len
      = some { ctx := { ctx.commit v with
                          entry := some { state := .INVALID, data := none }, state := .BYPASS },
               trace := [.cache_update offset len rc], ret := (len : Int) } := by
  have h0 : ¬ len = 0 := by omega
  have hi : int_of_uint len = (len : Int) := int_of_uint_small len hmax
  simp [_nst_cache_filter_http_payload, h0, hst, hu, hrc, nst_ctx.commit, he, hi]

theorem payload_update_failure_witness :
    0 < 5 ∧ 5 < 2 ^ 31 ∧
    _nst_cache_filter_http_payload env_update_fails true ctx_create 3 5
      = some { ctx := { ctx_create with entry := some { state := .INVALID, data := none },
                                         state := .BYPASS },
               trace := [.cache_update 3 5 .NST_ERR], ret := 5 } :=
  ⟨by decide, by decide,
   payload_update_failure env_update_fails ctx_create 3 5 .NST_ERR ctx_create.view
     ⟨.OTHER 0, some 7⟩ (by decide) (by decide) rfl rfl (by decide) rfl⟩

/-- C4 as stated fails above `INT_MAX`: in state `BYPASS`, request direction,
a chunk of 2147483648 bytes makes the callback return -2147483648. -/
theorem payload_returns_len_refuted :
    ∃ o, _nst_cache_filter_http_payload env0 false { ctx0 1 1 with state := .BYPASS } 0 2147483648
        = some o ∧
      o.ret = -2147483648 ∧ o.ret ≠ ((2147483648 : Nat) : Int) := by
  refine ⟨_, rfl, ?_, ?_⟩ <;> decide

/-- C4 (amended): for every context state, direction, offset and chunk length
`len <= INT_MAX`, whether or not the store append succeeds (the entry reference
being non-NULL when it fails), the callback returns `len`; for `len = 0` it makes
no call and leaves the context unchanged. -/
theorem payload_returns_len (E : Env) (isresp : Bool) (ctx : nst_ctx) (offset len : Nat)
    (hmax : len < 2 ^ 31)
    (hent : ctx.state = .CREATE → isresp = true →
      (E.nst_cache_update ctx offset len).1 ≠ .NST_OK →
      (E.nst_cache_update ctx offset len).2.entry ≠ none) :
    ∃ o, _nst_cache_filter_http_payload E isresp ctx offset len = some o ∧
      o.ret = (len : Int) ∧ (len = 0 → o.ctx = ctx ∧ o.trace = []) := by
  have hi : int_of_uint len = (len : Int) := int_of_uint_small len hmax
  by_cases h0 : len = 0
  · subst h0
    simp [_nst_cache_filter_http_payload]
  · by_cases hc : ctx.state = .CREATE ∧ isresp = true
    · rcases hu : E.nst_cache_update ctx offset len with ⟨rc, v⟩
      by_cases hrc : rc = .NST_OK
      · simp [_nst_cache_filter_http_payload, h0, hc, hu, hrc, hi]
      · have hne : v.entry ≠ none := by
          have := hent hc.1 hc.2
          rw [hu] at this
          exact this hrc
        rcases hv : v.entry with _ | e
        · exact absurd hv hne
        · simp [_nst_cache_filter_http_payload, h0, hc, hu, hrc, nst_ctx.commit, hv, hi]
    · simp [_nst_cache_filter_http_payload, h0, hc, hi]

theorem payload_returns_len_witness :
    2147483647 < 2 ^ 31 ∧
    ∃ o, _nst_cache_filter_http_payload env_update_fails true ctx_create 0 2147483647 = some o ∧
      o.ret = ((2147483647 : Nat) : Int) ∧
      (2147483647 = 0 → o.ctx = ctx_create ∧ o.trace = []) :=
  ⟨by decide,
   payload_returns_len env_update_fails true ctx_create 0 2147483647 (by decide)
     (fun _ _ _ => by decide)⟩

/-- The scan of the status-code list finds exactly the members of the list. -/
lemma code_scan_iff (status : Nat) (cc : List Nat) : code_scan status cc = true ↔ status ∈ cc := by
  induction cc with
  | nil => simp [code_scan]
  | cons c cc ih =>
    by_cases h : c = status
    · simp [code_scan, h]
    · have h2 : ¬ status = c := fun e => h e.symm
      simp [code_scan, h, h2, ih]

/-- The status-code check accepts exactly an empty list or a list with the status. -/
lemma code_valid_iff (cc : List Nat) (status : Nat) :
    code_valid cc status = true ↔ (cc = [] ∨ status ∈ cc) := by
  by_cases h : cc = []
  · simp [code_valid, h]
  · simp [code_valid, h, code_scan_iff]

/-- Outside state `CREATE` a sequence of payload events makes no call and
leaves the context unchanged. -/
lemma payload_seq_not_create (E : Env) (ctx : nst_ctx) (hst : ctx.state ≠ .CREATE) :
    ∀ evs : List (Bool × Nat × Nat), payload_seq E evs ctx = some (ctx, []) := by
  intro evs
  induction evs with
  | nil => simp [payload_seq]
  | cons ev evs ih =>
    obtain ⟨isresp, offset, len⟩ := ev
    by_cases h0 : len = 0
    · simp [payload_seq, _nst_cache_filter_http_payload, h0, ih]
    · simp [payload_seq, _nst_cache_filter_http_payload, h0, hst, ih]

/-- C5: on a response-direction header event in state `PASS` (with a winning
rule at the cursor) entry creation is started, as validator builds followed by
`nst_cache_create`, if and only if the rule's accepted-status-code list is empty
or contains the response status; otherwise no call is made, the context (and so
the state `PASS`) is unchanged, and any later payload events append nothing. -/
theorem res_create_iff_code_accepted (E : Env) (ctx : nst_ctx) (r : nst_rule)
    (rest : List nst_rule) (hst : ctx.state = .PASS) (hr : ctx.rule = r :: rest) :
    ∃ o, _nst_cache_filter_http_headers E true ctx = some o ∧ o.ret = 1 ∧
      (Call.cache_create ∈ o.trace ↔ (r.code = [] ∨ E.status ∈ r.code)) ∧
      ((r.code = [] ∨ E.status ∈ r.code) →
        o.trace = [.cache_build_etag, .cache_build_last_modified, .cache_create] ∧
        o.ctx = ((ctx.commit (E.nst_cache_build_etag ctx)).commit
                  (E.nst_cache_build_last_modified (ctx.commit (E.nst_cache_build_etag ctx)))).commit
                  (E.nst_cache_create ((ctx.commit (E.nst_cache_build_etag ctx)).commit
                    (E.nst_cache_build_last_modified (ctx.commit (E.nst_cache_build_etag ctx)))))) ∧
      (¬ (r.code = [] ∨ E.status ∈ r.code) →
        o.trace = [] ∧ o.ctx = ctx ∧ o.ctx.state = .PASS ∧
        ∀ (E2 : Env) (evs : List (Bool × Nat × Nat)), payload_seq E2 evs o.ctx = some (ctx, [])) := by
  have hne : ctx.state ≠ .INIT := by rw [hst]; decide
  by_cases hv : r.code = [] ∨ E.status ∈ r.code
  · have hcv : code_valid r.code E.status = true := (code_valid_iff _ _).2 hv
    refine ⟨_, by simp [_nst_cache_filter_http_headers, res_headers, hne, res_create, hst, hr, hcv]; rfl,
      rfl, ?_, ?_, ?_⟩
    · simp [hv]
    · intro _; exact ⟨rfl, rfl⟩
    · intro h; exact absurd hv h
  · have hcv : code_valid r.code E.status = false := by
      rcases hb : code_valid r.code E.status with _ | _
      · rfl
      · exact absurd ((code_valid_iff _ _).1 hb) hv
    refine ⟨_, by simp [_nst_cache_filter_http_headers, res_headers, hne, res_create, hst, hr, hcv]; rfl,
      rfl, ?_, ?_, ?_⟩
    · simp [hv]
    · intro h; exact absurd h hv
    · intro _
      refine ⟨rfl, rfl, hst, ?_⟩
      intro E2 evs
      exact payload_seq_not_create E2 ctx (by rw [hst]; decide) evs

theorem res_create_iff_code_accepted_witness :
    ctx_pass_200.state = .PASS ∧ ctx_pass_200.rule = [rule_200] ∧
    ∃ o, _nst_cache_filter_http_headers env_404 true ctx_pass_200 = some o ∧ o.ret = 1 ∧
      Call.cache_create ∉ o.trace ∧ o.ctx.state = .PASS := by
  obtain ⟨o, h1, h2, h3, _, h5⟩ :=
    res_create_iff_code_accepted env_404 ctx_pass_200 rule_200 [] rfl rfl
  have hrej : ¬ (rule_200.code = [] ∨ env_404.status ∈ rule_200.code) := by decide
  exact ⟨rfl, rfl, o, h1, h2, fun h => hrej (h3.1 h), (h5 hrej).2.2.1⟩

/-- C9 (defect in the code): the response-phase rule walk does not test the
rule state.  With the single rule `rule_off`, which is disabled, the request
phase skips the rule and leaves the state `INIT`; the response phase then tests
its ACL, sets `PASS` with the disabled rule as the winning rule and starts
entry creation. -/
theorem res_walk_disabled_rule_wins :
    rule_off.state = .DISABLED ∧
    ∃ o1, _nst_cache_filter_http_headers env_rule_off false (ctx0 1 1) = some o1 ∧
      o1.ctx.state = .INIT ∧
      ∃ o2, _nst_cache_filter_http_headers env_rule_off true o1.ctx = some o2 ∧
        o2.ctx.rule = [rule_off] ∧ o2.ctx.state = .CREATE ∧
        o2.trace = [.test_rule rule_off true .NST_OK, .cache_build_etag,
                    .cache_build_last_modified, .cache_create] := by
  refine ⟨rfl, _, rfl, by decide, _, rfl, by decide, by decide, by decide⟩

/-- The `free` calls of the key loop: one for each built key, in index order. -/
lemma detach_keys_eq (keys : List nst_key) :
    ∀ (n i : Nat), i + n ≤ keys.length →
      detach_keys keys n i
        = some (((List.range' i n).filter (fun j => ((keys[j]?).bind nst_key.data).isSome)).map
            Call.free_key_data) := by
  intro n
  induction n with
  | zero => intro i _; simp [detach_keys]
  | succ n ih =>
    intro i h
    have hi : i < keys.length := by omega
    have hk : keys[i]? = some keys[i] := List.getElem?_eq_getElem hi
    rw [detach_keys, hk]
    simp only [ih (i + 1) (by omega)]
    rcases hd : (keys[i]).data with _ | d
    · simp [List.range', List.filter, hk, hd]
    · simp [List.range', List.filter, hk, hd]

/-- C10: detach on an existing context (whose `key_cnt` keys lie inside the key
array) makes exactly these calls, in this order: one statistics update with the
final state; `close` of the disk descriptor exactly when it is open (`fd > 0`);
`nst_cache_abort` exactly when the state is `CREATE`; one `free` for each key
index below `key_cnt` whose data is non-NULL; the transaction release and the
release of the context.  Without a context it makes no call. -/
theorem detach_effects (E : Env) (ctx : nst_ctx) (hk : ctx.key_cnt ≤ ctx.keys.length) :
    _nst_cache_filter_detach E (some ctx)
      = some ([Call.stats_update_cache ctx.state]
          ++ (if ctx.disk.fd > 0 then [Call.close ctx.disk.fd] else [])
          ++ (if ctx.state = .CREATE then [Call.cache_abort] else [])
          ++ ((List.range ctx.key_cnt).filter
                (fun i => ((ctx.keys[i]?).bind nst_key.data).isSome)).map Call.free_key_data
          ++ [Call.http_txn_detach, Call.free_ctx]) ∧
    _nst_cache_filter_detach E none = some [] := by
  refine ⟨?_, rfl⟩
  have hkeys := detach_keys_eq ctx.keys ctx.key_cnt 0 (by omega)
  rw [← List.range_eq_range'] at hkeys
  by_cases hc : ctx.state = .CREATE <;> by_cases hf : ctx.disk.fd > 0 <;>
    simp [_nst_cache_filter_detach, hc, hf, nst_ctx.commit, hkeys]

theorem detach_effects_witness :
    ctx_detach.key_cnt ≤ ctx_detach.keys.length ∧
    _nst_cache_filter_detach env0 (some ctx_detach)
      = some [.stats_update_cache .CREATE, .close 5, .cache_abort, .free_key_data 0,
              .free_key_data 2, .http_txn_detach, .free_ctx] := by
  refine ⟨by decide, ?_⟩
  rw [(detach_effects env0 ctx_detach (by decide)).1]
  decide

section request_loop

variable (E : Env) (L : nst_rule → nst_ctx_state)

/-- The key-build step when builds succeed. -/
lemma req_build_key_spec (s : St) (r : nst_rule) (key : nst_key)
    (hb : ∀ r t k m, (E.nst_key_build r t k m).1 = .NST_OK) :
    ∃ t, (req_build_key E s r key).1 = .NST_OK ∧
      (req_build_key E s r key).2.ctx.rule = s.ctx.rule ∧
      (req_build_key E s r key).2.ctx.state = s.ctx.state ∧
      Continues s (req_build_key E s r key).2 t ∧ Seg t 1 0 0 0 0 := by
  rcases hd : key.data with _ | d
  · refine ⟨[.key_build r.key_idx (E.nst_key_build r s.ctx.txn key E.meth).1], ?_⟩
    simp only [req_build_key, hd]
    refine ⟨hb _ _ _ _, rfl, rfl, ⟨rfl, rfl, by simp [St.call], rfl⟩, ?_⟩
    exact ⟨by simp [key_builds], by simp [lookups], by simp [acl_tests], by simp [conditionals],
      by simp [hit_serves]⟩
  · refine ⟨[], ?_⟩
    simp only [req_build_key, hd]
    exact ⟨trivial, trivial, trivial, Continues.refl _, Seg.nil.mono (by omega)⟩

/-- The lookup step: the state becomes the lookup result. -/
lemma req_lookup_spec (s : St) (r : nst_rule) (rest : List nst_rule)
    (hL : ∀ c r rest, c.rule = r :: rest → (E.nst_cache_exists c).1 = L r)
    (hr : s.ctx.rule = r :: rest) :
    ∃ t, (req_lookup E s r).ctx.state = L r ∧ (req_lookup E s r).ctx.rule = r :: rest ∧
      Continues s (req_lookup E s r) t ∧ Seg t 0 1 0 0 0 := by
  refine ⟨[.key_hash r.key_idx, .cache_exists r.key_idx
      (((req_hash E s r).ctx.keys[r.key_idx]?).getD ⟨none, 0⟩)
      (E.nst_cache_exists (req_hash E s r).ctx).1], ?_, ?_, ⟨rfl, rfl, ?_, ?_⟩, ?_⟩
  · simp only [req_lookup, St.call]
    exact hL _ r rest (by simp [req_hash, St.call, hr])
  · simp [req_lookup, St.call, nst_ctx.commit, req_hash, hr]
  · simp only [req_lookup, St.call, nst_ctx.commit, req_hash]
    split <;> simp
  · simp [req_lookup, St.call, req_hash]
  · exact ⟨by simp [key_builds], by simp [lookups], by simp [acl_tests], by simp [conditionals],
      by simp [hit_serves]⟩

/-- An enabled rule at the cursor, with its key inside the key array and key
builds succeeding: the loop body reaches the code after the lookup, in a state
whose `state` field is the lookup result. -/
lemma req_body_enabled (s : St) (r : nst_rule) (rest : List nst_rule)
    (hb : ∀ r t k m, (E.nst_key_build r t k m).1 = .NST_OK)
    (hL : ∀ c r rest, c.rule = r :: rest → (E.nst_cache_exists c).1 = L r)
    (hr : s.ctx.rule = r :: rest) (hen : r.state ≠ .DISABLED)
    (hidx : r.key_idx < s.ctx.keys.length) :
    ∃ s2 t, req_body E s = some (req_after_lookup E s2 r rest) ∧ s2.ctx.state = L r ∧
      s2.ctx.rule = r :: rest ∧ Continues s s2 t ∧ Seg t 1 1 0 0 0 := by
  have hk : s.ctx.keys[r.key_idx]? = some s.ctx.keys[r.key_idx] := List.getElem?_eq_getElem hidx
  obtain ⟨t1, h1, h2, _, h4, h5⟩ := req_build_key_spec E s r s.ctx.keys[r.key_idx] hb
  obtain ⟨t2, g1, g2, g3, g4⟩ :=
    req_lookup_spec E L (req_build_key E s r s.ctx.keys[r.key_idx]).2 r rest hL (h2.trans hr)
  refine ⟨req_lookup E (req_build_key E s r s.ctx.keys[r.key_idx]).2 r, t1 ++ t2, ?_, g1, g2,
    h4.trans g3, h5.append g4⟩
  simp [req_body, hr, hen, hk, h1]

lemma is_hit_false {st : nst_ctx_state} (h : is_hit st = false) :
    st ≠ .HIT_MEMORY ∧ st ≠ .HIT_DISK := by
  simpa [is_hit] using h

lemma is_hit_true {st : nst_ctx_state} (h : is_hit st = true) :
    st = .HIT_MEMORY ∨ st = .HIT_DISK := by
  simpa [is_hit] using h

/-- A rule that does not win is disabled, or misses and fails its ACL test. -/
lemma rule_wins_false {r : nst_rule} (h : rule_wins E L r = false) (hen : r.state ≠ .DISABLED) :
    is_hit (L r) = false ∧ E.nst_test_rule r false ≠ .NST_OK := by
  simpa [rule_wins, hen] using h

/-- After a miss whose ACL test fails the cursor advances. -/
lemma req_after_lookup_miss (s : St) (r : nst_rule) (rest : List nst_rule)
    (hm : is_hit s.ctx.state = false) (ha : E.nst_test_rule r false ≠ .NST_OK) :
    req_after_lookup E s r rest
      = .next { ctx := { s.ctx with rule := rest },
                trace := s.trace ++ [.test_rule r false (E.nst_test_rule r false)] } := by
  obtain ⟨h1, h2⟩ := is_hit_false hm
  simp [req_after_lookup, h1, h2, ha, St.call]

lemma Seg.acl (r : nst_rule) (b : Bool) (rc : nst_rc) : Seg [Call.test_rule r b rc] 0 0 1 0 0 :=
  ⟨by simp [key_builds], by simp [lookups], by simp [acl_tests], by simp [conditionals],
   by simp [hit_serves]⟩

lemma Seg.cond (h : Bool) : Seg [Call.http_handle_conditional_req h] 0 0 0 1 0 :=
  ⟨by simp [key_builds], by simp [lookups], by simp [acl_tests], by simp [conditionals],
   by simp [hit_serves]⟩

lemma Seg.serve (st : nst_ctx_state) : Seg [Call.cache_hit st] 0 0 0 0 1 :=
  ⟨by simp [key_builds], by simp [lookups], by simp [acl_tests], by simp [conditionals],
   by simp [hit_serves]⟩

lemma Seg.parse (rc : nst_rc) : Seg [Call.http_parse_htx rc] 0 0 0 0 0 :=
  ⟨by simp [key_builds], by simp [lookups], by simp [acl_tests], by simp [conditionals],
   by simp [hit_serves]⟩

lemma enabled_cnt_cons_disabled (r : nst_rule) (rs : List nst_rule) (h : r.state = .DISABLED) :
    enabled_cnt (r :: rs) = enabled_cnt rs := by
  simp [enabled_cnt, List.countP_cons, h]

lemma enabled_cnt_cons_enabled (r : nst_rule) (rs : List nst_rule) (h : r.state ≠ .DISABLED) :
    enabled_cnt (r :: rs) = enabled_cnt rs + 1 := by
  simp [enabled_cnt, List.countP_cons, h]

/-- The request loop over rules none of which wins: the cursor moves past them,
each enabled one is looked up and ACL-tested once, and the state is the lookup
result of the last enabled one. -/
lemma req_loop_prefix
    (hb : ∀ r t k m, (E.nst_key_build r t k m).1 = .NST_OK)
    (hL : ∀ c r rest, c.rule = r :: rest → (E.nst_cache_exists c).1 = L r) :
    ∀ (pre rest : List nst_rule) (n : Nat) (s : St), s.ctx.rule = pre ++ rest →
      (∀ r ∈ pre, rule_wins E L r = false) → (∀ r ∈ pre, r.key_idx < s.ctx.keys.length) →
      ∃ s2 t, req_loop E (pre.length + n) s = req_loop E n s2 ∧ s2.ctx.rule = rest ∧
        s2.ctx.state = last_lookup L s.ctx.state pre ∧ Continues s s2 t ∧
        Seg t (enabled_cnt pre) (enabled_cnt pre) (enabled_cnt pre) 0 0 := by
  intro pre
  induction pre with
  | nil =>
    intro rest n s hr _ _
    exact ⟨s, [], by simp, by simpa using hr, rfl, Continues.refl s, Seg.nil⟩
  | cons r pre ih =>
    intro rest n s hr hlose hidx
    have hr1 : s.ctx.rule = r :: (pre ++ rest) := by simpa using hr
    have hlen : (r :: pre).length + n = (pre.length + n) + 1 := by simp; omega
    have hlose1 : ∀ q ∈ pre, rule_wins E L q = false := fun q hq => hlose q (by simp [hq])
    by_cases hd : r.state = .DISABLED
    · have hidx1 : ∀ q ∈ pre, q.key_idx < s.ctx.keys.length := fun q hq => hidx q (by simp [hq])
      obtain ⟨s2, t, e1, e2, e3, e4, e5⟩ :=
        ih rest n { s with ctx := { s.ctx with rule := pre ++ rest } } rfl hlose1 hidx1
      refine ⟨s2, t, ?_, e2, ?_, ⟨e4.rule_cnt_eq, e4.key_cnt_eq, e4.keys_len_eq, e4.trace_eq⟩, ?_⟩
      · rw [hlen, req_loop, req_body_disabled E s r (pre ++ rest) hr1 hd]
        exact e1
      · simpa [last_lookup, hd] using e3
      · rw [enabled_cnt_cons_disabled r pre hd]; exact e5
    · obtain ⟨s1, t1, b1, b2, b3, b4, b5⟩ :=
        req_body_enabled E L s r (pre ++ rest) hb hL hr1 hd (hidx r (by simp))
      obtain ⟨hm, ha⟩ := rule_wins_false E L (hlose r (by simp)) hd
      rw [← b2] at hm
      have hstep := req_after_lookup_miss E s1 r (pre ++ rest) hm ha
      have hidx1 : ∀ q ∈ pre, q.key_idx < s1.ctx.keys.length := by
        intro q hq
        rw [b4.keys_len_eq]
        exact hidx q (by simp [hq])
      obtain ⟨s2, t, e1, e2, e3, e4, e5⟩ :=
        ih rest n { ctx := { s1.ctx with rule := pre ++ rest },
                    trace := s1.trace ++ [.test_rule r false (E.nst_test_rule r false)] }
          rfl hlose1 hidx1
      refine ⟨s2, (t1 ++ [.test_rule r false (E.nst_test_rule r false)]) ++ t, ?_, e2, ?_, ?_, ?_⟩
      · rw [hlen, req_loop, b1, hstep]
        exact e1
      · simpa [last_lookup, hd, b2] using e3
      · refine ⟨e4.rule_cnt_eq.trans b4.rule_cnt_eq, e4.key_cnt_eq.trans b4.key_cnt_eq,
          e4.keys_len_eq.trans b4.keys_len_eq, ?_⟩
        rw [e4.trace_eq]
        simp [b4.trace_eq, List.append_assoc]
      · rw [enabled_cnt_cons_enabled r pre hd]
        exact ((b5.append (Seg.acl r false _)).append e5).cast (by omega) (by omega) (by omega)
          rfl rfl

/-- The validator reads of a disk hit keep the state and the cursor and add
neither a lookup nor an ACL test. -/
lemma req_disk_etag_spec (s : St) (r : nst_rule) :
    ∃ t, (req_disk_etag E s r).2.ctx.state = s.ctx.state ∧
      (req_disk_etag E s r).2.ctx.rule = s.ctx.rule ∧
      Continues s (req_disk_etag E s r).2 t ∧ Seg t 0 0 0 0 0 := by
  by_cases h : r.etag = .ON
  · refine ⟨[.persist_get_etag (E.nst_persist_get_etag s.ctx.disk.fd s.ctx.disk.meta
        ⟨s.ctx.txn.buf_area + s.ctx.txn.buf_data,
         E.nst_persist_meta_get_etag_len s.ctx.disk.meta⟩)], ?_⟩
    simp only [req_disk_etag, h, if_true, St.call]
    exact ⟨trivial, trivial, ⟨rfl, rfl, rfl, rfl⟩,
      ⟨by simp [key_builds], by simp [lookups], by simp [acl_tests], by simp [conditionals],
       by simp [hit_serves]⟩⟩
  · refine ⟨[], ?_⟩
    simp only [req_disk_etag, h, if_false]
    exact ⟨trivial, trivial, Continues.refl _, Seg.nil⟩

lemma req_disk_last_modified_spec (s : St) (r : nst_rule) :
    ∃ t, (req_disk_last_modified E s r).2.ctx.state = s.ctx.state ∧
      (req_disk_last_modified E s r).2.ctx.rule = s.ctx.rule ∧
      Continues s (req_disk_last_modified E s r).2 t ∧ Seg t 0 0 0 0 0 := by
  by_cases h : r.last_modified = .ON
  · refine ⟨[.persist_get_last_modified
        (E.nst_persist_get_last_modified s.ctx.disk.fd s.ctx.disk.meta
          ⟨s.ctx.txn.buf_area + s.ctx.txn.buf_data,
           E.nst_persist_meta_get_last_modified_len s.ctx.disk.meta⟩)], ?_⟩
    simp only [req_disk_last_modified, h, if_true, St.call]
    exact ⟨trivial, trivial, ⟨rfl, rfl, rfl, rfl⟩,
      ⟨by simp [key_builds], by simp [lookups], by simp [acl_tests], by simp [conditionals],
       by simp [hit_serves]⟩⟩
  · refine ⟨[], ?_⟩
    simp only [req_disk_last_modified, h, if_false]
    exact ⟨trivial, trivial, Continues.refl _, Seg.nil⟩

/-- A loop body that does not fall through ends the loop. -/
lemma req_loop_stop (n : Nat) (s : St) (f : Flow) (hbody : req_body E s = some f)
    (hf : ∀ s3, f ≠ .next s3) : req_loop E (n + 1) s = some f := by
  rw [req_loop, hbody]
  cases f with
  | next s3 => exact absurd rfl (hf s3)
  | brk s3 => rfl
  | ret s3 v => rfl

lemma req_after_lookup_hit_memory (s : St) (r : nst_rule) (rest : List nst_rule)
    (h : s.ctx.state = .HIT_MEMORY) : req_after_lookup E s r rest = req_conditional E s r := by
  simp [req_after_lookup, h]

lemma req_after_lookup_hit_disk (s : St) (r : nst_rule) (rest : List nst_rule)
    (h : s.ctx.state = .HIT_DISK) : req_after_lookup E s r rest = req_hit_disk E s r := by
  simp [req_after_lookup, h]

/-- After a miss whose ACL test succeeds the loop is left in state `PASS`. -/
lemma req_after_lookup_acl_win (s : St) (r : nst_rule) (rest : List nst_rule)
    (hm : is_hit s.ctx.state = false) (ha : E.nst_test_rule r false = .NST_OK) :
    req_after_lookup E s r rest
      = .brk { ctx := { s.ctx with state := .PASS },
               trace := s.trace ++ [.test_rule r false .NST_OK] } := by
  obtain ⟨h1, h2⟩ := is_hit_false hm
  simp [req_after_lookup, h1, h2, ha, St.call]

/-- A disk hit: either a validator read fails and the loop is left, or the
conditional-request handler is reached. -/
lemma req_hit_disk_cases (s : St) (r : nst_rule) :
    ∃ s3 t, s3.ctx.state = s.ctx.state ∧ s3.ctx.rule = s.ctx.rule ∧ Continues s s3 t ∧
      Seg t 0 0 0 0 0 ∧
      (req_hit_disk E s r = .brk s3 ∨ req_hit_disk E s r = req_conditional E s3 r) := by
  obtain ⟨t1, a1, a2, a3, a4⟩ := req_disk_etag_spec E s r
  obtain ⟨t2, b1, b2, b3, b4⟩ := req_disk_last_modified_spec E (req_disk_etag E s r).2 r
  by_cases h1 : (req_disk_etag E s r).1 = .NST_OK
  · by_cases h2 : (req_disk_last_modified E (req_disk_etag E s r).2 r).1 = .NST_OK
    · exact ⟨_, t1 ++ t2, b1.trans a1, b2.trans a2, a3.trans b3, (a4.append b4),
        Or.inr (by simp [req_hit_disk, h1, h2])⟩
    · exact ⟨_, t1 ++ t2, b1.trans a1, b2.trans a2, a3.trans b3, (a4.append b4),
        Or.inl (by simp [req_hit_disk, h1, h2])⟩
  · exact ⟨_, t1, a1, a2, a3, a4, Or.inl (by simp [req_hit_disk, h1])⟩

/-- A disk hit whose validator reads succeed reaches the handler. -/
lemma req_hit_disk_reads_ok (s : St) (r : nst_rule) (hok : reads_ok E r) :
    ∃ s3 t, s3.ctx.state = s.ctx.state ∧ s3.ctx.rule = s.ctx.rule ∧ Continues s s3 t ∧
      Seg t 0 0 0 0 0 ∧ req_hit_disk E s r = req_conditional E s3 r := by
  obtain ⟨t1, a1, a2, a3, a4⟩ := req_disk_etag_spec E s r
  obtain ⟨t2, b1, b2, b3, b4⟩ := req_disk_last_modified_spec E (req_disk_etag E s r).2 r
  have h1 : (req_disk_etag E s r).1 = .NST_OK := by
    by_cases h : r.etag = .ON
    · simp [req_disk_etag, h, hok.1 h]
    · simp [req_disk_etag, h]
  have h2 : (req_disk_last_modified E (req_disk_etag E s r).2 r).1 = .NST_OK := by
    by_cases h : r.last_modified = .ON
    · simp [req_disk_last_modified, h, hok.2 h]
    · simp [req_disk_last_modified, h]
  exact ⟨_, t1 ++ t2, b1.trans a1, b2.trans a2, a3.trans b3, (a4.append b4),
    by simp [req_hit_disk, h1, h2]⟩

/-- A disk hit with a failing validator read leaves the loop before the handler. -/
lemma req_hit_disk_reads_fail (s : St) (r : nst_rule) (hfail : reads_fail E r) :
    ∃ s3 t, s3.ctx.state = s.ctx.state ∧ s3.ctx.rule = s.ctx.rule ∧ Continues s s3 t ∧
      Seg t 0 0 0 0 0 ∧ req_hit_disk E s r = .brk s3 := by
  obtain ⟨t1, a1, a2, a3, a4⟩ := req_disk_etag_spec E s r
  obtain ⟨t2, b1, b2, b3, b4⟩ := req_disk_last_modified_spec E (req_disk_etag E s r).2 r
  by_cases h1 : (req_disk_etag E s r).1 = .NST_OK
  · have h2 : (req_disk_last_modified E (req_disk_etag E s r).2 r).1 ≠ .NST_OK := by
      rcases hfail with ⟨he, hf⟩ | ⟨hl, hf⟩
      · exact absurd h1 (by simp [req_disk_etag, he, hf])
      · simp [req_disk_last_modified, hl, hf]
    exact ⟨_, t1 ++ t2, b1.trans a1, b2.trans a2, a3.trans b3, (a4.append b4),
      by simp [req_hit_disk, h1, h2]⟩
  · exact ⟨_, t1, a1, a2, a3, a4, by simp [req_hit_disk, h1]⟩

/-- A request-direction header event in the setting `ReqRun` runs up to the code
that follows the lookup of the winning rule, and ends there unless that code
falls through to the next rule. -/
lemma req_headers_reach (ctx : nst_ctx) (pre : List nst_rule) (w : nst_rule)
    (post : List nst_rule) (h : ReqRun E L ctx pre w post) :
    ∃ s2, s2.ctx.state = L w ∧ s2.ctx.rule = w :: post ∧
      Seg s2.trace (enabled_cnt pre + 1) (enabled_cnt pre + 1) (enabled_cnt pre) 0 0 ∧
      ((∀ s3, req_after_lookup E s2 w post ≠ .next s3) →
        _nst_cache_filter_http_headers E false ctx
          = some (req_finish E (req_after_lookup E s2 w post))) := by
  have hwen : w.state ≠ .DISABLED := by
    have := h.winner
    simp only [rule_wins, Bool.and_eq_true, decide_eq_true_eq] at this
    exact this.1
  have hidx_pre : ∀ r ∈ pre, r.key_idx < ctx.keys.length :=
    fun r hr => h.idx r (by rw [h.rules]; simp [hr])
  have hidx_w : w.key_idx < ctx.keys.length := h.idx w (by rw [h.rules]; simp)
  have hcnt : ctx.rule_cnt = pre.length + (post.length + 1) := by
    rw [h.cnt, h.rules]; simp
  obtain ⟨s1, t1, e1, e2, _, e4, e5⟩ :=
    req_loop_prefix E L h.build_ok h.lookup pre (w :: post) (post.length + 1)
      { ctx := { ctx with txn := (E.nst_http_parse_htx ctx.txn).2, rule := E.proxy_rule },
        trace := [.http_parse_htx .NST_OK] } (by simp [h.rules]) h.losers
      (by simpa using hidx_pre)
  obtain ⟨s2, t2, b1, b2, b3, b4, b5⟩ :=
    req_body_enabled E L s1 w post h.build_ok h.lookup e2 hwen
      (by rw [e4.keys_len_eq]; simpa using hidx_w)
  refine ⟨s2, b2, b3, ?_, ?_⟩
  · rw [b4.trace_eq, e4.trace_eq]
    exact (((Seg.parse .NST_OK).append e5).append b5).cast (by omega) (by omega) (by omega)
      rfl rfl
  · intro hf
    have hloop := req_loop_stop E post.length s1 _ b1 hf
    rcases hpe : E.nst_http_parse_htx ctx.txn with ⟨rc, txn1⟩
    have hp := h.parse_ok
    rw [hpe] at hp e1
    simp only at hp e1
    subst hp
    have hst := h.state_init
    simp only [_nst_cache_filter_http_headers, req_headers, h.meth_ok, hst, hpe, if_false,
      if_true, Bool.false_eq_true, ne_eq, not_true_eq_false, hcnt]
    simp only [hst, hcnt] at e1
    rw [e1, hloop]

/-- The conditional-request handler is called once; the callback returns 1 when
it handled the request and the loop is left otherwise. -/
lemma req_conditional_cases (s : St) (r : nst_rule) :
    ∃ hd, (hd = true → req_conditional E s r
              = .ret { ctx := s.ctx, trace := s.trace ++ [.http_handle_conditional_req true] } 1) ∧
          (hd = false → req_conditional E s r
              = .brk { ctx := s.ctx, trace := s.trace ++ [.http_handle_conditional_req false] }) := by
  refine ⟨E.nst_http_handle_conditional_req s.ctx.txn.res_last_modified s.ctx.txn.res_etag
    r.last_modified r.etag, ?_, ?_⟩
  · intro h; simp [req_conditional, h, St.call]
  · intro h; simp [req_conditional, h, St.call]

/-- Leaving the loop in a hit state serves the cached response once. -/
lemma req_finish_brk_hit (s : St) (h : is_hit s.ctx.state = true) :
    req_finish E (.brk s)
      = { ctx := s.ctx.commit (E.nst_cache_hit s.ctx),
          trace := s.trace ++ [.cache_hit s.ctx.state], ret := 1 } := by
  have := is_hit_true h
  simp [req_finish, req_serve, this]

/-- Leaving the loop in a state that is not a hit serves nothing. -/
lemma req_finish_brk_miss (s : St) (h : is_hit s.ctx.state = false) :
    req_finish E (.brk s) = { ctx := s.ctx, trace := s.trace, ret := 1 } := by
  obtain ⟨h1, h2⟩ := is_hit_false h
  simp [req_finish, req_serve, h1, h2]

/-- The code after a lookup that hit: the loop is left or the callback returns
at once; no further key build, lookup or ACL test is made. -/
lemma req_after_lookup_hit (s : St) (r : nst_rule) (rest : List nst_rule)
    (hh : is_hit s.ctx.state = true) :
    ∃ s3 t c, s3.ctx.state = s.ctx.state ∧ s3.ctx.rule = s.ctx.rule ∧ Continues s s3 t ∧
      Seg t 0 0 0 c 0 ∧
      (req_after_lookup E s r rest = .brk s3 ∨ req_after_lookup E s r rest = .ret s3 1) := by
  have key : ∀ s1 : St, ∃ s3 t c, s3.ctx.state = s1.ctx.state ∧ s3.ctx.rule = s1.ctx.rule ∧
      Continues s1 s3 t ∧ Seg t 0 0 0 c 0 ∧
      (req_conditional E s1 r = .brk s3 ∨ req_conditional E s1 r = .ret s3 1) := by
    intro s1
    obtain ⟨hd, c1, c2⟩ := req_conditional_cases E s1 r
    cases hd with
    | true =>
      exact ⟨{ ctx := s1.ctx, trace := s1.trace ++ [.http_handle_conditional_req true] },
        [.http_handle_conditional_req true], 1, rfl, rfl, ⟨rfl, rfl, rfl, rfl⟩, Seg.cond true,
        Or.inr (c1 rfl)⟩
    | false =>
      exact ⟨{ ctx := s1.ctx, trace := s1.trace ++ [.http_handle_conditional_req false] },
        [.http_handle_conditional_req false], 1, rfl, rfl, ⟨rfl, rfl, rfl, rfl⟩, Seg.cond false,
        Or.inl (c2 rfl)⟩
  rcases is_hit_true hh with hm | hdk
  · rw [req_after_lookup_hit_memory E s r rest hm]
    exact key s
  · rw [req_after_lookup_hit_disk E s r rest hdk]
    obtain ⟨s3, t, d1, d2, d3, d4, d5⟩ := req_hit_disk_cases E s r
    rcases d5 with d5 | d5
    · exact ⟨s3, t, 0, d1, d2, d3, d4, Or.inl d5⟩
    · obtain ⟨s4, t4, c, k1, k2, k3, k4, k5⟩ := key s3
      rw [d5]
      exact ⟨s4, t ++ t4, c, k1.trans d1, k2.trans d2, d3.trans k3,
        (d4.append k4).cast rfl rfl rfl (by omega) rfl, k5⟩

lemma enabled_cnt_append_one (pre : List nst_rule) (w : nst_rule) (h : w.state ≠ .DISABLED) :
    enabled_cnt (pre ++ [w]) = enabled_cnt pre + 1 := by
  simp [enabled_cnt, List.countP_append, h]

lemma ReqRun.winner_enabled {ctx : nst_ctx} {pre : List nst_rule} {w : nst_rule}
    {post : List nst_rule} (h : ReqRun E L ctx pre w post) : w.state ≠ .DISABLED := by
  have := h.winner
  simp only [rule_wins, Bool.and_eq_true, decide_eq_true_eq] at this
  exact this.1

lemma ReqRun.winner_acl {ctx : nst_ctx} {pre : List nst_rule} {w : nst_rule}
    {post : List nst_rule} (h : ReqRun E L ctx pre w post) (hm : is_hit (L w) = false) :
    E.nst_test_rule w false = .NST_OK := by
  have := h.winner
  simpa [rule_wins, hm, ReqRun.winner_enabled E L h] using this

end request_loop

/-- The setting `ReqRun` holds of `env_hit` for every hit state `st`. -/
lemma env_hit_run (st : nst_ctx_state) (rc : nst_rc) (hd : Bool) (hst : is_hit st = true) :
    ReqRun (env_hit st rc hd) (lookup_hit st) (ctx0 4 2) [rule_miss, rule_off] rule_hit
      [rule_200] where
  state_init := rfl
  meth_ok := by simp [env_hit, env0]
  parse_ok := rfl
  rules := rfl
  cnt := rfl
  idx := by
    intro r hr
    simp only [env_hit, List.mem_cons, List.mem_singleton, List.not_mem_nil, or_false] at hr
    rcases hr with h | h | h | h <;> subst h <;> decide
  build_ok := fun _ _ _ _ => rfl
  lookup := by
    intro c r rest hc
    simp [env_hit, hc]
  losers := by
    intro r hr
    simp only [List.mem_cons, List.mem_singleton, List.not_mem_nil, or_false] at hr
    rcases hr with h | h <;> subst h <;> rfl
  winner := by
    simp [rule_wins, lookup_hit, rule_hit, hst]

/-- Counting the calls of a run in the setting `ReqRun`: the cursor ends at the
winner, the state is its hit state or `PASS`, each enabled rule up to the winner
is looked up once and built at most once, and each rule before the winner (and
the winner when it did not hit) is ACL-tested once. -/
lemma req_first_match_counts (E : Env) (L : nst_rule → nst_ctx_state) (ctx : nst_ctx)
    (pre : List nst_rule) (w : nst_rule) (post : List nst_rule)
    (h : ReqRun E L ctx pre w post)
    (hserve : ∀ c, (E.nst_cache_hit c).state = c.state) :
    ∃ o, _nst_cache_filter_http_headers E false ctx = some o ∧
      o.ctx.rule = w :: post ∧
      o.ctx.state = (if is_hit (L w) = true then L w else .PASS) ∧
      lookups o.trace = enabled_cnt (pre ++ [w]) ∧
      key_builds o.trace ≤ enabled_cnt (pre ++ [w]) ∧
      acl_tests o.trace = enabled_cnt pre + (if is_hit (L w) = true then 0 else 1) := by
  obtain ⟨s2, a1, a2, a3, a4⟩ := req_headers_reach E L ctx pre w post h
  rw [enabled_cnt_append_one pre w (ReqRun.winner_enabled E L h)]
  by_cases hh : is_hit (L w) = true
  · have hh2 : is_hit s2.ctx.state = true := by rw [a1]; exact hh
    obtain ⟨s3, t, c, b1, b2, b3, b4, b5⟩ := req_after_lookup_hit E s2 w post hh2
    have hh3 : is_hit s3.ctx.state = true := by rw [b1]; exact hh2
    have hseg := a3.append b4
    rw [← b3.trace_eq] at hseg
    rcases b5 with b5 | b5
    · have hrun := a4 (by rw [b5]; intro s4 hc; cases hc)
      rw [b5, req_finish_brk_hit E s3 hh3] at hrun
      have hfin := hseg.append (Seg.serve s3.ctx.state)
      refine ⟨_, hrun, ?_, ?_, ?_, ?_, ?_⟩
      · simp [nst_ctx.commit, b2, a2]
      · simp [nst_ctx.commit, hserve, b1, a1, hh]
      · simpa using hfin.lookups_eq
      · simpa using hfin.builds_le
      · simpa [hh] using hfin.acls_eq
    · have hrun := a4 (by rw [b5]; intro s4 hc; cases hc)
      rw [b5] at hrun
      refine ⟨_, hrun, ?_, ?_, ?_, ?_, ?_⟩
      · simp [req_finish, b2, a2]
      · simp [req_finish, b1, a1, hh]
      · simpa [req_finish] using hseg.lookups_eq
      · simpa [req_finish] using hseg.builds_le
      · simpa [req_finish, hh] using hseg.acls_eq
  · have hm : is_hit (L w) = false := by simpa using hh
    have hm2 : is_hit s2.ctx.state = false := by rw [a1]; exact hm
    have hacl := ReqRun.winner_acl E L h hm
    have hstep := req_after_lookup_acl_win E s2 w post hm2 hacl
    have hrun := a4 (by rw [hstep]; intro s4 hc; cases hc)
    rw [hstep, req_finish_brk_miss E _ (by simp [is_hit])] at hrun
    have hfin := a3.append (Seg.acl w false .NST_OK)
    refine ⟨_, hrun, ?_, ?_, ?_, ?_, ?_⟩
    · simp [a2]
    · simp [hh]
    · simpa using hfin.lookups_eq
    · simpa using hfin.builds_le
    · simpa [hh] using hfin.acls_eq

/-- C2 as stated fails: with the rules `rule_miss`, `rule_off`, `rule_hit`,
`rule_200`, a lookup answering `HIT_DISK` for `rule_hit` and a failing etag read,
the hit is not abandoned.  The loop is left at `rule_hit`, the next rule
`rule_200` is never looked up or tested, the state stays `HIT_DISK` and
`nst_cache_hit` is invoked. -/
theorem req_disk_read_failure_falls_through_refuted :
    ∃ o, _nst_cache_filter_http_headers (env_hit .HIT_DISK .NST_ERR false) false (ctx0 4 2)
        = some o ∧
      o.ctx.rule = [rule_hit, rule_200] ∧ o.ctx.state = .HIT_DISK ∧
      o.trace = [.http_parse_htx .NST_OK,
                 .key_build 0 .NST_OK, .key_hash 0, .cache_exists 0 ⟨some [0], 1⟩ .INIT,
                 .test_rule rule_miss false .NST_ERR,
                 .key_build 1 .NST_OK, .key_hash 1, .cache_exists 1 ⟨some [1], 2⟩ .HIT_DISK,
                 .persist_get_etag .NST_ERR,
                 .cache_hit .HIT_DISK] := by
  refine ⟨_, rfl, ?_, ?_, ?_⟩ <;> decide

/-- C2 (amended): in the setting `ReqRun`, when the lookup for the rule `w`
returns `HIT_DISK` and a requested validator read fails, the rule loop is left
at `w`: the conditional-request handler is not called, no later rule is looked
up or tested, and `nst_cache_hit` is then invoked once, in state `HIT_DISK`, as
the last call of the event. -/
theorem req_disk_read_failure_breaks (E : Env) (L : nst_rule → nst_ctx_state) (ctx : nst_ctx)
    (pre : List nst_rule) (w : nst_rule) (post : List nst_rule)
    (h : ReqRun E L ctx pre w post) (hdisk : L w = .HIT_DISK) (hfail : reads_fail E w) :
    ∃ o t, _nst_cache_filter_http_headers E false ctx = some o ∧ o.ret = 1 ∧
      o.ctx.rule = w :: post ∧
      o.trace = t ++ [Call.cache_hit .HIT_DISK] ∧
      conditionals t = 0 ∧ hit_serves t = 0 ∧
      lookups t = enabled_cnt (pre ++ [w]) ∧ acl_tests t = enabled_cnt pre := by
  obtain ⟨s2, a1, a2, a3, a4⟩ := req_headers_reach E L ctx pre w post h
  rw [enabled_cnt_append_one pre w (ReqRun.winner_enabled E L h)]
  have hs2 : s2.ctx.state = .HIT_DISK := a1.trans hdisk
  obtain ⟨s3, t, b1, b2, b3, b4, b5⟩ := req_hit_disk_reads_fail E s2 w hfail
  have hstep : req_after_lookup E s2 w post = .brk s3 := by
    rw [req_after_lookup_hit_disk E s2 w post hs2, b5]
  have hs3 : s3.ctx.state = .HIT_DISK := b1.trans hs2
  have hrun := a4 (by rw [hstep]; intro s4 hc; cases hc)
  rw [hstep, req_finish_brk_hit E s3 (by rw [hs3]; rfl), hs3] at hrun
  have hseg := a3.append b4
  rw [← b3.trace_eq] at hseg
  refine ⟨_, s3.trace, hrun, rfl, ?_, rfl, ?_, ?_, ?_, ?_⟩
  · simp [nst_ctx.commit, b2, a2]
  · simpa using hseg.conds_eq
  · simpa using hseg.serves_eq
  · simpa using hseg.lookups_eq
  · simpa using hseg.acls_eq

theorem req_disk_read_failure_breaks_witness :
    ReqRun (env_hit .HIT_DISK .NST_ERR true) (lookup_hit .HIT_DISK) (ctx0 4 2)
      [rule_miss, rule_off] rule_hit [rule_200] ∧
    lookup_hit .HIT_DISK rule_hit = .HIT_DISK ∧
    reads_fail (env_hit .HIT_DISK .NST_ERR true) rule_hit ∧
    ∃ o t, _nst_cache_filter_http_headers (env_hit .HIT_DISK .NST_ERR true) false (ctx0 4 2)
        = some o ∧ o.ret = 1 ∧
      o.ctx.rule = rule_hit :: [rule_200] ∧
      o.trace = t ++ [Call.cache_hit .HIT_DISK] ∧
      conditionals t = 0 ∧ hit_serves t = 0 ∧
      lookups t = enabled_cnt ([rule_miss, rule_off] ++ [rule_hit]) ∧
      acl_tests t = enabled_cnt [rule_miss, rule_off] :=
  ⟨env_hit_run .HIT_DISK .NST_ERR true rfl, rfl,
   Or.inl ⟨rfl, fun _ _ _ => by simp [env_hit]⟩,
   req_disk_read_failure_breaks _ _ _ _ _ _ (env_hit_run .HIT_DISK .NST_ERR true rfl) rfl
     (Or.inl ⟨rfl, fun _ _ _ => by simp [env_hit]⟩)⟩

/-- C6: in the setting `ReqRun` with the lookup of `w` a hit (`HIT_MEMORY`, or
`HIT_DISK` with the requested validator reads succeeding), the
conditional-request handler is called once, after the lookups, in a context `c`
whose state is the hit state and whose cursor is at `w`, on the validators of
`c` and the validator flags of `w`.  If the handler reports a short-circuit
(its answer on these arguments is `true`) that call is the last call of the
event: the callback returns 1 at once with the context `c`, and `nst_cache_hit`
is not invoked.  If it reports none, the loop is left (no later rule is looked
up or tested) and `nst_cache_hit` is invoked exactly once, as the next and last
call, on the context `c`, whose state is still the hit state. -/
theorem req_hit_conditional (E : Env) (L : nst_rule → nst_ctx_state) (ctx : nst_ctx)
    (pre : List nst_rule) (w : nst_rule) (post : List nst_rule)
    (h : ReqRun E L ctx pre w post) (hhit : is_hit (L w) = true)
    (hreads : L w = .HIT_DISK → reads_ok E w) :
    ∃ o t c, _nst_cache_filter_http_headers E false ctx = some o ∧ o.ret = 1 ∧
      o.ctx.rule = w :: post ∧ c.state = L w ∧ c.rule = w :: post ∧
      conditionals t = 0 ∧ hit_serves t = 0 ∧
      lookups t = enabled_cnt (pre ++ [w]) ∧ acl_tests t = enabled_cnt pre ∧
      (E.nst_http_handle_conditional_req c.txn.res_last_modified c.txn.res_etag
          w.last_modified w.etag = true →
        o.ctx = c ∧ o.trace = t ++ [Call.http_handle_conditional_req true]) ∧
      (E.nst_http_handle_conditional_req c.txn.res_last_modified c.txn.res_etag
          w.last_modified w.etag = false →
        o.ctx = c.commit (E.nst_cache_hit c) ∧
        o.trace = t ++ [Call.http_handle_conditional_req false, Call.cache_hit (L w)]) := by
  obtain ⟨s2, a1, a2, a3, a4⟩ := req_headers_reach E L ctx pre w post h
  rw [enabled_cnt_append_one pre w (ReqRun.winner_enabled E L h)]
  have hreach : ∃ s3 t3, s3.ctx.state = L w ∧ s3.ctx.rule = w :: post ∧
      Seg s3.trace (enabled_cnt pre + 1 + t3) (enabled_cnt pre + 1) (enabled_cnt pre) 0 0 ∧
      req_after_lookup E s2 w post = req_conditional E s3 w := by
    rcases is_hit_true hhit with hm | hd
    · exact ⟨s2, 0, a1, a2, a3, req_after_lookup_hit_memory E s2 w post (a1.trans hm)⟩
    · obtain ⟨s3, t, b1, b2, b3, b4, b5⟩ := req_hit_disk_reads_ok E s2 w (hreads hd)
      refine ⟨s3, 0, b1.trans a1, b2.trans a2, ?_, ?_⟩
      · rw [b3.trace_eq]; exact a3.append b4
      · rw [req_after_lookup_hit_disk E s2 w post (a1.trans hd), b5]
  obtain ⟨s3, t3, c1, c2, c3, c4⟩ := hreach
  have hrun : ∀ f, req_conditional E s3 w = f → (∀ s4, f ≠ .next s4) →
      _nst_cache_filter_http_headers E false ctx = some (req_finish E f) := by
    intro f hf hn
    have := a4 (by rw [c4, hf]; exact hn)
    rw [c4, hf] at this
    exact this
  refine ⟨_nst_cache_filter_http_headers E false ctx |>.getD ⟨s3.ctx, [], 0⟩, s3.trace, s3.ctx,
    ?_⟩
  by_cases hd : E.nst_http_handle_conditional_req s3.ctx.txn.res_last_modified
      s3.ctx.txn.res_etag w.last_modified w.etag = true
  · have hstep : req_conditional E s3 w
        = .ret { ctx := s3.ctx, trace := s3.trace ++ [.http_handle_conditional_req true] } 1 := by
      simp [req_conditional, hd, St.call]
    have hr := hrun _ hstep (by intro s4 hc; cases hc)
    rw [hr]
    refine ⟨rfl, rfl, c2, c1, c2, c3.conds_eq, c3.serves_eq, c3.lookups_eq, c3.acls_eq, ?_, ?_⟩
    · intro _; exact ⟨rfl, rfl⟩
    · intro hc; rw [hd] at hc; cases hc
  · have hf : E.nst_http_handle_conditional_req s3.ctx.txn.res_last_modified
        s3.ctx.txn.res_etag w.last_modified w.etag = false := by simpa using hd
    have hstep : req_conditional E s3 w
        = .brk { ctx := s3.ctx, trace := s3.trace ++ [.http_handle_conditional_req false] } := by
      simp [req_conditional, hf, St.call]
    have hr := hrun _ hstep (by intro s4 hc; cases hc)
    rw [req_finish_brk_hit E _ (by simpa [c1] using hhit)] at hr
    rw [hr]
    refine ⟨rfl, rfl, ?_, c1, c2, c3.conds_eq, c3.serves_eq, c3.lookups_eq, c3.acls_eq, ?_, ?_⟩
    · simp [nst_ctx.commit, c2]
    · intro hc; exact absurd hc hd
    · intro _; exact ⟨rfl, by simp [c1]⟩

theorem req_hit_conditional_witness :
    ReqRun (env_hit .HIT_DISK .NST_OK true) (lookup_hit .HIT_DISK) (ctx0 4 2)
      [rule_miss, rule_off] rule_hit [rule_200] ∧
    is_hit (lookup_hit .HIT_DISK rule_hit) = true ∧
    (lookup_hit .HIT_DISK rule_hit = .HIT_DISK → reads_ok (env_hit .HIT_DISK .NST_OK true) rule_hit) ∧
    ∃ o t c, _nst_cache_filter_http_headers (env_hit .HIT_DISK .NST_OK true) false (ctx0 4 2)
        = some o ∧ o.ret = 1 ∧
      o.ctx.rule = rule_hit :: [rule_200] ∧ c.state = lookup_hit .HIT_DISK rule_hit ∧
      c.rule = rule_hit :: [rule_200] ∧
      conditionals t = 0 ∧ hit_serves t = 0 ∧
      lookups t = enabled_cnt ([rule_miss, rule_off] ++ [rule_hit]) ∧
      acl_tests t = enabled_cnt [rule_miss, rule_off] ∧
      ((env_hit .HIT_DISK .NST_OK true).nst_http_handle_conditional_req c.txn.res_last_modified
          c.txn.res_etag rule_hit.last_modified rule_hit.etag = true →
        o.ctx = c ∧ o.trace = t ++ [Call.http_handle_conditional_req true]) ∧
      ((env_hit .HIT_DISK .NST_OK true).nst_http_handle_conditional_req c.txn.res_last_modified
          c.txn.res_etag rule_hit.last_modified rule_hit.etag = false →
        o.ctx = c.commit ((env_hit .HIT_DISK .NST_OK true).nst_cache_hit c) ∧
        o.trace = t ++ [Call.http_handle_conditional_req false,
          Call.cache_hit (lookup_hit .HIT_DISK rule_hit)]) :=
  ⟨env_hit_run .HIT_DISK .NST_OK true rfl, rfl,
   fun _ => ⟨fun _ _ _ _ => rfl, fun _ _ _ _ => rfl⟩,
   req_hit_conditional _ _ _ _ _ _ (env_hit_run .HIT_DISK .NST_OK true rfl) rfl
     (fun _ => ⟨fun _ _ _ _ => rfl, fun _ _ _ _ => rfl⟩)⟩

/-- C12: the sample fetch reports on the first cache filter of the stream.
When that filter has a context the sample becomes a boolean that is 1 exactly
when the state is `HIT_MEMORY` or `HIT_DISK` (0 for every other state) and the
fetch returns 1; when the stream has no cache filter, or that filter has no
context, the fetch returns 0 and leaves the sample as it was. -/
theorem smp_fetch_cache_hit_spec (id : Nat) (fs : List filter) (smp : sample) :
    nst_smp_fetch_cache_hit id fs smp
      = (match fs.find? (fun f => decide (f.id = id)) with
         | some f =>
           (match f.ctx with
            | some c =>
              ({ data_type := .SMP_T_BOOL, data_sint := if is_hit c.state = true then 1 else 0 }, 1)
            | none => (smp, 0))
         | none => (smp, 0)) ∧
    (∀ st : nst_ctx_state, is_hit st = true ↔ (st = .HIT_MEMORY ∨ st = .HIT_DISK)) := by
  refine ⟨?_, fun st => by simp [is_hit]⟩
  induction fs with
  | nil => simp [nst_smp_fetch_cache_hit]
  | cons f fs ih =>
    by_cases h : f.id = id
    · rcases hc : f.ctx with _ | c
      · simp [nst_smp_fetch_cache_hit, h, hc]
      · simp [nst_smp_fetch_cache_hit, h, hc, is_hit]
    · simp [nst_smp_fetch_cache_hit, h, ih]

/-- C15: `_nst_cache_filter_attach`.  With the global cache status or the
filter status not `ON` it returns 0, makes no call (registers nothing) and
leaves `filter->ctx` as it was, so a filter without a context stays without one.
With both `ON` and no context: when `malloc` fails, or when
`nst_http_txn_attach` fails (the context is then freed), it returns 0, the
filter has no context and nothing is registered; otherwise it returns 1 with a
new context in state `INIT` whose `rule_cnt` and `key_cnt` are the proxy's
compiled counts, whose `key_cnt` keys are all unbuilt, whose cursor and entry
are NULL and whose disk descriptor is 0, and it registers both directions.
With both `ON` and a context already there, the context is left unchanged. -/
theorem attach_spec (A : AttachEnv) (fctx : Option nst_ctx) :
    ((A.global_cache_status ≠ .ON ∨ A.conf_status ≠ .ON) →
      _nst_cache_filter_attach A fctx = { ctx := fctx, trace := [], ret := 0 }) ∧
    (A.global_cache_status = .ON → A.conf_status = .ON → fctx = none →
      (A.malloc_ok = false ∨ (A.nst_http_txn_attach (attach_ctx A).txn).1 ≠ .NST_OK) →
      (_nst_cache_filter_attach A fctx).ret = 0 ∧ (_nst_cache_filter_attach A fctx).ctx = none ∧
      ∀ d, AttachCall.register_data_filter d ∉ (_nst_cache_filter_attach A fctx).trace) ∧
    (A.global_cache_status = .ON → A.conf_status = .ON → fctx = none →
      A.malloc_ok = true → (A.nst_http_txn_attach (attach_ctx A).txn).1 = .NST_OK →
      (_nst_cache_filter_attach A fctx).ret = 1 ∧
      (_nst_cache_filter_attach A fctx).trace
        = [.malloc true, .http_txn_attach .NST_OK, .register_data_filter false,
           .register_data_filter true] ∧
      ∃ c, (_nst_cache_filter_attach A fctx).ctx = some c ∧ c.state = .INIT ∧
        c.rule_cnt = A.proxy_rule_cnt ∧ c.key_cnt = A.proxy_key_cnt ∧
        c.keys.length = A.proxy_key_cnt ∧ (∀ k ∈ c.keys, k = ⟨none, 0⟩) ∧
        c.disk.fd = 0 ∧ c.rule = [] ∧ c.entry = none) ∧
    (A.global_cache_status = .ON → A.conf_status = .ON → ∀ c, fctx = some c →
      (_nst_cache_filter_attach A fctx).ctx = some c ∧
      (_nst_cache_filter_attach A fctx).ret = 1) := by
  refine ⟨?_, ?_, ?_, ?_⟩
  · intro h
    simp [_nst_cache_filter_attach, h]
  · intro hg hc hf hfail
    subst hf
    rcases hfail with hm | ht
    · simp [_nst_cache_filter_attach, hg, hc, hm]
    · by_cases hm : A.malloc_ok = false
      · simp [_nst_cache_filter_attach, hg, hc, hm]
      · simp [_nst_cache_filter_attach, hg, hc, hm, ht]
  · intro hg hc hf hm ht
    subst hf
    refine ⟨by simp [_nst_cache_filter_attach, hg, hc, hm, ht],
      by simp [_nst_cache_filter_attach, hg, hc, hm, ht], ?_⟩
    refine ⟨{ attach_ctx A with txn := (A.nst_http_txn_attach (attach_ctx A).txn).2 },
      by simp [_nst_cache_filter_attach, hg, hc, hm, ht], rfl, rfl, rfl, ?_, ?_, rfl, rfl, rfl⟩
    · simp [attach_ctx]
    · intro k hk
      simp only [attach_ctx] at hk
      exact List.eq_of_mem_replicate hk
  · intro hg hc c hf
    subst hf
    simp [_nst_cache_filter_attach, hg, hc]

theorem attach_spec_witness :
    (_nst_cache_filter_attach { attach_env0 with conf_status := .OFF } none
        = { ctx := none, trace := [], ret := 0 }) ∧
    ((_nst_cache_filter_attach { attach_env0 with malloc_ok := false } none).ret = 0 ∧
      (_nst_cache_filter_attach { attach_env0 with malloc_ok := false } none).ctx = none ∧
      ∀ d, AttachCall.register_data_filter d
        ∉ (_nst_cache_filter_attach { attach_env0 with malloc_ok := false } none).trace) ∧
    ((_nst_cache_filter_attach attach_env0 none).ret = 1 ∧
      (_nst_cache_filter_attach attach_env0 none).trace
        = [.malloc true, .http_txn_attach .NST_OK, .register_data_filter false,
           .register_data_filter true] ∧
      ∃ c, (_nst_cache_filter_attach attach_env0 none).ctx = some c ∧ c.state = .INIT ∧
        c.rule_cnt = attach_env0.proxy_rule_cnt ∧ c.key_cnt = attach_env0.proxy_key_cnt ∧
        c.keys.length = attach_env0.proxy_key_cnt ∧ (∀ k ∈ c.keys, k = ⟨none, 0⟩) ∧
        c.disk.fd = 0 ∧ c.rule = [] ∧ c.entry = none) ∧
    ((_nst_cache_filter_attach attach_env0 (some ctx_create)).ctx = some ctx_create ∧
      (_nst_cache_filter_attach attach_env0 (some ctx_create)).ret = 1) :=
  ⟨(attach_spec { attach_env0 with conf_status := .OFF } none).1 (Or.inr (by decide)),
   (attach_spec { attach_env0 with malloc_ok := false } none).2.1 rfl rfl rfl (Or.inl rfl),
   (attach_spec attach_env0 none).2.2.1 rfl rfl rfl rfl rfl,
   (attach_spec attach_env0 (some ctx_create)).2.2.2 rfl rfl ctx_create rfl⟩

section event_sequences

/-- In state `BYPASS` every event makes no call, leaves the context as it is
and returns 1, or the input length for a payload event that fits an `int`. -/
lemma deliver_bypass (E : Env) (ev : Event) (ctx : nst_ctx) (hst : ctx.state = .BYPASS)
    (hfit : ev.len_fits = true) :
    deliver E ev ctx = some { ctx := ctx, trace := [], ret := ev.full_ret } := by
  have hctx : ({ ctx with state := .BYPASS } : nst_ctx) = ctx := by
    cases ctx; simp_all
  cases ev with
  | headers d =>
    cases d with
    | false =>
      by_cases hm : E.meth = .OTHER
      · simp [deliver, _nst_cache_filter_http_headers, req_headers, hm, req_serve, hctx, hst,
          Event.full_ret]
      · simp [deliver, _nst_cache_filter_http_headers, req_headers, hm, hst, req_serve,
          Event.full_ret]
    | true =>
      simp [deliver, _nst_cache_filter_http_headers, res_headers, res_create, hst,
        Event.full_ret]
  | payload d offset len =>
    have hlt : len < 2 ^ 31 := by simpa [Event.len_fits] using hfit
    by_cases h0 : len = 0
    · subst h0
      simp [deliver, _nst_cache_filter_http_payload, Event.full_ret]
    · simp [deliver, _nst_cache_filter_http_payload, h0, hst, Event.full_ret,
        int_of_uint_small len hlt]
  | http_end d =>
    simp [deliver, _nst_cache_filter_http_end, hst, Event.full_ret]

/-- In state `BYPASS` a sequence of events makes no call and leaves the context
as it is. -/
lemma deliver_all_bypass (E : Env) (ctx : nst_ctx) (hst : ctx.state = .BYPASS) :
    ∀ evs : List Event, (∀ ev ∈ evs, ev.len_fits = true) →
      deliver_all E evs ctx = some (ctx, [], evs.map Event.full_ret) := by
  intro evs
  induction evs with
  | nil => intro _; simp [deliver_all]
  | cons ev evs ih =>
    intro hfit
    have h1 := deliver_bypass E ev ctx hst (hfit ev (by simp))
    have h2 := ih (fun e he => hfit e (by simp [he]))
    simp [deliver_all, h1, h2]

/-- In state `BYPASS` an event of any kind, direction and length makes no call
and leaves the context as it is; a payload event returns its input length
converted to `int`, every other event 1. -/
lemma deliver_bypass_any (E : Env) (ev : Event) (ctx : nst_ctx) (hst : ctx.state = .BYPASS) :
    ∃ v, deliver E ev ctx = some { ctx := ctx, trace := [], ret := v } ∧
      (ev.len_fits = true → v = ev.full_ret) := by
  have hctx : ({ ctx with state := .BYPASS } : nst_ctx) = ctx := by
    cases ctx; simp_all
  cases ev with
  | headers d =>
    refine ⟨1, ?_, fun _ => rfl⟩
    cases d with
    | false =>
      by_cases hm : E.meth = .OTHER
      · simp [deliver, _nst_cache_filter_http_headers, req_headers, hm, req_serve, hctx, hst]
      · simp [deliver, _nst_cache_filter_http_headers, req_headers, hm, hst, req_serve]
    | true =>
      simp [deliver, _nst_cache_filter_http_headers, res_headers, res_create, hst]
  | payload d offset len =>
    by_cases h0 : len = 0
    · subst h0
      exact ⟨0, by simp [deliver, _nst_cache_filter_http_payload], fun _ => by simp [Event.full_ret]⟩
    · refine ⟨int_of_uint len, by simp [deliver, _nst_cache_filter_http_payload, h0, hst], ?_⟩
      intro hfit
      have hlt : len < 2 ^ 31 := by simpa [Event.len_fits] using hfit
      simpa [Event.full_ret] using int_of_uint_small len hlt
  | http_end d =>
    exact ⟨1, by simp [deliver, _nst_cache_filter_http_end, hst], fun _ => rfl⟩

/-- In state `BYPASS` a sequence of events of any lengths makes no call and
leaves the context as it is; the event at position `i` returns its input length
when it is a payload event whose length fits an `int`, and 1 when it is a header
or end-of-body event. -/
lemma deliver_all_bypass_any (E : Env) (ctx : nst_ctx) (hst : ctx.state = .BYPASS) :
    ∀ evs : List Event, ∃ rets, deliver_all E evs ctx = some (ctx, [], rets) ∧
      rets.length = evs.length ∧
      ∀ (i : Nat) (ev : Event), evs[i]? = some ev → ev.len_fits = true →
        rets[i]? = some ev.full_ret := by
  intro evs
  induction evs with
  | nil => exact ⟨[], by simp [deliver_all], rfl, fun i ev h => by simp at h⟩
  | cons e evs ih =>
    obtain ⟨v, h1, h2⟩ := deliver_bypass_any E e ctx hst
    obtain ⟨rets, g1, g2, g3⟩ := ih
    refine ⟨v :: rets, by simp [deliver_all, h1, g1], by simp [g2], ?_⟩
    intro i ev hi hfit
    cases i with
    | zero =>
      simp only [List.getElem?_cons_zero, Option.some.injEq] at hi
      subst hi
      simp [h2 hfit]
    | succ j =>
      simp only [List.getElem?_cons_succ] at hi
      simpa using g3 j ev hi hfit

/-- The calls of detach on a context whose keys lie inside the key array. -/
lemma detach_trace (E : Env) (ctx : nst_ctx) (hk : ctx.key_cnt ≤ ctx.keys.length) :
    ∃ frees, (∀ c ∈ frees, ∃ i, c = Call.free_key_data i) ∧
      _nst_cache_filter_detach E (some ctx)
        = some ([Call.stats_update_cache ctx.state]
            ++ (if ctx.disk.fd > 0 then [Call.close ctx.disk.fd] else [])
            ++ (if ctx.state = .CREATE then [Call.cache_abort] else [])
            ++ frees ++ [Call.http_txn_detach, Call.free_ctx]) := by
  have hkeys := detach_keys_eq ctx.keys ctx.key_cnt 0 (by omega)
  refine ⟨((List.range' 0 ctx.key_cnt).filter
    (fun j => ((ctx.keys[j]?).bind nst_key.data).isSome)).map Call.free_key_data, ?_, ?_⟩
  rotate_left
  · by_cases hc : ctx.state = .CREATE <;> by_cases hf : ctx.disk.fd > 0 <;>
      simp [_nst_cache_filter_detach, hc, hf, nst_ctx.commit, hkeys]
  · intro c hc
    simp only [List.mem_map] at hc
    obtain ⟨i, _, hi⟩ := hc
    exact ⟨i, hi.symm⟩

/-- Counting the terminal calls of detach: no finish, and one abort exactly in
state `CREATE`. -/
lemma detach_counts (E : Env) (ctx : nst_ctx) (hk : ctx.key_cnt ≤ ctx.keys.length) :
    ∃ td, _nst_cache_filter_detach E (some ctx) = some td ∧ finishes td = 0 ∧ updates td = 0 ∧
      aborts td = (if ctx.state = .CREATE then 1 else 0) := by
  obtain ⟨frees, hfr, hd⟩ := detach_trace E ctx hk
  have hf0 : ∀ p : Call → Bool, (∀ i, p (Call.free_key_data i) = false) →
      frees.countP p = 0 := by
    intro p hp
    rw [List.countP_eq_zero]
    intro c hc
    obtain ⟨i, hi⟩ := hfr c hc
    simp [hi, hp]
  refine ⟨_, hd, ?_, ?_, ?_⟩
  · by_cases hc : ctx.state = .CREATE <;> by_cases hf : ctx.disk.fd > 0 <;>
      simp [finishes, List.countP_append, hc, hf, hf0]
  · by_cases hc : ctx.state = .CREATE <;> by_cases hf : ctx.disk.fd > 0 <;>
      simp [updates, List.countP_append, hc, hf, hf0]
  · by_cases hc : ctx.state = .CREATE <;> by_cases hf : ctx.disk.fd > 0 <;>
      simp [aborts, List.countP_append, hc, hf, hf0]

end event_sequences

/-- C16: `BYPASS`, `HIT_MEMORY` and `HIT_DISK` are stable.  An event of any kind
and direction delivered to a context in one of these states (the method not
being `HTTP_METH_OTHER` when the state is a hit, and serving a hit leaving the
state alone) leaves the state as it is and issues no key build, lookup, entry
creation, append or finish. -/
theorem stable_states (E : Env) (ev : Event) (ctx : nst_ctx)
    (hst : ctx.state = .BYPASS ∨ ctx.state = .HIT_MEMORY ∨ ctx.state = .HIT_DISK)
    (hmeth : is_hit ctx.state = true → E.meth ≠ .OTHER)
    (hserve : ∀ c, (E.nst_cache_hit c).state = c.state) :
    ∃ o, deliver E ev ctx = some o ∧ o.ctx.state = ctx.state ∧
      key_builds o.trace = 0 ∧ lookups o.trace = 0 ∧ creates o.trace = 0 ∧
      updates o.trace = 0 ∧ finishes o.trace = 0 := by
  have hni : ctx.state ≠ .INIT := by rcases hst with h | h | h <;> rw [h] <;> decide
  have hnp : ctx.state ≠ .PASS := by rcases hst with h | h | h <;> rw [h] <;> decide
  have hnc : ctx.state ≠ .CREATE := by rcases hst with h | h | h <;> rw [h] <;> decide
  have hquiet : ∀ c : nst_ctx, c.state = ctx.state →
      ∃ o, some ({ ctx := c, trace := [], ret := 1 } : Out) = some o ∧ o.ctx.state = ctx.state ∧
        key_builds o.trace = 0 ∧ lookups o.trace = 0 ∧ creates o.trace = 0 ∧
        updates o.trace = 0 ∧ finishes o.trace = 0 := by
    intro c hc
    exact ⟨_, rfl, hc, by simp [key_builds], by simp [lookups], by simp [creates],
      by simp [updates], by simp [finishes]⟩
  cases ev with
  | headers d =>
    cases d with
    | true =>
      have he : deliver E (.headers true) ctx = some { ctx := ctx, trace := [], ret := 1 } := by
        simp [deliver, _nst_cache_filter_http_headers, res_headers, res_create, hni, hnp]
      rw [he]
      exact hquiet ctx rfl
    | false =>
      rcases hst with h | h
      · have hctx : ({ ctx with state := .BYPASS } : nst_ctx) = ctx := by
          cases ctx; simp_all
        have he : deliver E (.headers false) ctx = some { ctx := ctx, trace := [], ret := 1 } := by
          by_cases hm : E.meth = .OTHER
          · simp [deliver, _nst_cache_filter_http_headers, req_headers, hm, req_serve, hctx, h]
          · simp [deliver, _nst_cache_filter_http_headers, req_headers, hm, h, req_serve]
        rw [he]
        exact hquiet ctx rfl
      · have hh : is_hit ctx.state = true := by rcases h with h | h <;> simp [is_hit, h]
        have hm := hmeth hh
        refine ⟨{ ctx := ctx.commit (E.nst_cache_hit ctx), trace := [.cache_hit ctx.state],
                  ret := 1 }, ?_, ?_, by simp [key_builds], by simp [lookups], by simp [creates],
          by simp [updates], by simp [finishes]⟩
        · simp [deliver, _nst_cache_filter_http_headers, req_headers, hm, hni, req_serve, h]
        · simp [nst_ctx.commit, hserve]
  | payload d offset len =>
    by_cases h0 : len = 0
    · have he : deliver E (.payload d offset len) ctx
          = some { ctx := ctx, trace := [], ret := 0 } := by
        simp [deliver, _nst_cache_filter_http_payload, h0]
      rw [he]
      exact ⟨_, rfl, rfl, by simp [key_builds], by simp [lookups], by simp [creates],
        by simp [updates], by simp [finishes]⟩
    · have he : deliver E (.payload d offset len) ctx
          = some { ctx := ctx, trace := [], ret := int_of_uint len } := by
        simp [deliver, _nst_cache_filter_http_payload, h0, hnc]
      rw [he]
      exact ⟨_, rfl, rfl, by simp [key_builds], by simp [lookups], by simp [creates],
        by simp [updates], by simp [finishes]⟩
  | http_end d =>
    have he : deliver E (.http_end d) ctx = some { ctx := ctx, trace := [], ret := 1 } := by
      simp [deliver, _nst_cache_filter_http_end, hnc]
    rw [he]
    exact hquiet ctx rfl

theorem stable_states_witness :
    ({ ctx0 1 1 with state := .HIT_MEMORY } : nst_ctx).state = .HIT_MEMORY ∧
    ∃ o, deliver env0 (.headers false) { ctx0 1 1 with state := .HIT_MEMORY } = some o ∧
      o.ctx.state = ({ ctx0 1 1 with state := .HIT_MEMORY } : nst_ctx).state ∧
      key_builds o.trace = 0 ∧ lookups o.trace = 0 ∧ creates o.trace = 0 ∧
      updates o.trace = 0 ∧ finishes o.trace = 0 :=
  ⟨rfl, stable_states env0 (.headers false) { ctx0 1 1 with state := .HIT_MEMORY }
    (Or.inr (Or.inl rfl)) (fun _ => by decide) (fun _ => rfl)⟩

/-- C18 as stated fails above `INT_MAX`: after a failed append, a later payload
event of 3000000000 bytes returns -1294967296, not its input length. -/
theorem later_payload_returns_len_refuted :
    ∃ o, _nst_cache_filter_http_payload env_update_fails true ctx_create 0 5 = some o ∧
      o.ctx.state = .BYPASS ∧
      deliver_all env_update_fails [.payload true 5 3000000000] o.ctx
        = some (o.ctx, [], [-1294967296]) ∧
      (-1294967296 : Int) ≠ ((3000000000 : Nat) : Int) := by
  refine ⟨_, rfl, ?_, ?_, ?_⟩ <;> decide

/-- C18 (amended): once a store append has failed in state `CREATE`, caching
stays abandoned.  Every later sequence of events, of any kinds, directions and
payload lengths, makes no call at all, so no further append and no finish, and
leaves the context in state `BYPASS`; every later payload event of length at
most `2 ^ 31 - 1` returns its input length; detach then issues no abort, append
or finish. -/
theorem write_failure_abandons (E : Env) (ctx : nst_ctx) (offset len : Nat) (rc : nst_rc)
    (v : nst_ctx_view) (e : nst_dict_entry) (evs : List Event)
    (hlen : 0 < len) (hst : ctx.state = .CREATE)
    (hu : E.nst_cache_update ctx offset len = (rc, v)) (hrc : rc ≠ .NST_OK)
    (he : v.entry = some e) (hk : ctx.key_cnt ≤ ctx.keys.length) :
    ∃ o rets td, _nst_cache_filter_http_payload E true ctx offset len = some o ∧
      o.ctx.state = .BYPASS ∧
      deliver_all E evs o.ctx = some (o.ctx, [], rets) ∧
      rets.length = evs.length ∧
      (∀ (i : Nat) (d : Bool) (off n : Nat), evs[i]? = some (Event.payload d off n) →
        n < 2 ^ 31 →
        rets[i]? = some (n : Int)) ∧
      _nst_cache_filter_detach E (some o.ctx) = some td ∧
      aborts td = 0 ∧ updates td = 0 ∧ finishes td = 0 := by
  have h0 : ¬ len = 0 := by omega
  have hp : _nst_cache_filter_http_payload E true ctx offset len
      = some { ctx := { ctx.commit v with
                          entry := some { state := .INVALID, data := none }, state := .BYPASS },
               trace := [.cache_update offset len rc], ret := int_of_uint len } := by
    simp [_nst_cache_filter_http_payload, h0, hst, hu, hrc, nst_ctx.commit, he]
  obtain ⟨td, d1, d2, d3, d4⟩ := detach_counts E
    { ctx.commit v with entry := some { state := .INVALID, data := none }, state := .BYPASS }
    (by simpa [nst_ctx.commit] using hk)
  obtain ⟨rets, r1, r2, r3⟩ := deliver_all_bypass_any E
    { ctx.commit v with entry := some { state := .INVALID, data := none }, state := .BYPASS }
    rfl evs
  refine ⟨_, rets, td, hp, rfl, r1, r2, ?_, d1, ?_, d3, d2⟩
  · intro i d off n hi hn
    exact r3 i _ hi (by simpa [Event.len_fits] using hn)
  · simpa using d4

theorem write_failure_abandons_witness :
    0 < 5 ∧ ctx_create.state = .CREATE ∧
    ∃ o rets td, _nst_cache_filter_http_payload env_update_fails true ctx_create 3 5 = some o ∧
      o.ctx.state = .BYPASS ∧
      deliver_all env_update_fails
        [.payload true 8 7, .payload true 15 3000000000, .http_end true, .payload false 0 1] o.ctx
        = some (o.ctx, [], rets) ∧
      rets.length
        = [Event.payload true 8 7, .payload true 15 3000000000, .http_end true,
            .payload false 0 1].length ∧
      (∀ (i : Nat) (d : Bool) (off n : Nat),
        [Event.payload true 8 7, .payload true 15 3000000000, .http_end true,
          .payload false 0 1][i]? = some (Event.payload d off n) → n < 2 ^ 31 →
        rets[i]? = some (n : Int)) ∧
      _nst_cache_filter_detach env_update_fails (some o.ctx) = some td ∧
      aborts td = 0 ∧ updates td = 0 ∧ finishes td = 0 :=
  ⟨by decide, rfl,
   write_failure_abandons env_update_fails ctx_create 3 5 .NST_ERR ctx_create.view
     ⟨.OTHER 0, some 7⟩
     [.payload true 8 7, .payload true 15 3000000000, .http_end true, .payload false 0 1]
     (by decide) rfl rfl (by decide) rfl (by decide)⟩

section terminal_outcome

variable (E : Env)

/-- One payload or end-of-body event: it never aborts, it finishes at most once
and then leaves state `CREATE`, and outside state `CREATE` it does nothing. -/
lemma deliver_body_step (hfin : finish_clears_create E) (hupd : update_keeps_entry E)
    (ev : Event) (ctx : nst_ctx) (hb : ev.is_body = true) :
    ∃ o, deliver E ev ctx = some o ∧ aborts o.trace = 0 ∧ o.ctx.keys = ctx.keys ∧
      o.ctx.key_cnt = ctx.key_cnt ∧
      (finishes o.trace = 0 ∨ (finishes o.trace = 1 ∧ o.ctx.state ≠ .CREATE)) ∧
      (ctx.state ≠ .CREATE → o.ctx = ctx ∧ o.trace = []) := by
  cases ev with
  | headers d => simp [Event.is_body] at hb
  | payload d offset len =>
    by_cases h0 : len = 0
    · refine ⟨{ ctx := ctx, trace := [], ret := 0 }, ?_, by simp [aborts], rfl, rfl,
        Or.inl (by simp [finishes]), fun _ => ⟨rfl, rfl⟩⟩
      simp [deliver, _nst_cache_filter_http_payload, h0]
    · by_cases hc : ctx.state = .CREATE ∧ d = true
      · by_cases hrc : (E.nst_cache_update ctx offset len).1 = .NST_OK
        · refine ⟨{ ctx := ctx.commit (E.nst_cache_update ctx offset len).2,
                    trace := [.cache_update offset len (E.nst_cache_update ctx offset len).1],
                    ret := int_of_uint len }, ?_, by simp [aborts], rfl, rfl,
            Or.inl (by simp [finishes]), fun h => absurd hc.1 h⟩
          simp [deliver, _nst_cache_filter_http_payload, h0, hc, hrc]
        · have hne := hupd ctx offset len hrc
          rcases hv : (E.nst_cache_update ctx offset len).2.entry with _ | e
          · exact absurd hv hne
          · refine ⟨{ ctx := { ctx.commit (E.nst_cache_update ctx offset len).2 with
                                entry := some { state := .INVALID, data := none },
                                state := .BYPASS },
                      trace := [.cache_update offset len (E.nst_cache_update ctx offset len).1],
                      ret := int_of_uint len }, ?_, by simp [aborts], rfl, rfl,
              Or.inl (by simp [finishes]), fun h => absurd hc.1 h⟩
            simp [deliver, _nst_cache_filter_http_payload, h0, hc, hrc, nst_ctx.commit, hv]
      · refine ⟨{ ctx := ctx, trace := [], ret := int_of_uint len }, ?_, by simp [aborts], rfl,
          rfl, Or.inl (by simp [finishes]), fun _ => ⟨rfl, rfl⟩⟩
        simp [deliver, _nst_cache_filter_http_payload, h0, hc]
  | http_end d =>
    by_cases hc : ctx.state = .CREATE ∧ d = true
    · refine ⟨{ ctx := ctx.commit (E.nst_cache_finish ctx), trace := [.cache_finish], ret := 1 },
        ?_, by simp [aborts], rfl, rfl, Or.inr ⟨by simp [finishes], ?_⟩,
        fun h => absurd hc.1 h⟩
      · simp [deliver, _nst_cache_filter_http_end, hc]
      · simpa [nst_ctx.commit] using hfin ctx
    · refine ⟨{ ctx := ctx, trace := [], ret := 1 }, ?_, by simp [aborts], rfl, rfl,
        Or.inl (by simp [finishes]), fun _ => ⟨rfl, rfl⟩⟩
      simp [deliver, _nst_cache_filter_http_end, hc]

/-- A sequence of payload and end-of-body events: no abort, at most one finish,
and a finish leaves the context outside state `CREATE` for good. -/
lemma deliver_all_body (hfin : finish_clears_create E) (hupd : update_keeps_entry E) :
    ∀ (evs : List Event) (ctx : nst_ctx), (∀ ev ∈ evs, ev.is_body = true) →
      ∃ c2 tr rets, deliver_all E evs ctx = some (c2, tr, rets) ∧ aborts tr = 0 ∧
        c2.keys = ctx.keys ∧ c2.key_cnt = ctx.key_cnt ∧
        finishes tr ≤ 1 ∧ (finishes tr = 1 → c2.state ≠ .CREATE) ∧
        (ctx.state ≠ .CREATE → c2 = ctx ∧ tr = []) := by
  intro evs
  induction evs with
  | nil =>
    intro ctx _
    exact ⟨ctx, [], [], rfl, by simp [aborts], rfl, rfl, by simp [finishes],
      by simp [finishes], fun _ => ⟨rfl, rfl⟩⟩
  | cons ev evs ih =>
    intro ctx hb
    obtain ⟨o, o1, o2, o3, o4, o5, o6⟩ := deliver_body_step E hfin hupd ev ctx (hb ev (by simp))
    obtain ⟨c2, tr, rets, r1, r2, r3, r4, r5, r6, r7⟩ :=
      ih o.ctx (fun e he => hb e (by simp [he]))
    refine ⟨c2, o.trace ++ tr, o.ret :: rets, by simp [deliver_all, o1, r1], ?_, r3.trans o3,
      r4.trans o4, ?_, ?_, ?_⟩
    · simp only [aborts, List.countP_append] at *
      omega
    · rcases o5 with h | ⟨h, hs⟩
      · simp only [finishes, List.countP_append] at *
        omega
      · obtain ⟨_, htr⟩ := r7 hs
        subst htr
        simp only [finishes, List.countP_append] at *
        simp [h]
    · intro hone
      rcases o5 with h | ⟨_, hs⟩
      · apply r6
        simp only [finishes, List.countP_append] at *
        omega
      · obtain ⟨hc2, _⟩ := r7 hs
        rw [hc2]
        exact hs
    · intro hs
      obtain ⟨h1, h2⟩ := o6 hs
      obtain ⟨h3, h4⟩ := r7 (by rw [h1]; exact hs)
      exact ⟨h3.trans h1, by rw [h2, h4]; rfl⟩

end terminal_outcome

/-- C11: an entry receives at most one terminal outcome from the controller.
An end-of-body event finishes the entry exactly when it arrives in response
direction while the state is `CREATE`; a payload event never finishes or aborts.
For every sequence of payload and end-of-body events followed by detach (with
`nst_cache_finish` leaving the state `CREATE`, as the spec says, and a failed
append keeping the entry reference): no event aborts, detach does not finish,
finishes and aborts together number at most one, detach aborts exactly when the
state is still `CREATE`, and an entry that was finished is not aborted. -/
theorem entry_one_terminal_outcome (E : Env) (evs : List Event) (ctx : nst_ctx)
    (hfin : finish_clears_create E) (hupd : update_keeps_entry E)
    (hbody : ∀ ev ∈ evs, ev.is_body = true) (hk : ctx.key_cnt ≤ ctx.keys.length) :
    (∀ d c, finishes (_nst_cache_filter_http_end E d c).trace
        = (if c.state = .CREATE ∧ d = true then 1 else 0) ∧
      aborts (_nst_cache_filter_http_end E d c).trace = 0) ∧
    (∀ d c offset len o, _nst_cache_filter_http_payload E d c offset len = some o →
      finishes o.trace = 0 ∧ aborts o.trace = 0) ∧
    ∃ c2 tr rets td, deliver_all E evs ctx = some (c2, tr, rets) ∧
      _nst_cache_filter_detach E (some c2) = some td ∧
      aborts tr = 0 ∧ finishes td = 0 ∧ finishes tr + aborts td ≤ 1 ∧
      (aborts td = 1 ↔ c2.state = .CREATE) ∧ (finishes tr = 1 → aborts td = 0) := by
  refine ⟨?_, ?_, ?_⟩
  · intro d c
    by_cases hc : c.state = .CREATE ∧ d = true
    · simp [_nst_cache_filter_http_end, hc, finishes, aborts]
    · simp [_nst_cache_filter_http_end, hc, finishes, aborts]
  · intro d c offset len o ho
    obtain ⟨o2, p1, p2, _, _, p5, _⟩ :=
      deliver_body_step E hfin hupd (.payload d offset len) c rfl
    have heq : o2 = o := by
      simp only [deliver] at p1
      rw [ho] at p1
      exact (Option.some.inj p1).symm
    subst heq
    refine ⟨?_, p2⟩
    by_cases h0 : len = 0
    · simp [_nst_cache_filter_http_payload, h0] at ho
      subst ho
      simp [finishes]
    · by_cases hc : c.state = .CREATE ∧ d = true
      · by_cases hrc : (E.nst_cache_update c offset len).1 = .NST_OK
        · simp [_nst_cache_filter_http_payload, h0, hc, hrc] at ho
          subst ho
          simp [finishes]
        · rcases hv : (E.nst_cache_update c offset len).2.entry with _ | e
          · simp [_nst_cache_filter_http_payload, h0, hc, hrc, nst_ctx.commit, hv] at ho
          · simp [_nst_cache_filter_http_payload, h0, hc, hrc, nst_ctx.commit, hv] at ho
            subst ho
            simp [finishes]
      · simp [_nst_cache_filter_http_payload, h0, hc] at ho
        subst ho
        simp [finishes]
  · obtain ⟨c2, tr, rets, r1, r2, r3, r4, r5, r6, _⟩ := deliver_all_body E hfin hupd evs ctx hbody
    obtain ⟨td, d1, d2, _, d4⟩ := detach_counts E c2 (by rw [r3, r4]; exact hk)
    refine ⟨c2, tr, rets, td, r1, d1, r2, d2, ?_, ?_, ?_⟩
    · by_cases hc : c2.state = .CREATE
      · have : finishes tr ≠ 1 := fun h => r6 h hc
        rw [d4, if_pos hc]
        omega
      · rw [d4, if_neg hc]
        omega
    · rw [d4]
      by_cases hc : c2.state = .CREATE <;> simp [hc]
    · intro h1
      rw [d4, if_neg (r6 h1)]

theorem entry_one_terminal_outcome_witness :
    finish_clears_create env0 ∧ update_keeps_entry env0 ∧
    (∀ d c, finishes (_nst_cache_filter_http_end env0 d c).trace
        = (if c.state = .CREATE ∧ d = true then 1 else 0) ∧
      aborts (_nst_cache_filter_http_end env0 d c).trace = 0) ∧
    (∀ d c offset len o, _nst_cache_filter_http_payload env0 d c offset len = some o →
      finishes o.trace = 0 ∧ aborts o.trace = 0) ∧
    ∃ c2 tr rets td,
      deliver_all env0 [.payload true 0 5, .http_end true] ctx_create = some (c2, tr, rets) ∧
      _nst_cache_filter_detach env0 (some c2) = some td ∧
      aborts tr = 0 ∧ finishes td = 0 ∧ finishes tr + aborts td ≤ 1 ∧
      (aborts td = 1 ↔ c2.state = .CREATE) ∧ (finishes tr = 1 → aborts td = 0) :=
  ⟨fun _ => by simp [env0], fun _ _ _ h => absurd rfl h,
   entry_one_terminal_outcome env0 [.payload true 0 5, .http_end true] ctx_create
     (fun _ => by simp [env0]) (fun _ _ _ h => absurd rfl h) (by decide) (by decide)⟩

section general_runs

variable (E : Env)

/-- The machine state in which the request-phase rule loop is entered. -/
lemma req_headers_loop (ctx : nst_ctx) (hst : ctx.state = .INIT) (hm : E.meth ≠ .OTHER)
    (hp : (E.nst_http_parse_htx ctx.txn).1 = .NST_OK) :
    _nst_cache_filter_http_headers E false ctx
      = (req_loop E ctx.rule_cnt
          { ctx := { ctx with txn := (E.nst_http_parse_htx ctx.txn).2, rule := E.proxy_rule },
            trace := [.http_parse_htx .NST_OK] }).map (req_finish E) := by
  rcases hpe : E.nst_http_parse_htx ctx.txn with ⟨rc, txn1⟩
  rw [hpe] at hp
  simp only at hp
  subst hp
  simp only [_nst_cache_filter_http_headers, req_headers, hm, hst, hpe, if_false, if_true,
    Bool.false_eq_true, ne_eq, not_true_eq_false]
  cases req_loop E ctx.rule_cnt
      { ctx := { state := .INIT, pid := ctx.pid, rule_cnt := ctx.rule_cnt, key_cnt := ctx.key_cnt,
                 rule := E.proxy_rule, txn := txn1, disk := ctx.disk, entry := ctx.entry,
                 keys := ctx.keys },
        trace := [.http_parse_htx .NST_OK] } <;> rfl

lemma last_lookup_append (L : nst_rule → nst_ctx_state) (st : nst_ctx_state)
    (a b : List nst_rule) :
    last_lookup L st (a ++ b) = last_lookup L (last_lookup L st a) b := by
  induction a generalizing st with
  | nil => rfl
  | cons r a ih => simp [last_lookup, ih]

lemma last_lookup_all_disabled (L : nst_rule → nst_ctx_state) (st : nst_ctx_state)
    (b : List nst_rule) (h : ∀ q ∈ b, q.state = .DISABLED) : last_lookup L st b = st := by
  induction b generalizing st with
  | nil => rfl
  | cons r b ih =>
    have hr : r.state = .DISABLED := h r (by simp)
    simp [last_lookup, hr, ih st (fun q hq => h q (by simp [hq]))]

/-- Over rules none of which wins the loop state is never a hit. -/
lemma last_lookup_not_hit (L : nst_rule → nst_ctx_state) (st : nst_ctx_state)
    (rs : List nst_rule) (hst : is_hit st = false) (h : ∀ r ∈ rs, rule_wins E L r = false) :
    is_hit (last_lookup L st rs) = false := by
  induction rs generalizing st with
  | nil => exact hst
  | cons r rs ih =>
    have hrs : ∀ q ∈ rs, rule_wins E L q = false := fun q hq => h q (by simp [hq])
    by_cases hd : r.state = .DISABLED
    · simpa [last_lookup, hd] using ih st hst hrs
    · have := (rule_wins_false E L (h r (by simp)) hd).1
      simpa [last_lookup, hd] using ih (L r) this hrs

end general_runs

/-- C17: when the request-phase loop runs over all the rules without a lookup
hit or an ACL match (state `INIT` at entry, cacheable method, parse and key
builds succeeding, a context sized for the rule list), the event returns 1 with
the cursor at the end of the list and no cached response served, and the final
state is the lookup result of the last enabled rule: `INIT` when every rule is
disabled, and `L r` when `r` is enabled and only disabled rules follow it.  The
loop writes no other state, `BYPASS` included. -/
theorem req_exhausted_state (E : Env) (L : nst_rule → nst_ctx_state) (ctx : nst_ctx)
    (hst : ctx.state = .INIT) (hm : E.meth ≠ .OTHER)
    (hp : (E.nst_http_parse_htx ctx.txn).1 = .NST_OK)
    (hcnt : ctx.rule_cnt = E.proxy_rule.length)
    (hidx : ∀ r ∈ E.proxy_rule, r.key_idx < ctx.keys.length)
    (hb : ∀ r t k m, (E.nst_key_build r t k m).1 = .NST_OK)
    (hL : ∀ c r rest, c.rule = r :: rest → (E.nst_cache_exists c).1 = L r)
    (hlose : ∀ r ∈ E.proxy_rule, rule_wins E L r = false) :
    ∃ o, _nst_cache_filter_http_headers E false ctx = some o ∧ o.ret = 1 ∧ o.ctx.rule = [] ∧
      hit_serves o.trace = 0 ∧ lookups o.trace = enabled_cnt E.proxy_rule ∧
      o.ctx.state = last_lookup L .INIT E.proxy_rule ∧
      ((∀ r ∈ E.proxy_rule, r.state = .DISABLED) → o.ctx.state = .INIT) ∧
      (∀ a r b, E.proxy_rule = a ++ r :: b → r.state ≠ .DISABLED →
        (∀ q ∈ b, q.state = .DISABLED) → o.ctx.state = L r) := by
  obtain ⟨s2, t, e1, e2, e3, e4, e5⟩ :=
    req_loop_prefix E L hb hL E.proxy_rule [] 0
      { ctx := { ctx with txn := (E.nst_http_parse_htx ctx.txn).2, rule := E.proxy_rule },
        trace := [.http_parse_htx .NST_OK] } (by simp) hlose (by simpa using hidx)
  have hstate : s2.ctx.state = last_lookup L .INIT E.proxy_rule := by
    rw [e3]; simp [hst]
  have hmiss : is_hit s2.ctx.state = false := by
    rw [hstate]
    exact last_lookup_not_hit E L .INIT E.proxy_rule rfl hlose
  have hrun := req_headers_loop E ctx hst hm hp
  simp only [Nat.add_zero] at e1
  rw [← hcnt] at e1
  rw [e1] at hrun
  simp only [req_loop, Option.map_some'] at hrun
  rw [req_finish_brk_miss E s2 hmiss] at hrun
  have hseg := (Seg.parse .NST_OK).append e5
  rw [← e4.trace_eq] at hseg
  refine ⟨_, hrun, rfl, e2, hseg.serves_eq, ?_, hstate, ?_, ?_⟩
  · simpa using hseg.lookups_eq
  · intro hall
    show s2.ctx.state = .INIT
    rw [hstate]
    exact last_lookup_all_disabled L .INIT E.proxy_rule hall
  · intro a r b hrules hen hdis
    show s2.ctx.state = L r
    rw [hstate, hrules, last_lookup_append]
    simp only [last_lookup, hen, if_false]
    exact last_lookup_all_disabled L _ b hdis

theorem req_exhausted_state_witness :
    (ctx0 2 1).state = .INIT ∧
    (∀ r ∈ ({ env0 with proxy_rule := [rule_miss, rule_off] } : Env).proxy_rule,
      rule_wins { env0 with proxy_rule := [rule_miss, rule_off] } (fun _ => .OTHER 3) r = false) ∧
    ∃ o, _nst_cache_filter_http_headers
          { env0 with proxy_rule := [rule_miss, rule_off],
                      nst_cache_exists := fun c => (.OTHER 3, c.view) } false (ctx0 2 1) = some o ∧
      o.ret = 1 ∧ o.ctx.rule = [] ∧ hit_serves o.trace = 0 ∧ lookups o.trace = 1 ∧
      o.ctx.state = .OTHER 3 := by
  obtain ⟨o, h1, h2, h3, h4, h5, h6, _⟩ :=
    req_exhausted_state
      { env0 with proxy_rule := [rule_miss, rule_off],
                  nst_cache_exists := fun c => (.OTHER 3, c.view) }
      (fun _ => .OTHER 3) (ctx0 2 1) rfl (by decide) rfl rfl (by decide) (fun _ _ _ _ => rfl)
      (fun _ _ _ _ => rfl) (by decide)
  exact ⟨rfl, by decide, o, h1, h2, h3, h4, h5, h6⟩

section loop_shape

variable (E : Env)

lemma Frame.same (s : St) : Frame s s [] :=
  ⟨rfl, rfl, rfl, rfl, (List.append_nil _).symm, fun _ h => by simp at h⟩

lemma Frame.chain {s1 s2 s3 : St} {t1 t2 : List Call} (h1 : Frame s1 s2 t1)
    (h2 : Frame s2 s3 t2) : Frame s1 s3 (t1 ++ t2) :=
  ⟨h2.keys_same.trans h1.keys_same, h2.state_same.trans h1.state_same,
   h2.rule_same.trans h1.rule_same, h2.rule_cnt_same.trans h1.rule_cnt_same,
   by rw [h2.trace_ext, h1.trace_ext, List.append_assoc],
   fun c hc => by
     rcases List.mem_append.1 hc with h | h
     · exact h1.all_quiet c h
     · exact h2.all_quiet c h⟩

/-- A counter that ignores the quiet calls is zero on a list of quiet calls. -/
lemma quiet_countP (t : List Call) (hq : ∀ c ∈ t, quiet_call c = true) (p : Call → Bool)
    (hp : ∀ c, quiet_call c = true → p c = false) : t.countP p = 0 := by
  rw [List.countP_eq_zero]
  intro c hc
  simp [hp c (hq c hc)]

lemma req_disk_etag_frame (s : St) (r : nst_rule) :
    ∃ t, Frame s (req_disk_etag E s r).2 t := by
  by_cases h : r.etag = .ON
  · refine ⟨[.persist_get_etag (E.nst_persist_get_etag s.ctx.disk.fd s.ctx.disk.meta
        ⟨s.ctx.txn.buf_area + s.ctx.txn.buf_data,
         E.nst_persist_meta_get_etag_len s.ctx.disk.meta⟩)], ?_⟩
    simp only [req_disk_etag, h, if_true, St.call]
    exact ⟨rfl, rfl, rfl, rfl, rfl, fun c hc => by simp at hc; subst hc; rfl⟩
  · refine ⟨[], ?_⟩
    simp only [req_disk_etag, h, if_false]
    exact Frame.same s

lemma req_disk_last_modified_frame (s : St) (r : nst_rule) :
    ∃ t, Frame s (req_disk_last_modified E s r).2 t := by
  by_cases h : r.last_modified = .ON
  · refine ⟨[.persist_get_last_modified
        (E.nst_persist_get_last_modified s.ctx.disk.fd s.ctx.disk.meta
          ⟨s.ctx.txn.buf_area + s.ctx.txn.buf_data,
           E.nst_persist_meta_get_last_modified_len s.ctx.disk.meta⟩)], ?_⟩
    simp only [req_disk_last_modified, h, if_true, St.call]
    exact ⟨rfl, rfl, rfl, rfl, rfl, fun c hc => by simp at hc; subst hc; rfl⟩
  · refine ⟨[], ?_⟩
    simp only [req_disk_last_modified, h, if_false]
    exact Frame.same s

/-- The handler call: the loop is left or the callback returns 1. -/
lemma req_conditional_frame (s : St) (r : nst_rule) :
    ∃ s3 t, Frame s s3 t ∧
      (req_conditional E s r = .brk s3 ∨ req_conditional E s r = .ret s3 1) := by
  obtain ⟨hd, c1, c2⟩ := req_conditional_cases E s r
  cases hd with
  | true =>
    exact ⟨{ ctx := s.ctx, trace := s.trace ++ [.http_handle_conditional_req true] },
      [.http_handle_conditional_req true],
      ⟨rfl, rfl, rfl, rfl, rfl, fun c hc => by simp at hc; subst hc; rfl⟩, Or.inr (c1 rfl)⟩
  | false =>
    exact ⟨{ ctx := s.ctx, trace := s.trace ++ [.http_handle_conditional_req false] },
      [.http_handle_conditional_req false],
      ⟨rfl, rfl, rfl, rfl, rfl, fun c hc => by simp at hc; subst hc; rfl⟩, Or.inl (c2 rfl)⟩

/-- A disk hit: the loop is left or the callback returns 1. -/
lemma req_hit_disk_frame (s : St) (r : nst_rule) :
    ∃ s3 t, Frame s s3 t ∧ (req_hit_disk E s r = .brk s3 ∨ req_hit_disk E s r = .ret s3 1) := by
  obtain ⟨t1, f1⟩ := req_disk_etag_frame E s r
  obtain ⟨t2, f2⟩ := req_disk_last_modified_frame E (req_disk_etag E s r).2 r
  by_cases h1 : (req_disk_etag E s r).1 = .NST_OK
  · by_cases h2 : (req_disk_last_modified E (req_disk_etag E s r).2 r).1 = .NST_OK
    · obtain ⟨s3, t3, f3, hc⟩ :=
        req_conditional_frame E (req_disk_last_modified E (req_disk_etag E s r).2 r).2 r
      refine ⟨s3, (t1 ++ t2) ++ t3, (f1.chain f2).chain f3, ?_⟩
      simpa [req_hit_disk, h1, h2] using hc
    · exact ⟨_, t1 ++ t2, f1.chain f2, Or.inl (by simp [req_hit_disk, h1, h2])⟩
  · exact ⟨_, t1, f1, Or.inl (by simp [req_hit_disk, h1])⟩

/-- What follows a lookup, for an arbitrary environment: the cursor advances
after a miss whose ACL test fails, the loop is left in state `PASS` after a miss
whose ACL test succeeds, and a hit leaves the loop or returns 1. -/
lemma req_after_lookup_shape (s : St) (r : nst_rule) (rest : List nst_rule) :
    ∃ s3 t, Frame s s3 t ∧
      ((req_after_lookup E s r rest
          = .next { ctx := { s3.ctx with rule := rest }, trace := s3.trace } ∧
        is_hit s.ctx.state = false) ∨
       (req_after_lookup E s r rest
          = .brk { ctx := { s3.ctx with state := .PASS }, trace := s3.trace } ∧
        is_hit s.ctx.state = false ∧ E.nst_test_rule r false = .NST_OK) ∨
       (req_after_lookup E s r rest = .brk s3 ∧ is_hit s.ctx.state = true) ∨
       (req_after_lookup E s r rest = .ret s3 1 ∧ is_hit s.ctx.state = true)) := by
  by_cases hh : is_hit s.ctx.state = true
  · rcases is_hit_true hh with hm | hd
    · obtain ⟨s3, t, f, hc⟩ := req_conditional_frame E s r
      rw [req_after_lookup_hit_memory E s r rest hm]
      rcases hc with hc | hc
      · exact ⟨s3, t, f, Or.inr (Or.inr (Or.inl ⟨hc, hh⟩))⟩
      · exact ⟨s3, t, f, Or.inr (Or.inr (Or.inr ⟨hc, hh⟩))⟩
    · obtain ⟨s3, t, f, hc⟩ := req_hit_disk_frame E s r
      rw [req_after_lookup_hit_disk E s r rest hd]
      rcases hc with hc | hc
      · exact ⟨s3, t, f, Or.inr (Or.inr (Or.inl ⟨hc, hh⟩))⟩
      · exact ⟨s3, t, f, Or.inr (Or.inr (Or.inr ⟨hc, hh⟩))⟩
  · have hm : is_hit s.ctx.state = false := by simpa using hh
    refine ⟨{ ctx := s.ctx, trace := s.trace ++ [.test_rule r false (E.nst_test_rule r false)] },
      [.test_rule r false (E.nst_test_rule r false)],
      ⟨rfl, rfl, rfl, rfl, rfl, fun c hc => by simp at hc; subst hc; rfl⟩, ?_⟩
    by_cases ha : E.nst_test_rule r false = .NST_OK
    · refine Or.inr (Or.inl ⟨?_, hm, ha⟩)
      rw [req_after_lookup_acl_win E s r rest hm ha, ha]
    · exact Or.inl ⟨req_after_lookup_miss E s r rest hm ha, hm⟩

/-- The lookup step on a key inside the key array. -/
lemma req_lookup_shape (s : St) (r : nst_rule) (k : nst_key)
    (hk : s.ctx.keys[r.key_idx]? = some k) :
    (req_lookup E s r).ctx.keys = s.ctx.keys.set r.key_idx (E.nst_key_hash k) ∧
    (req_lookup E s r).ctx.rule = s.ctx.rule ∧
    (req_lookup E s r).ctx.rule_cnt = s.ctx.rule_cnt ∧
    (∃ c, (req_lookup E s r).ctx.state = (E.nst_cache_exists c).1) ∧
    (req_lookup E s r).trace
      = s.trace ++ [.key_hash r.key_idx,
                    .cache_exists r.key_idx (E.nst_key_hash k) (req_lookup E s r).ctx.state] := by
  have hlt : r.key_idx < s.ctx.keys.length := by
    by_contra hge
    rw [List.getElem?_eq_none (by omega)] at hk
    cases hk
  refine ⟨?_, ?_, ?_, ⟨_, rfl⟩, ?_⟩
  · simp [req_lookup, req_hash, St.call, nst_ctx.commit, hk]
  · simp [req_lookup, req_hash, St.call, nst_ctx.commit]
  · simp [req_lookup, req_hash, St.call, nst_ctx.commit]
  · simp [req_lookup, req_hash, St.call, nst_ctx.commit, hk, hlt]

/-- One pass of the loop body on an enabled rule whose key lies inside the key
array, for an arbitrary environment.  Either the key had to be built and the
build failed (the callback returns 1 in state `BYPASS`, the failed build being
the last call), or the key `k0` (the stored key, or the key just built) is
hashed and looked up and the code after the lookup runs. -/
lemma req_body_master (s : St) (r : nst_rule) (rest : List nst_rule) (key : nst_key)
    (hr : s.ctx.rule = r :: rest) (hen : r.state ≠ .DISABLED)
    (hk : s.ctx.keys[r.key_idx]? = some key) :
    (key.data = none ∧ (E.nst_key_build r s.ctx.txn key E.meth).1 ≠ .NST_OK ∧
      ∃ sF, req_body E s = some (.ret sF 1) ∧ sF.ctx.state = .BYPASS ∧
        sF.trace
          = s.trace ++ [.key_build r.key_idx (E.nst_key_build r s.ctx.txn key E.meth).1]) ∨
    (∃ pre_t k0 sl s3 t,
      ((key.data ≠ none ∧ pre_t = [] ∧ k0 = key) ∨
       (key.data = none ∧ pre_t = [Call.key_build r.key_idx .NST_OK] ∧
         k0 = (E.nst_key_build r s.ctx.txn key E.meth).2.2 ∧
         (E.nst_key_build r s.ctx.txn key E.meth).1 = .NST_OK)) ∧
      sl.ctx.keys = s.ctx.keys.set r.key_idx (E.nst_key_hash k0) ∧
      sl.ctx.rule = r :: rest ∧ sl.ctx.rule_cnt = s.ctx.rule_cnt ∧
      (∃ c, sl.ctx.state = (E.nst_cache_exists c).1) ∧
      sl.trace = s.trace ++ pre_t
        ++ [.key_hash r.key_idx, .cache_exists r.key_idx (E.nst_key_hash k0) sl.ctx.state] ∧
      Frame sl s3 t ∧
      ((req_body E s = some (.next { ctx := { s3.ctx with rule := rest }, trace := s3.trace }) ∧
        is_hit sl.ctx.state = false) ∨
       (req_body E s = some (.brk { ctx := { s3.ctx with state := .PASS }, trace := s3.trace }) ∧
        is_hit sl.ctx.state = false ∧ E.nst_test_rule r false = .NST_OK) ∨
       (req_body E s = some (.brk s3) ∧ is_hit sl.ctx.state = true) ∨
       (req_body E s = some (.ret s3 1) ∧ is_hit sl.ctx.state = true))) := by
  have hlt : r.key_idx < s.ctx.keys.length := by
    by_contra hge
    rw [List.getElem?_eq_none (by omega)] at hk
    cases hk
  have go : ∀ (s1 : St) (k0 : nst_key) (pre_t : List Call),
      req_body E s = some (req_after_lookup E (req_lookup E s1 r) r rest) →
      s1.ctx.keys[r.key_idx]? = some k0 → s1.ctx.keys.set r.key_idx (E.nst_key_hash k0)
        = s.ctx.keys.set r.key_idx (E.nst_key_hash k0) →
      s1.ctx.rule = r :: rest → s1.ctx.rule_cnt = s.ctx.rule_cnt → s1.trace = s.trace ++ pre_t →
      ∃ sl s3 t,
        sl.ctx.keys = s.ctx.keys.set r.key_idx (E.nst_key_hash k0) ∧
        sl.ctx.rule = r :: rest ∧ sl.ctx.rule_cnt = s.ctx.rule_cnt ∧
        (∃ c, sl.ctx.state = (E.nst_cache_exists c).1) ∧
        sl.trace = s.trace ++ pre_t
          ++ [.key_hash r.key_idx, .cache_exists r.key_idx (E.nst_key_hash k0) sl.ctx.state] ∧
        Frame sl s3 t ∧
        ((req_body E s = some (.next { ctx := { s3.ctx with rule := rest }, trace := s3.trace }) ∧
          is_hit sl.ctx.state = false) ∨
         (req_body E s
            = some (.brk { ctx := { s3.ctx with state := .PASS }, trace := s3.trace }) ∧
          is_hit sl.ctx.state = false ∧ E.nst_test_rule r false = .NST_OK) ∨
         (req_body E s = some (.brk s3) ∧ is_hit sl.ctx.state = true) ∨
         (req_body E s = some (.ret s3 1) ∧ is_hit sl.ctx.state = true)) := by
    intro s1 k0 pre_t hbody hk1 hset hrule hrc1 htr
    obtain ⟨l1, l2, l2c, l3, l4⟩ := req_lookup_shape E s1 r k0 hk1
    obtain ⟨s3, t, f, hc⟩ := req_after_lookup_shape E (req_lookup E s1 r) r rest
    refine ⟨req_lookup E s1 r, s3, t, l1.trans hset, l2.trans hrule, l2c.trans hrc1, l3, ?_, f,
      ?_⟩
    · rw [l4, htr]
    · rw [hbody]
      rcases hc with hc | hc | hc | hc
      · exact Or.inl ⟨by rw [hc.1], hc.2⟩
      · exact Or.inr (Or.inl ⟨by rw [hc.1], hc.2⟩)
      · exact Or.inr (Or.inr (Or.inl ⟨by rw [hc.1], hc.2⟩))
      · exact Or.inr (Or.inr (Or.inr ⟨by rw [hc.1], hc.2⟩))
  rcases hd : key.data with _ | d
  · by_cases hrc : (E.nst_key_build r s.ctx.txn key E.meth).1 = .NST_OK
    · right
      have hbody : req_body E s = some (req_after_lookup E
          (req_lookup E (req_build_key E s r key).2 r) r rest) := by
        simp [req_body, hr, hen, hk, req_build_key, hd, hrc]
      obtain ⟨sl, s3, t, g⟩ := go (req_build_key E s r key).2
        (E.nst_key_build r s.ctx.txn key E.meth).2.2 [.key_build r.key_idx .NST_OK] hbody
        (by simp [req_build_key, hd, St.call, hlt])
        (by simp [req_build_key, hd, St.call])
        (by simp [req_build_key, hd, St.call, hr])
        (by simp [req_build_key, hd, St.call])
        (by simp [req_build_key, hd, St.call, hrc])
      exact ⟨_, _, sl, s3, t, Or.inr ⟨rfl, rfl, rfl, hrc⟩, g⟩
    · left
      refine ⟨rfl, hrc,
        { ctx := { (req_build_key E s r key).2.ctx with state := .BYPASS },
          trace := (req_build_key E s r key).2.trace }, ?_, rfl, ?_⟩
      · simp [req_body, hr, hen, hk, req_build_key, hd, hrc]
      · simp [req_build_key, hd, St.call]
  · right
    have hbody : req_body E s = some (req_after_lookup E (req_lookup E s r) r rest) := by
      simp [req_body, hr, hen, hk, req_build_key, hd]
    obtain ⟨sl, s3, t, g⟩ := go s key [] hbody hk rfl hr rfl (by simp)
    exact ⟨_, _, sl, s3, t, Or.inl ⟨by simp, rfl, rfl⟩, g⟩

/-- An enabled rule with its key inside the key array never faults, and when
the body falls through the cursor has advanced and the key array kept its
length. -/
lemma req_body_total (s : St) (r : nst_rule) (rest : List nst_rule) (key : nst_key)
    (hr : s.ctx.rule = r :: rest) (hen : r.state ≠ .DISABLED)
    (hk : s.ctx.keys[r.key_idx]? = some key) :
    ∃ f, req_body E s = some f ∧
      ∀ s2, f = .next s2 → s2.ctx.rule = rest ∧ s2.ctx.keys.length = s.ctx.keys.length := by
  rcases req_body_master E s r rest key hr hen hk with
    ⟨_, _, sF, h1, _, _⟩ | ⟨pre_t, k0, sl, s3, t, _, g1, _, _, _, _, f, hc⟩
  · exact ⟨_, h1, fun s2 h => by cases h⟩
  · have hlen : s3.ctx.keys.length = s.ctx.keys.length := by
      rw [f.keys_same, g1, List.length_set]
    rcases hc with hc | hc | hc | hc
    · refine ⟨_, hc.1, fun s2 h => ?_⟩
      cases h
      exact ⟨rfl, hlen⟩
    · exact ⟨_, hc.1, fun s2 h => by cases h⟩
    · exact ⟨_, hc.1, fun s2 h => by cases h⟩
    · exact ⟨_, hc.1, fun s2 h => by cases h⟩

/-- Induction over the request loop for an arbitrary environment: with a
cursor of at least `n` rules whose key indexes lie inside the key array the loop
never faults, and a property `P` kept by every pass that falls through yields
`Q` of the way the loop is left. -/
lemma req_loop_inv (P : St → Prop) (Q : Flow → Prop)
    (hexit : ∀ s, P s → Q (.brk s))
    (hdis : ∀ s r rest, P s → s.ctx.rule = r :: rest → r.state = .DISABLED →
      P { s with ctx := { s.ctx with rule := rest } })
    (hstep : ∀ s r rest key f, P s → s.ctx.rule = r :: rest → r.state ≠ .DISABLED →
      s.ctx.keys[r.key_idx]? = some key → req_body E s = some f →
      (∀ s2, f = .next s2 → P s2) ∧ ((∀ s2, f ≠ .next s2) → Q f)) :
    ∀ (n : Nat) (s : St), n ≤ s.ctx.rule.length →
      (∀ r ∈ s.ctx.rule, r.key_idx < s.ctx.keys.length) → P s →
      ∃ f, req_loop E n s = some f ∧ Q f ∧ ∀ s2, f ≠ .next s2 := by
  intro n
  induction n with
  | zero =>
    intro s _ _ hP
    exact ⟨.brk s, rfl, hexit s hP, fun s2 h => by cases h⟩
  | succ n ih =>
    intro s hlen hidx hP
    match hr : s.ctx.rule with
    | [] => simp [hr] at hlen
    | r :: rest =>
      have hlen1 : n ≤ rest.length := by simp [hr] at hlen; omega
      by_cases hd : r.state = .DISABLED
      · have hidx1 : ∀ q ∈ rest, q.key_idx < s.ctx.keys.length :=
          fun q hq => hidx q (by simp [hr, hq])
        obtain ⟨f, hf, hq⟩ := ih { s with ctx := { s.ctx with rule := rest } } hlen1 hidx1
          (hdis s r rest hP hr hd)
        exact ⟨f, by rw [req_loop, req_body_disabled E s r rest hr hd]; exact hf, hq⟩
      · have hlt : r.key_idx < s.ctx.keys.length := hidx r (by simp [hr])
        have hk : s.ctx.keys[r.key_idx]? = some s.ctx.keys[r.key_idx] :=
          List.getElem?_eq_getElem hlt
        obtain ⟨f, hf, hnext⟩ := req_body_total E s r rest _ hr hd hk
        obtain ⟨hP2, hQ⟩ := hstep s r rest _ f hP hr hd hk hf
        cases f with
        | next s2 =>
          obtain ⟨h1, h2⟩ := hnext s2 rfl
          have hidx2 : ∀ q ∈ s2.ctx.rule, q.key_idx < s2.ctx.keys.length := by
            intro q hq
            rw [h2]
            rw [h1] at hq
            exact hidx q (by simp [hr, hq])
          obtain ⟨f2, hf2, hq2⟩ := ih s2 (by rw [h1]; exact hlen1) hidx2 (hP2 s2 rfl)
          exact ⟨f2, by rw [req_loop, hf]; exact hf2, hq2⟩
        | brk s2 =>
          exact ⟨.brk s2, by rw [req_loop, hf], hQ (fun s3 h => by cases h),
            fun s3 h => by cases h⟩
        | ret s2 v =>
          exact ⟨.ret s2 v, by rw [req_loop, hf], hQ (fun s3 h => by cases h),
            fun s3 h => by cases h⟩

end loop_shape

section build_failure

variable (E : Env)

/-- The calls of one pass that reaches the lookup contain no failed key build
and no hit serving. -/
lemma go_trace_counts (s sl s3 : St) (pre_t t : List Call) (i : Nat) (kk : nst_key)
    (st : nst_ctx_state)
    (hpre : pre_t = [] ∨ pre_t = [Call.key_build i .NST_OK])
    (hsl : sl.trace = s.trace ++ pre_t ++ [.key_hash i, .cache_exists i kk st])
    (f : Frame sl s3 t) :
    failed_builds s3.trace = failed_builds s.trace ∧ hit_serves s3.trace = hit_serves s.trace := by
  have q1 : failed_builds t = 0 := quiet_countP t f.all_quiet _ (by
    intro c hc; cases c <;> simp_all [quiet_call])
  have q2 : hit_serves t = 0 := quiet_countP t f.all_quiet _ (by
    intro c hc; cases c <;> simp_all [quiet_call])
  rw [f.trace_ext, hsl]
  simp only [failed_builds, hit_serves, List.countP_append] at q1 q2 ⊢
  rw [q1, q2]
  rcases hpre with h | h <;> subst h <;> simp [List.countP_cons]

end build_failure

section loop_cases

variable (E : Env)

/-- Induction over the request loop by the cases of one pass.  `P` is kept by
passes that fall through; `Qb` holds of the state in which the loop is left,
`Qr` of the state in which the callback returns from inside the loop. -/
lemma req_loop_cases (P Qb Qr : St → Prop)
    (hexit : ∀ s, P s → Qb s)
    (hdis : ∀ s r rest, P s → s.ctx.rule = r :: rest → r.state = .DISABLED →
      P { s with ctx := { s.ctx with rule := rest } })
    (hfail : ∀ s r rest key sF, P s → s.ctx.rule = r :: rest → r.state ≠ .DISABLED →
      s.ctx.keys[r.key_idx]? = some key → key.data = none →
      (E.nst_key_build r s.ctx.txn key E.meth).1 ≠ .NST_OK → sF.ctx.state = .BYPASS →
      sF.trace = s.trace ++ [.key_build r.key_idx (E.nst_key_build r s.ctx.txn key E.meth).1] →
      Qr sF)
    (hgo : ∀ s r rest key pre_t k0 sl s3 t, P s → s.ctx.rule = r :: rest →
      r.state ≠ .DISABLED → s.ctx.keys[r.key_idx]? = some key →
      ((key.data ≠ none ∧ pre_t = [] ∧ k0 = key) ∨
       (key.data = none ∧ pre_t = [Call.key_build r.key_idx .NST_OK] ∧
         k0 = (E.nst_key_build r s.ctx.txn key E.meth).2.2 ∧
         (E.nst_key_build r s.ctx.txn key E.meth).1 = .NST_OK)) →
      sl.ctx.keys = s.ctx.keys.set r.key_idx (E.nst_key_hash k0) →
      sl.ctx.rule = r :: rest → sl.ctx.rule_cnt = s.ctx.rule_cnt →
      (∃ c, sl.ctx.state = (E.nst_cache_exists c).1) →
      sl.trace = s.trace ++ pre_t
        ++ [.key_hash r.key_idx, .cache_exists r.key_idx (E.nst_key_hash k0) sl.ctx.state] →
      Frame sl s3 t →
      (is_hit sl.ctx.state = false →
        P { ctx := { s3.ctx with rule := rest }, trace := s3.trace }) ∧
      (is_hit sl.ctx.state = false → E.nst_test_rule r false = .NST_OK →
        Qb { ctx := { s3.ctx with state := .PASS }, trace := s3.trace }) ∧
      (is_hit sl.ctx.state = true → Qb s3 ∧ Qr s3)) :
    ∀ (n : Nat) (s : St), n ≤ s.ctx.rule.length →
      (∀ r ∈ s.ctx.rule, r.key_idx < s.ctx.keys.length) → P s →
      ∃ f, req_loop E n s = some f ∧
        ((∃ s2, f = .brk s2 ∧ Qb s2) ∨ (∃ s2, f = .ret s2 1 ∧ Qr s2)) := by
  intro n s hlen hidx hP
  obtain ⟨f, hf, hQ, _⟩ := req_loop_inv E P
    (fun f => (∃ s2, f = .brk s2 ∧ Qb s2) ∨ (∃ s2, f = .ret s2 1 ∧ Qr s2))
    (fun s hs => Or.inl ⟨s, rfl, hexit s hs⟩) hdis
    (by
      intro s r rest key f hPs hr hen hk hf
      rcases req_body_master E s r rest key hr hen hk with
        ⟨hd, hrc, sF, h1, h2, h3⟩ | ⟨pre_t, k0, sl, s3, t, hb, g1, g2, g2c, g3, g4, fr, hc⟩
      · rw [h1] at hf
        cases hf
        constructor
        · intro s2 h
          cases h
        · intro _
          exact Or.inr ⟨sF, rfl, hfail s r rest key sF hPs hr hen hk hd hrc h2 h3⟩
      · obtain ⟨c1, c2, c3⟩ := hgo s r rest key pre_t k0 sl s3 t hPs hr hen hk hb g1 g2 g2c g3 g4 fr
        rcases hc with hc | hc | hc | hc
        · rw [hc.1] at hf
          cases hf
          constructor
          · intro s2 h
            cases h
            exact c1 hc.2
          · intro hn
            exact absurd rfl (hn _)
        · rw [hc.1] at hf
          cases hf
          constructor
          · intro s2 h
            cases h
          · intro _
            exact Or.inl ⟨_, rfl, c2 hc.2.1 hc.2.2⟩
        · rw [hc.1] at hf
          cases hf
          constructor
          · intro s2 h
            cases h
          · intro _
            exact Or.inl ⟨_, rfl, (c3 hc.2).1⟩
        · rw [hc.1] at hf
          cases hf
          constructor
          · intro s2 h
            cases h
          · intro _
            exact Or.inr ⟨_, rfl, (c3 hc.2).2⟩)
    n s hlen hidx hP
  exact ⟨f, hf, hQ⟩

/-- The request branch of the header callback by the cases of one pass: the
event returns, either through the code after the loop (`req_serve`) from a state
with `Qb`, or from inside the loop, with value 1, from a state with `Qr`. -/
lemma req_headers_cases (P Qb Qr : St → Prop) (ctx : nst_ctx)
    (hst : ctx.state = .INIT) (hm : E.meth ≠ .OTHER)
    (hp : (E.nst_http_parse_htx ctx.txn).1 = .NST_OK)
    (hcnt : ctx.rule_cnt ≤ E.proxy_rule.length)
    (hidx : ∀ r ∈ E.proxy_rule, r.key_idx < ctx.keys.length)
    (hinit : P { ctx := { ctx with txn := (E.nst_http_parse_htx ctx.txn).2,
                                   rule := E.proxy_rule },
                 trace := [.http_parse_htx .NST_OK] })
    (hexit : ∀ s, P s → Qb s)
    (hdis : ∀ s r rest, P s → s.ctx.rule = r :: rest → r.state = .DISABLED →
      P { s with ctx := { s.ctx with rule := rest } })
    (hfail : ∀ s r rest key sF, P s → s.ctx.rule = r :: rest → r.state ≠ .DISABLED →
      s.ctx.keys[r.key_idx]? = some key → key.data = none →
      (E.nst_key_build r s.ctx.txn key E.meth).1 ≠ .NST_OK → sF.ctx.state = .BYPASS →
      sF.trace = s.trace ++ [.key_build r.key_idx (E.nst_key_build r s.ctx.txn key E.meth).1] →
      Qr sF)
    (hgo : ∀ s r rest key pre_t k0 sl s3 t, P s → s.ctx.rule = r :: rest →
      r.state ≠ .DISABLED → s.ctx.keys[r.key_idx]? = some key →
      ((key.data ≠ none ∧ pre_t = [] ∧ k0 = key) ∨
       (key.data = none ∧ pre_t = [Call.key_build r.key_idx .NST_OK] ∧
         k0 = (E.nst_key_build r s.ctx.txn key E.meth).2.2 ∧
         (E.nst_key_build r s.ctx.txn key E.meth).1 = .NST_OK)) →
      sl.ctx.keys = s.ctx.keys.set r.key_idx (E.nst_key_hash k0) →
      sl.ctx.rule = r :: rest → sl.ctx.rule_cnt = s.ctx.rule_cnt →
      (∃ c, sl.ctx.state = (E.nst_cache_exists c).1) →
      sl.trace = s.trace ++ pre_t
        ++ [.key_hash r.key_idx, .cache_exists r.key_idx (E.nst_key_hash k0) sl.ctx.state] →
      Frame sl s3 t →
      (is_hit sl.ctx.state = false →
        P { ctx := { s3.ctx with rule := rest }, trace := s3.trace }) ∧
      (is_hit sl.ctx.state = false → E.nst_test_rule r false = .NST_OK →
        Qb { ctx := { s3.ctx with state := .PASS }, trace := s3.trace }) ∧
      (is_hit sl.ctx.state = true → Qb s3 ∧ Qr s3)) :
    ∃ o, _nst_cache_filter_http_headers E false ctx = some o ∧
      ((∃ s2, o = req_serve E s2 ∧ Qb s2) ∨
       (∃ s2, o = { ctx := s2.ctx, trace := s2.trace, ret := 1 } ∧ Qr s2)) := by
  obtain ⟨f, hf, hQ⟩ := req_loop_cases E P Qb Qr hexit hdis hfail hgo ctx.rule_cnt
    { ctx := { ctx with txn := (E.nst_http_parse_htx ctx.txn).2, rule := E.proxy_rule },
      trace := [.http_parse_htx .NST_OK] }
    (by simpa using hcnt) (by simpa using hidx) hinit
  have hrun := req_headers_loop E ctx hst hm hp
  rw [hf] at hrun
  simp only [Option.map_some'] at hrun
  refine ⟨_, hrun, ?_⟩
  rcases hQ with ⟨s2, h1, h2⟩ | ⟨s2, h1, h2⟩
  · subst h1
    exact Or.inl ⟨s2, rfl, h2⟩
  · subst h1
    exact Or.inr ⟨s2, rfl, h2⟩

/-- Serving after the loop adds at most a `nst_cache_hit` call to the trace. -/
lemma req_serve_trace (s : St) :
    (req_serve E s).ret = 1 ∧ (req_serve E s).ctx.rule = s.ctx.rule ∧
    (req_serve E s).ctx.keys = s.ctx.keys ∧
    (((req_serve E s).trace = s.trace ∧ (req_serve E s).ctx = s.ctx ∧
        is_hit s.ctx.state = false) ∨
     ((req_serve E s).trace = s.trace ++ [.cache_hit s.ctx.state] ∧
        (req_serve E s).ctx = s.ctx.commit (E.nst_cache_hit s.ctx) ∧
        is_hit s.ctx.state = true)) := by
  by_cases hh : is_hit s.ctx.state = true
  · have := is_hit_true hh
    simp [req_serve, this, nst_ctx.commit, hh]
  · have hm : is_hit s.ctx.state = false := by simpa using hh
    obtain ⟨h1, h2⟩ := is_hit_false hm
    simp [req_serve, h1, h2, hm]

end loop_cases

/-- C14: a key-build failure in the request-phase loop (state `INIT` at entry,
cacheable method, parse succeeding, a rule list of at least `rule_cnt` nodes with
key indexes inside the key array).  The event always returns; and when the
trace holds a failed key build, whatever the lookups of earlier rules returned,
that build is the only failed one and the last call of the event (so no lookup or
ACL test follows for that rule or a later one), the final state is `BYPASS`, the
callback returns 1 and `nst_cache_hit` is not invoked. -/
theorem key_build_failure_bypass (E : Env) (ctx : nst_ctx)
    (hst : ctx.state = .INIT) (hm : E.meth ≠ .OTHER)
    (hp : (E.nst_http_parse_htx ctx.txn).1 = .NST_OK)
    (hcnt : ctx.rule_cnt ≤ E.proxy_rule.length)
    (hidx : ∀ r ∈ E.proxy_rule, r.key_idx < ctx.keys.length) :
    ∃ o, _nst_cache_filter_http_headers E false ctx = some o ∧
      (failed_builds o.trace ≠ 0 →
        o.ctx.state = .BYPASS ∧ o.ret = 1 ∧ hit_serves o.trace = 0 ∧
        ∃ t idx rc, o.trace = t ++ [Call.key_build idx rc] ∧ rc ≠ .NST_OK ∧ failed_builds t = 0) := by
  obtain ⟨o, ho, hcase⟩ := req_headers_cases E
    (fun s => failed_builds s.trace = 0 ∧ hit_serves s.trace = 0)
    (fun s => failed_builds s.trace = 0 ∧ hit_serves s.trace = 0)
    (fun s => hit_serves s.trace = 0 ∧
      (failed_builds s.trace = 0 ∨
        (s.ctx.state = .BYPASS ∧ ∃ t idx rc, s.trace = t ++ [Call.key_build idx rc] ∧
          rc ≠ .NST_OK ∧ failed_builds t = 0)))
    ctx hst hm hp hcnt hidx
    ⟨by simp [failed_builds], by simp [hit_serves]⟩
    (fun s hP => hP)
    (fun s r rest hP _ _ => hP)
    (by
      intro s r rest key sF hP _ _ _ _ hrc h2 h3
      refine ⟨?_, Or.inr ⟨h2, _, _, _, h3, hrc, hP.1⟩⟩
      rw [h3]
      simpa [hit_serves, List.countP_append] using hP.2)
    (by
      intro s r rest key pre_t k0 sl s3 t hP _ _ _ hb _ _ _ _ g4 fr
      have hpre : pre_t = [] ∨ pre_t = [Call.key_build r.key_idx .NST_OK] := by
        rcases hb with ⟨_, h, _⟩ | ⟨_, h, _⟩
        · exact Or.inl h
        · exact Or.inr h
      obtain ⟨c1, c2⟩ := go_trace_counts s sl s3 pre_t t _ _ _ hpre g4 fr
      rw [hP.1] at c1
      rw [hP.2] at c2
      exact ⟨fun _ => ⟨c1, c2⟩, fun _ _ => ⟨c1, c2⟩, fun _ => ⟨⟨c1, c2⟩, c2, Or.inl c1⟩⟩)
  refine ⟨o, ho, ?_⟩
  rcases hcase with ⟨s2, h1, b1, b2⟩ | ⟨s2, h1, b2, b3⟩
  · intro hne
    exfalso
    apply hne
    subst h1
    obtain ⟨_, _, _, hs⟩ := req_serve_trace E s2
    rcases hs with ⟨ht, _, _⟩ | ⟨ht, _, _⟩
    · rw [ht]; exact b1
    · rw [ht]
      simpa [failed_builds, List.countP_append] using b1
  · subst h1
    intro hne
    rcases b3 with b3 | ⟨b3, b4⟩
    · exact absurd b3 hne
    · exact ⟨b3, rfl, b2, b4⟩

theorem key_build_failure_bypass_witness :
    (ctx0 3 2).state = .INIT ∧
    ∃ o, _nst_cache_filter_http_headers env_build_fails false (ctx0 3 2) = some o ∧
      failed_builds o.trace ≠ 0 ∧ lookups o.trace = 1 ∧
      o.ctx.state = .BYPASS ∧ o.ret = 1 ∧ hit_serves o.trace = 0 ∧
      ∃ t idx rc, o.trace = t ++ [Call.key_build idx rc] ∧ rc ≠ .NST_OK ∧ failed_builds t = 0 := by
  obtain ⟨o, h1, h2⟩ := key_build_failure_bypass env_build_fails (ctx0 3 2) rfl (by decide) rfl
    (by decide) (by decide)
  have hev : (_nst_cache_filter_http_headers env_build_fails false (ctx0 3 2)).map
      (fun o => (failed_builds o.trace, lookups o.trace)) = some (1, 1) := by decide
  rw [h1] at hev
  simp only [Option.map_some', Option.some.injEq, Prod.mk.injEq] at hev
  have hne : failed_builds o.trace ≠ 0 := by omega
  obtain ⟨a, b, c, d⟩ := h2 hne
  exact ⟨rfl, o, h1, hne, hev.2, a, b, c, d⟩

section memoization

variable (E : Env)

lemma hash_idem (hhash : hash_of_bytes E) (k : nst_key) :
    E.nst_key_hash (E.nst_key_hash k) = E.nst_key_hash k := by
  have h1 := hhash.1 (E.nst_key_hash k)
  have h2 := hhash.2 (E.nst_key_hash k) k (hhash.1 k)
  rcases hk : E.nst_key_hash (E.nst_key_hash k) with ⟨d1, x1⟩
  rcases hk2 : E.nst_key_hash k with ⟨d2, x2⟩
  rw [hk2] at hk
  rw [hk2, hk] at h1 h2
  simp only at h1 h2
  rw [h1, h2]

lemma Memo.final {keys : List nst_key} {t : List Call} (h : Memo E keys t) : memoized t := by
  intro idx
  obtain ⟨h1, _, h3⟩ := h idx
  refine ⟨h1, fun k1 hk1 k2 hk2 => ?_⟩
  have a := (h3 k1 hk1).1
  have b := (h3 k2 hk2).1
  rw [a] at b
  exact Option.some.inj b

/-- Quiet calls contribute neither a key build nor a lookup key. -/
lemma quiet_memo (t : List Call) (hq : ∀ c ∈ t, quiet_call c = true) (idx : Nat) :
    builds_of idx t = 0 ∧ lookup_keys idx t = [] := by
  refine ⟨quiet_countP t hq _ (by intro c hc; cases c <;> simp_all [quiet_call]), ?_⟩
  simp only [lookup_keys, List.filterMap_eq_nil_iff]
  intro c hc
  have := hq c hc
  cases c <;> simp_all [quiet_call]

/-- The trace of a pass that reaches the lookup, counted per key index. -/
lemma go_trace_memo (t0 pre_t t : List Call) (i : Nat) (kk : nst_key) (st : nst_ctx_state)
    (hq : ∀ c ∈ t, quiet_call c = true) (idx : Nat) :
    builds_of idx (t0 ++ pre_t ++ [.key_hash i, .cache_exists i kk st] ++ t)
      = builds_of idx t0 + builds_of idx pre_t ∧
    lookup_keys idx (t0 ++ pre_t ++ [.key_hash i, .cache_exists i kk st] ++ t)
      = lookup_keys idx t0 ++ lookup_keys idx pre_t ++ (if i = idx then [kk] else []) := by
  obtain ⟨q1, q2⟩ := quiet_memo t hq idx
  constructor
  · simp only [builds_of, List.countP_append] at q1 ⊢
    rw [q1]
    simp [List.countP_cons]
  · simp only [lookup_keys, List.filterMap_append] at q2 ⊢
    rw [q2]
    by_cases h : i = idx <;> simp [List.filterMap_cons, h]

/-- With data in the key at index `i` nothing was built or looked up that could
be missing: a key without data was neither built nor looked up. -/
lemma Memo.fresh {keys : List nst_key} {t : List Call} (h : Memo E keys t) (i : Nat)
    (key : nst_key) (hk : keys[i]? = some key) (hd : key.data = none) :
    builds_of i t = 0 ∧ lookup_keys i t = [] := by
  obtain ⟨_, h2, h3⟩ := h i
  constructor
  · by_contra hne
    obtain ⟨k, a, b⟩ := h2 (by omega)
    rw [hk] at a
    cases a
    exact b hd
  · rcases hl : lookup_keys i t with _ | ⟨k, ks⟩
    · rfl
    · obtain ⟨a, b, _⟩ := h3 k (by rw [hl]; simp)
      rw [hk] at a
      cases a
      exact absurd hd b

/-- The invariant after a pass that reaches the lookup with key `k0`. -/
lemma Memo.go (hhash : hash_of_bytes E) {keys : List nst_key} {t0 : List Call}
    (h : Memo E keys t0) (i : Nat) (key k0 : nst_key) (pre_t t : List Call)
    (st : nst_ctx_state) (hk : keys[i]? = some key)
    (hb : (key.data ≠ none ∧ pre_t = [] ∧ k0 = key) ∨
      (key.data = none ∧ pre_t = [Call.key_build i .NST_OK] ∧ k0.data ≠ none))
    (hq : ∀ c ∈ t, quiet_call c = true) :
    Memo E (keys.set i (E.nst_key_hash k0))
      (t0 ++ pre_t ++ [.key_hash i, .cache_exists i (E.nst_key_hash k0) st] ++ t) := by
  have hlt : i < keys.length := by
    by_contra hge
    rw [List.getElem?_eq_none (by omega)] at hk
    cases hk
  have hself : (keys.set i (E.nst_key_hash k0))[i]? = some (E.nst_key_hash k0) :=
    List.getElem?_set_self hlt
  have hk0d : k0.data ≠ none := by
    rcases hb with ⟨a, _, c⟩ | ⟨_, _, c⟩
    · rw [c]; exact a
    · exact c
  have hhd : (E.nst_key_hash k0).data ≠ none := by rw [hhash.1]; exact hk0d
  intro idx
  obtain ⟨c1, c2⟩ := go_trace_memo t0 pre_t t i (E.nst_key_hash k0) st hq idx
  obtain ⟨m1, m2, m3⟩ := h idx
  rw [c1, c2]
  by_cases hi : i = idx
  · subst hi
    rcases hb with ⟨a, b, c⟩ | ⟨a, b, _⟩
    · subst b
      subst c
      have hb0 : builds_of i ([] : List Call) = 0 := by simp [builds_of]
      have hl0 : lookup_keys i ([] : List Call) = [] := by simp [lookup_keys]
      rw [hb0, hl0]
      refine ⟨by omega, fun _ => ⟨_, hself, hhd⟩, ?_⟩
      intro k hkm
      simp only [List.append_nil, if_true, List.mem_append, List.mem_singleton] at hkm
      rcases hkm with hkm | hkm
      · obtain ⟨x, y, z⟩ := m3 k hkm
        rw [hk] at x
        cases x
        exact ⟨by rw [hself, z], y, z⟩
      · subst hkm
        exact ⟨hself, hhd, hash_idem E hhash k0⟩
    · subst b
      obtain ⟨f1, f2⟩ := Memo.fresh E h i key hk a
      have hb1 : builds_of i [Call.key_build i .NST_OK] = 1 := by simp [builds_of]
      have hl1 : lookup_keys i [Call.key_build i .NST_OK] = [] := by simp [lookup_keys]
      rw [hb1, hl1, f1, f2]
      refine ⟨by omega, fun _ => ⟨_, hself, hhd⟩, ?_⟩
      intro k hkm
      simp only [List.append_nil, if_true, List.nil_append, List.mem_singleton] at hkm
      subst hkm
      exact ⟨hself, hhd, hash_idem E hhash k0⟩
  · have hother : (keys.set i (E.nst_key_hash k0))[idx]? = keys[idx]? :=
      List.getElem?_set_ne hi
    have hb0 : builds_of idx pre_t = 0 := by
      rcases hb with ⟨_, b, _⟩ | ⟨_, b, _⟩ <;> subst b <;> simp [builds_of, hi]
    have hl0 : lookup_keys idx pre_t = [] := by
      rcases hb with ⟨_, b, _⟩ | ⟨_, b, _⟩ <;> subst b <;> simp [lookup_keys]
    rw [hb0, hl0, hother]
    simp only [hi, if_false, List.append_nil, Nat.add_zero]
    exact ⟨m1, m2, m3⟩

/-- A failed build ends the event with the memoization property intact. -/
lemma Memo.fail {keys : List nst_key} {t0 : List Call} (h : Memo E keys t0) (i : Nat)
    (key : nst_key) (rc : nst_rc) (hk : keys[i]? = some key) (hd : key.data = none) :
    memoized (t0 ++ [Call.key_build i rc]) := by
  intro idx
  obtain ⟨m1, m2⟩ := Memo.final E h idx
  have hl : lookup_keys idx (t0 ++ [Call.key_build i rc]) = lookup_keys idx t0 := by
    simp [lookup_keys, List.filterMap_append]
  rw [hl]
  refine ⟨?_, m2⟩
  by_cases hi : i = idx
  · subst hi
    obtain ⟨f1, _⟩ := Memo.fresh E h i key hk hd
    simp only [builds_of, List.countP_append] at f1 ⊢
    rw [f1]
    simp
  · simp only [builds_of, List.countP_append] at m1 ⊢
    simp [List.countP_cons, hi]
    exact m1

/-- Serving a hit adds no key build and no lookup. -/
lemma memoized_serve (t : List Call) (st : nst_ctx_state) (h : memoized t) :
    memoized (t ++ [Call.cache_hit st]) := by
  intro idx
  obtain ⟨m1, m2⟩ := h idx
  have hl : lookup_keys idx (t ++ [Call.cache_hit st]) = lookup_keys idx t := by
    simp [lookup_keys, List.filterMap_append]
  have hb : builds_of idx (t ++ [Call.cache_hit st]) = builds_of idx t := by
    simp [builds_of, List.countP_append]
  rw [hl, hb]
  exact ⟨m1, m2⟩

end memoization

/-- C13: key building is memoized per key index within one request-phase header
event (state `INIT` at entry, cacheable method, parse succeeding, a rule list of
at least `rule_cnt` nodes with key indexes inside the key array).  Assuming that
a successful build leaves the key's data non-NULL, and that the hasher leaves the
key bytes alone and computes the hash from the bytes, the event returns and its
trace holds at most one key build for each key index, and all the store lookups
made for one key index are made with the same key bytes and the same hash. -/
theorem key_build_memoized (E : Env) (ctx : nst_ctx)
    (hst : ctx.state = .INIT) (hm : E.meth ≠ .OTHER)
    (hp : (E.nst_http_parse_htx ctx.txn).1 = .NST_OK)
    (hcnt : ctx.rule_cnt ≤ E.proxy_rule.length)
    (hidx : ∀ r ∈ E.proxy_rule, r.key_idx < ctx.keys.length)
    (hdata : build_sets_data E) (hhash : hash_of_bytes E) :
    ∃ o, _nst_cache_filter_http_headers E false ctx = some o ∧
      ∀ idx, builds_of idx o.trace ≤ 1 ∧
        ∀ k1 ∈ lookup_keys idx o.trace, ∀ k2 ∈ lookup_keys idx o.trace,
          k1.data = k2.data ∧ k1.hash = k2.hash := by
  obtain ⟨o, ho, hcase⟩ := req_headers_cases E
    (fun s => Memo E s.ctx.keys s.trace) (fun s => memoized s.trace) (fun s => memoized s.trace)
    ctx hst hm hp hcnt hidx
    (by
      intro idx
      refine ⟨by simp [builds_of], fun h => ?_, fun k hk => ?_⟩
      · simp [builds_of] at h
      · simp [lookup_keys] at hk)
    (fun s hP => Memo.final E hP)
    (fun s r rest hP _ _ => hP)
    (by
      intro s r rest key sF hP _ _ hk hd _ _ h3
      rw [h3]
      exact Memo.fail E hP r.key_idx key _ hk hd)
    (by
      intro s r rest key pre_t k0 sl s3 t hP _ _ hk hb g1 _ _ _ g4 fr
      have hb2 : (key.data ≠ none ∧ pre_t = [] ∧ k0 = key) ∨
          (key.data = none ∧ pre_t = [Call.key_build r.key_idx .NST_OK] ∧ k0.data ≠ none) := by
        rcases hb with h | ⟨a, b, c, d⟩
        · exact Or.inl h
        · exact Or.inr ⟨a, b, by rw [c]; exact hdata _ _ _ _ d⟩
      have hM : Memo E s3.ctx.keys s3.trace := by
        rw [fr.keys_same, g1, fr.trace_ext, g4]
        exact Memo.go E hhash hP r.key_idx key k0 pre_t t _ hk hb2 fr.all_quiet
      exact ⟨fun _ => hM, fun _ _ => Memo.final E hM,
        fun _ => ⟨Memo.final E hM, Memo.final E hM⟩⟩)
  have hmem : memoized o.trace := by
    rcases hcase with ⟨s2, h1, h2⟩ | ⟨s2, h1, h2⟩
    · subst h1
      obtain ⟨_, _, _, hs⟩ := req_serve_trace E s2
      rcases hs with ⟨ht, _, _⟩ | ⟨ht, _, _⟩
      · rw [ht]; exact h2
      · rw [ht]; exact memoized_serve _ _ h2
    · subst h1
      exact h2
  refine ⟨o, ho, fun idx => ⟨(hmem idx).1, fun k1 h1 k2 h2 => ?_⟩⟩
  have := (hmem idx).2 k1 h1 k2 h2
  subst this
  exact ⟨rfl, rfl⟩

theorem key_build_memoized_witness :
    build_sets_data { env0 with proxy_rule := [rule_miss, rule_200] } ∧
    hash_of_bytes { env0 with proxy_rule := [rule_miss, rule_200] } ∧
    ∃ o, _nst_cache_filter_http_headers { env0 with proxy_rule := [rule_miss, rule_200] } false
          (ctx0 2 1) = some o ∧
      builds_of 0 o.trace = 1 ∧ (lookup_keys 0 o.trace).length = 2 ∧
      ∀ idx, builds_of idx o.trace ≤ 1 ∧
        ∀ k1 ∈ lookup_keys idx o.trace, ∀ k2 ∈ lookup_keys idx o.trace,
          k1.data = k2.data ∧ k1.hash = k2.hash := by
  have hd : build_sets_data { env0 with proxy_rule := [rule_miss, rule_200] } := by
    intro r t k m _
    simp [env0]
  have hh : hash_of_bytes { env0 with proxy_rule := [rule_miss, rule_200] } := by
    refine ⟨fun k => rfl, fun k k2 h => ?_⟩
    simp [env0, h]
  obtain ⟨o, h1, h2⟩ := key_build_memoized { env0 with proxy_rule := [rule_miss, rule_200] }
    (ctx0 2 1) rfl (by decide) rfl (by decide) (by decide) hd hh
  have hev : (_nst_cache_filter_http_headers { env0 with proxy_rule := [rule_miss, rule_200] }
      false (ctx0 2 1)).map (fun o => (builds_of 0 o.trace, (lookup_keys 0 o.trace).length))
      = some (1, 2) := by decide
  rw [h1] at hev
  simp only [Option.map_some', Option.some.injEq, Prod.mk.injEq] at hev
  exact ⟨hd, hh, o, h1, hev.1, hev.2, h2⟩

section cursor_safety

variable (E : Env)

/-- The response-phase walk over a cursor of at least `n` rules never faults; it
ends in the state it started in, or in state `PASS` with the cursor at a rule
whose response ACL test succeeded. -/
lemma res_loop_safe :
    ∀ (n : Nat) (s : St), n ≤ s.ctx.rule.length →
      ∃ s1, res_loop E n s = some s1 ∧
        (s1.ctx.state = s.ctx.state ∨
         (s1.ctx.state = .PASS ∧ ∃ r rest, s1.ctx.rule = r :: rest ∧
            E.nst_test_rule r true = .NST_OK)) := by
  intro n
  induction n with
  | zero => intro s _; exact ⟨s, rfl, Or.inl rfl⟩
  | succ n ih =>
    intro s hlen
    match hr : s.ctx.rule with
    | [] => simp [hr] at hlen
    | r :: rest =>
      have hlen1 : n ≤ rest.length := by simp [hr] at hlen; omega
      by_cases ha : E.nst_test_rule r true = .NST_OK
      · refine ⟨{ ctx := { s.ctx with state := .PASS },
                  trace := s.trace ++ [.test_rule r true .NST_OK] }, ?_, Or.inr ⟨rfl, r, rest, hr, ha⟩⟩
        simp [res_loop, res_body, hr, ha, St.call]
      · obtain ⟨s1, h1, h2⟩ := ih
          { ctx := { s.ctx with rule := rest },
            trace := s.trace ++ [.test_rule r true (E.nst_test_rule r true)] } hlen1
        refine ⟨s1, ?_, h2⟩
        simp only [res_loop, res_body, hr, ha, St.call, if_false]
        exact h1

/-- The status-code check does not fault when state `PASS` comes with a rule at
the cursor. -/
lemma res_create_safe (s : St)
    (h : s.ctx.state = .PASS → ∃ r rest, s.ctx.rule = r :: rest) :
    ∃ o, res_create E s = some o := by
  by_cases hp : s.ctx.state = .PASS
  · obtain ⟨r, rest, hr⟩ := h hp
    by_cases hv : code_valid r.code E.status = true
    · simp only [res_create, hp, hr, hv, if_true]
      exact ⟨_, rfl⟩
    · simp only [res_create, hp, hr, hv, if_true]
      exact ⟨_, rfl⟩
  · simp only [res_create, hp, if_false]
    exact ⟨_, rfl⟩

end cursor_safety

/-- C19: rule-cursor safety.  For a fresh context (state `INIT`) whose key array
has `key_cnt` slots, a rule list of exactly `rule_cnt` nodes with key indexes
below `key_cnt`, a store lookup that never returns `PASS` and a hit serving that
leaves the state alone: the request-direction header event returns (no NULL cursor
is dereferenced, no key access is out of bounds) and leaves state `PASS` only
with the cursor at a rule whose request ACL test succeeded; the
response-direction header event that follows returns as well, and when its
status-code check is reached in state `PASS` the cursor is at a rule whose ACL
test succeeded (in the request phase, or in the response-phase walk). -/
theorem rule_cursor_safe (E : Env) (ctx : nst_ctx)
    (hst : ctx.state = .INIT)
    (hcnt : E.proxy_rule.length = ctx.rule_cnt)
    (hidx : ∀ r ∈ E.proxy_rule, r.key_idx < ctx.key_cnt)
    (hkeys : ctx.keys.length = ctx.key_cnt)
    (hnp : ∀ c, (E.nst_cache_exists c).1 ≠ .PASS)
    (hserve : ∀ c, (E.nst_cache_hit c).state = c.state) :
    ∃ o1, _nst_cache_filter_http_headers E false ctx = some o1 ∧
      (o1.ctx.state = .PASS →
        ∃ r rest, o1.ctx.rule = r :: rest ∧ E.nst_test_rule r false = .NST_OK) ∧
      ∃ s1 o2, _nst_cache_filter_http_headers E true o1.ctx = res_create E s1 ∧
        res_create E s1 = some o2 ∧
        (s1.ctx.state = .PASS →
          ∃ r rest, s1.ctx.rule = r :: rest ∧
            (E.nst_test_rule r false = .NST_OK ∨ E.nst_test_rule r true = .NST_OK)) := by
  -- request phase
  have hreq : ∃ o1, _nst_cache_filter_http_headers E false ctx = some o1 ∧
      (o1.ctx.state = .PASS →
        ∃ r rest, o1.ctx.rule = r :: rest ∧ E.nst_test_rule r false = .NST_OK) ∧
      (o1.ctx.state = .INIT → o1.ctx.rule_cnt = ctx.rule_cnt) := by
    by_cases hm : E.meth = .OTHER
    · refine ⟨{ ctx := { ctx with state := .BYPASS }, trace := [], ret := 1 }, ?_, ?_, ?_⟩
      · simp [_nst_cache_filter_http_headers, req_headers, hm, req_serve]
      · intro h; cases h
      · intro h; cases h
    · by_cases hp : (E.nst_http_parse_htx ctx.txn).1 = .NST_OK
      · obtain ⟨o, ho, hcase⟩ := req_headers_cases E
          (fun s => s.ctx.state ≠ .PASS ∧ s.ctx.rule_cnt = ctx.rule_cnt)
          (fun s => s.ctx.rule_cnt = ctx.rule_cnt ∧ (s.ctx.state = .PASS →
            ∃ r rest, s.ctx.rule = r :: rest ∧ E.nst_test_rule r false = .NST_OK))
          (fun s => s.ctx.state ≠ .PASS ∧ s.ctx.state ≠ .INIT)
          ctx hst hm hp (by omega) (by intro r hr; rw [hkeys]; exact hidx r hr)
          ⟨by simp [hst], rfl⟩
          (fun s hP => ⟨hP.2, fun h => absurd h hP.1⟩)
          (fun s r rest hP _ _ => hP)
          (by
            intro s r rest key sF _ _ _ _ _ _ h2 _
            rw [h2]
            exact ⟨by decide, by decide⟩)
          (by
            intro s r rest key pre_t k0 sl s3 t hP _ _ _ _ _ g2 g2c g3 _ fr
            obtain ⟨c, hc⟩ := g3
            have hs3 : s3.ctx.state ≠ .PASS := by
              rw [fr.state_same, hc]; exact hnp c
            have hc3 : s3.ctx.rule_cnt = ctx.rule_cnt := by
              rw [fr.rule_cnt_same, g2c]; exact hP.2
            refine ⟨fun _ => ⟨hs3, hc3⟩, fun _ ha => ⟨hc3, fun _ => ⟨r, rest, ?_, ha⟩⟩, ?_⟩
            · show s3.ctx.rule = r :: rest
              rw [fr.rule_same, g2]
            · intro hh
              have hh3 : is_hit s3.ctx.state = true := by rw [fr.state_same]; exact hh
              refine ⟨⟨hc3, fun h => absurd h hs3⟩, hs3, ?_⟩
              intro hi
              rw [hi] at hh3
              simp [is_hit] at hh3)
        refine ⟨o, ho, ?_, ?_⟩
        · rcases hcase with ⟨s2, h1, h2, h3⟩ | ⟨s2, h1, h2, h3⟩
          · subst h1
            obtain ⟨_, hrule, _, hs⟩ := req_serve_trace E s2
            rcases hs with ⟨_, hc, _⟩ | ⟨_, hc, _⟩
            · rw [hc]; exact h3
            · rename_i hh
              intro hpass
              rw [hc] at hpass
              have hst2 : s2.ctx.state = .PASS := by
                simpa [nst_ctx.commit, hserve] using hpass
              rw [hst2] at hh
              simp [is_hit] at hh
          · subst h1
            intro hpass
            exact absurd hpass h2
        · rcases hcase with ⟨s2, h1, h2, h3⟩ | ⟨s2, h1, h2, h3⟩
          · subst h1
            obtain ⟨_, _, _, hs⟩ := req_serve_trace E s2
            rcases hs with ⟨_, hc, _⟩ | ⟨_, hc, _⟩
            · rw [hc]; intro _; exact h2
            · rw [hc]; intro _; simpa [nst_ctx.commit] using h2
          · subst h1
            intro hi
            exact absurd hi h3
      · refine ⟨{ ctx := { ctx with state := .BYPASS, txn := (E.nst_http_parse_htx ctx.txn).2 },
                  trace := [.http_parse_htx (E.nst_http_parse_htx ctx.txn).1], ret := 1 },
          ?_, ?_, ?_⟩
        · simp [_nst_cache_filter_http_headers, req_headers, hm, hst, hp]
        · intro h; cases h
        · intro h; cases h
  obtain ⟨o1, ho1, hpass, hinit⟩ := hreq
  refine ⟨o1, ho1, hpass, ?_⟩
  -- response phase
  by_cases hi : o1.ctx.state = .INIT
  · obtain ⟨s1, hs1, hcase⟩ := res_loop_safe E o1.ctx.rule_cnt
      { ctx := { o1.ctx with rule := E.proxy_rule }, trace := [] }
      (by simp [hinit hi, hcnt])
    have hrule : s1.ctx.state = .PASS →
        ∃ r rest, s1.ctx.rule = r :: rest ∧
          (E.nst_test_rule r false = .NST_OK ∨ E.nst_test_rule r true = .NST_OK) := by
      intro hp
      rcases hcase with h | ⟨_, r, rest, hr, ha⟩
      · rw [hp] at h
        simp only at h
        rw [hi] at h
        cases h
      · exact ⟨r, rest, hr, Or.inr ha⟩
    obtain ⟨o2, ho2⟩ := res_create_safe E s1 (fun hp => by
      obtain ⟨r, rest, hr, _⟩ := hrule hp
      exact ⟨r, rest, hr⟩)
    refine ⟨s1, o2, ?_, ho2, hrule⟩
    simp only [hi] at hs1
    simp only [_nst_cache_filter_http_headers, res_headers, hi, if_true]
    rw [hs1]
  · have hrule : o1.ctx.state = .PASS →
        ∃ r rest, o1.ctx.rule = r :: rest ∧
          (E.nst_test_rule r false = .NST_OK ∨ E.nst_test_rule r true = .NST_OK) := by
      intro hp
      obtain ⟨r, rest, hr, ha⟩ := hpass hp
      exact ⟨r, rest, hr, Or.inl ha⟩
    obtain ⟨o2, ho2⟩ := res_create_safe E { ctx := o1.ctx, trace := [] } (fun hp => by
      obtain ⟨r, rest, hr, _⟩ := hrule hp
      exact ⟨r, rest, hr⟩)
    refine ⟨{ ctx := o1.ctx, trace := [] }, o2, ?_, ho2, hrule⟩
    simp only [_nst_cache_filter_http_headers, res_headers, hi, if_true, if_false]

theorem rule_cursor_safe_witness :
    (ctx0 4 2).state = .INIT ∧
    ∃ o1, _nst_cache_filter_http_headers (env_hit .INIT .NST_OK false) false (ctx0 4 2)
        = some o1 ∧
      (o1.ctx.state = .PASS →
        ∃ r rest, o1.ctx.rule = r :: rest ∧
          (env_hit .INIT .NST_OK false).nst_test_rule r false = .NST_OK) ∧
      ∃ s1 o2, _nst_cache_filter_http_headers (env_hit .INIT .NST_OK false) true o1.ctx
          = res_create (env_hit .INIT .NST_OK false) s1 ∧
        res_create (env_hit .INIT .NST_OK false) s1 = some o2 ∧
        (s1.ctx.state = .PASS →
          ∃ r rest, s1.ctx.rule = r :: rest ∧
            ((env_hit .INIT .NST_OK false).nst_test_rule r false = .NST_OK ∨
             (env_hit .INIT .NST_OK false).nst_test_rule r true = .NST_OK)) :=
  ⟨rfl, rule_cursor_safe (env_hit .INIT .NST_OK false) (ctx0 4 2) rfl rfl (by decide) rfl
    (by
      intro c
      rcases hc : c.rule with _ | ⟨r, rest⟩
      · simp [env_hit, hc]
      · by_cases hk : r.key_idx = 1 <;> simp [env_hit, lookup_hit, hc, hk])
    (fun _ => rfl)⟩

section first_match

variable (E : Env) (L : nst_rule → nst_ctx_state)

/-- One pass of the loop body on an enabled rule whose key `key` lies inside the
key array, key builds succeeding: the calls made up to the lookup are
`visit_trace`, the looked-up key `k` is stored at the rule's index, the state is
the lookup result and the code after the lookup runs. -/
lemma req_body_visit (s : St) (r : nst_rule) (rest : List nst_rule) (key : nst_key)
    (hb : ∀ r t k m, (E.nst_key_build r t k m).1 = .NST_OK)
    (hL : ∀ c r rest, c.rule = r :: rest → (E.nst_cache_exists c).1 = L r)
    (hr : s.ctx.rule = r :: rest) (hen : r.state ≠ .DISABLED)
    (hk : s.ctx.keys[r.key_idx]? = some key) :
    ∃ k sl, req_body E s = some (req_after_lookup E sl r rest) ∧
      sl.ctx.keys = s.ctx.keys.set r.key_idx k ∧ sl.ctx.rule = r :: rest ∧
      sl.ctx.state = L r ∧ sl.trace = s.trace ++ visit_trace L r key k := by
  have hlt : r.key_idx < s.ctx.keys.length := by
    by_contra hge
    rw [List.getElem?_eq_none (by omega)] at hk
    cases hk
  have go : ∀ (s1 : St) (k0 : nst_key), s1.ctx.keys[r.key_idx]? = some k0 →
      s1.ctx.keys.set r.key_idx (E.nst_key_hash k0)
        = s.ctx.keys.set r.key_idx (E.nst_key_hash k0) →
      s1.ctx.rule = r :: rest →
      (req_lookup E s1 r).ctx.keys = s.ctx.keys.set r.key_idx (E.nst_key_hash k0) ∧
      (req_lookup E s1 r).ctx.rule = r :: rest ∧ (req_lookup E s1 r).ctx.state = L r ∧
      (req_lookup E s1 r).trace
        = s1.trace ++ [.key_hash r.key_idx, .cache_exists r.key_idx (E.nst_key_hash k0) (L r)] := by
    intro s1 k0 hk1 hset hrule
    obtain ⟨l1, l2, _, _, l4⟩ := req_lookup_shape E s1 r k0 hk1
    obtain ⟨_, g1, _, _, _⟩ := req_lookup_spec E L s1 r rest hL hrule
    refine ⟨l1.trans hset, l2.trans hrule, g1, ?_⟩
    rw [l4, g1]
  rcases hd : key.data with _ | d
  · have hrc := hb r s.ctx.txn key E.meth
    have hbody : req_body E s = some (req_after_lookup E
        (req_lookup E (req_build_key E s r key).2 r) r rest) := by
      simp [req_body, hr, hen, hk, req_build_key, hd, hrc]
    obtain ⟨g1, g2, g3, g4⟩ := go (req_build_key E s r key).2
      (E.nst_key_build r s.ctx.txn key E.meth).2.2
      (by simp [req_build_key, hd, St.call, hlt])
      (by simp [req_build_key, hd, St.call])
      (by simp [req_build_key, hd, St.call, hr])
    refine ⟨_, _, hbody, g1, g2, g3, ?_⟩
    rw [g4]
    simp [req_build_key, hd, St.call, hrc, visit_trace]
  · have hbody : req_body E s = some (req_after_lookup E (req_lookup E s r) r rest) := by
      simp [req_body, hr, hen, hk, req_build_key, hd]
    obtain ⟨g1, g2, g3, g4⟩ := go s key hk rfl hr
    refine ⟨_, _, hbody, g1, g2, g3, ?_⟩
    rw [g4]
    simp [visit_trace, hd]

/-- The request loop over rules none of which wins: the cursor moves past them
and the calls made are exactly `losers_trace`. -/
lemma req_loop_losers
    (hb : ∀ r t k m, (E.nst_key_build r t k m).1 = .NST_OK)
    (hL : ∀ c r rest, c.rule = r :: rest → (E.nst_cache_exists c).1 = L r) :
    ∀ (pre rest : List nst_rule) (n : Nat) (s : St), s.ctx.rule = pre ++ rest →
      (∀ r ∈ pre, rule_wins E L r = false) → (∀ r ∈ pre, r.key_idx < s.ctx.keys.length) →
      ∃ s2 tl, req_loop E (pre.length + n) s = req_loop E n s2 ∧ s2.ctx.rule = rest ∧
        s2.ctx.keys.length = s.ctx.keys.length ∧ s2.trace = s.trace ++ tl ∧
        losers_trace E L pre s.ctx.keys tl s2.ctx.keys := by
  intro pre
  induction pre with
  | nil =>
    intro rest n s hr _ _
    exact ⟨s, [], by simp, by simpa using hr, rfl, by simp, ⟨rfl, rfl⟩⟩
  | cons r pre ih =>
    intro rest n s hr hlose hidx
    have hr1 : s.ctx.rule = r :: (pre ++ rest) := by simpa using hr
    have hlen : (r :: pre).length + n = (pre.length + n) + 1 := by simp; omega
    have hlose1 : ∀ q ∈ pre, rule_wins E L q = false := fun q hq => hlose q (by simp [hq])
    by_cases hd : r.state = .DISABLED
    · have hidx1 : ∀ q ∈ pre, q.key_idx < s.ctx.keys.length := fun q hq => hidx q (by simp [hq])
      obtain ⟨s2, tl, e1, e2, e3, e4, e5⟩ :=
        ih rest n { s with ctx := { s.ctx with rule := pre ++ rest } } rfl hlose1 hidx1
      refine ⟨s2, tl, ?_, e2, e3, e4, ?_⟩
      · rw [hlen, req_loop, req_body_disabled E s r (pre ++ rest) hr1 hd]
        exact e1
      · simp only [losers_trace, hd, if_true]
        exact e5
    · have hlt := hidx r (by simp)
      have hk : s.ctx.keys[r.key_idx]? = some s.ctx.keys[r.key_idx] :=
        List.getElem?_eq_getElem hlt
      obtain ⟨k, sl, b1, b2, b3, b4, b5⟩ :=
        req_body_visit E L s r (pre ++ rest) _ hb hL hr1 hd hk
      obtain ⟨hm, ha⟩ := rule_wins_false E L (hlose r (by simp)) hd
      rw [← b4] at hm
      have hstep := req_after_lookup_miss E sl r (pre ++ rest) hm ha
      have hidx1 : ∀ q ∈ pre, q.key_idx < sl.ctx.keys.length := by
        intro q hq
        rw [b2, List.length_set]
        exact hidx q (by simp [hq])
      obtain ⟨s2, tl, e1, e2, e3, e4, e5⟩ :=
        ih rest n { ctx := { sl.ctx with rule := pre ++ rest },
                    trace := sl.trace ++ [.test_rule r false (E.nst_test_rule r false)] }
          rfl hlose1 hidx1
      have e5k : losers_trace E L pre (s.ctx.keys.set r.key_idx k) tl s2.ctx.keys := by
        rw [← b2]
        exact e5
      refine ⟨s2, visit_trace L r s.ctx.keys[r.key_idx] k
          ++ Call.test_rule r false (E.nst_test_rule r false) :: tl, ?_, e2, ?_, ?_, ?_⟩
      · rw [hlen, req_loop, b1, hstep]
        exact e1
      · rw [e3]
        simp [b2]
      · rw [e4, b5]
        simp
      · simp only [losers_trace, hd, if_false]
        exact ⟨_, k, tl, hk, rfl, e5k⟩

/-- The calls of a request-direction header event in the setting `ReqRun`: the
parse, the calls of the rules before the winner, the winner's key build (if
its key had no data), hash and lookup, and then either its successful ACL test
or, after a hit, calls that are neither key builds nor lookups nor ACL tests. -/
lemma req_first_match_trace (ctx : nst_ctx) (pre : List nst_rule) (w : nst_rule)
    (post : List nst_rule) (h : ReqRun E L ctx pre w post) :
    ∃ o keysW key k tl tw, _nst_cache_filter_http_headers E false ctx = some o ∧
      losers_trace E L pre ctx.keys tl keysW ∧ keysW[w.key_idx]? = some key ∧
      o.trace = Call.http_parse_htx .NST_OK :: (tl ++ visit_trace L w key k ++ tw) ∧
      o.ctx.keys = keysW.set w.key_idx k ∧
      (if is_hit (L w) = true then key_builds tw = 0 ∧ lookups tw = 0 ∧ acl_tests tw = 0
        else tw = [Call.test_rule w false .NST_OK]) := by
  have hwen := ReqRun.winner_enabled E L h
  have hidx_pre : ∀ r ∈ pre, r.key_idx < ctx.keys.length :=
    fun r hr => h.idx r (by rw [h.rules]; simp [hr])
  have hidx_w : w.key_idx < ctx.keys.length := h.idx w (by rw [h.rules]; simp)
  have hcnt : ctx.rule_cnt = pre.length + (post.length + 1) := by
    rw [h.cnt, h.rules]; simp
  have hrun := req_headers_loop E ctx h.state_init h.meth_ok h.parse_ok
  obtain ⟨s1, tl, e1, e2, e3, e4, e5⟩ :=
    req_loop_losers E L h.build_ok h.lookup pre (w :: post) (post.length + 1)
      { ctx := { ctx with txn := (E.nst_http_parse_htx ctx.txn).2, rule := E.proxy_rule },
        trace := [.http_parse_htx .NST_OK] } (by simp [h.rules]) h.losers
      (by simpa using hidx_pre)
  have hltw : w.key_idx < s1.ctx.keys.length := by
    rw [e3]
    simpa using hidx_w
  have hk : s1.ctx.keys[w.key_idx]? = some s1.ctx.keys[w.key_idx] :=
    List.getElem?_eq_getElem hltw
  obtain ⟨k, sl, b1, b2, b3, b4, b5⟩ :=
    req_body_visit E L s1 w post _ h.build_ok h.lookup e2 hwen hk
  rw [← hcnt] at e1
  rw [e1] at hrun
  have hfin : ∀ f, req_after_lookup E sl w post = f → (∀ s4, f ≠ .next s4) →
      _nst_cache_filter_http_headers E false ctx = some (req_finish E f) := by
    intro f hf hn
    rw [hrun, req_loop_stop E post.length s1 f (by rw [b1, hf]) hn]
    rfl
  have htr : sl.trace
      = Call.http_parse_htx .NST_OK :: (tl ++ visit_trace L w s1.ctx.keys[w.key_idx] k) := by
    rw [b5, e4]
    simp
  have e5k : losers_trace E L pre ctx.keys tl s1.ctx.keys := e5
  by_cases hh : is_hit (L w) = true
  · have hh2 : is_hit sl.ctx.state = true := by rw [b4]; exact hh
    obtain ⟨s3, t, f, hc⟩ := req_after_lookup_shape E sl w post
    obtain ⟨s3b, tb, c, _, _, d3, d4, d5⟩ := req_after_lookup_hit E sl w post hh2
    have hh3 : is_hit s3.ctx.state = true := by rw [f.state_same]; exact hh2
    have hb0 : key_builds tb = 0 := Nat.le_zero.mp d4.builds_le
    rcases hc with hc | hc | hc | hc
    · rw [hc.2] at hh2
      cases hh2
    · rw [hc.2.1] at hh2
      cases hh2
    · have hs : s3b = s3 := by
        rcases d5 with d5 | d5 <;> rw [hc.1] at d5 <;> cases d5
        rfl
      subst hs
      have hr := hfin _ hc.1 (by intro s4 hc4; cases hc4)
      rw [req_finish_brk_hit E s3b hh3] at hr
      refine ⟨_, s1.ctx.keys, _, k, tl, tb ++ [Call.cache_hit s3b.ctx.state], hr, e5k, hk, ?_, ?_,
        ?_⟩
      · simp [d3.trace_eq, htr]
      · simp [nst_ctx.commit, f.keys_same, b2]
      · rw [if_pos hh]
        have g1 := d4.lookups_eq
        have g2 := d4.acls_eq
        simp only [key_builds, lookups, acl_tests, List.countP_append] at hb0 g1 g2 ⊢
        rw [hb0, g1, g2]
        simp
    · have hs : s3b = s3 := by
        rcases d5 with d5 | d5 <;> rw [hc.1] at d5 <;> cases d5
        rfl
      subst hs
      have hr := hfin _ hc.1 (by intro s4 hc4; cases hc4)
      refine ⟨_, s1.ctx.keys, _, k, tl, tb, hr, e5k, hk, ?_, ?_, ?_⟩
      · simp [req_finish, d3.trace_eq, htr]
      · simp [req_finish, f.keys_same, b2]
      · rw [if_pos hh]
        exact ⟨hb0, d4.lookups_eq, d4.acls_eq⟩
  · have hm : is_hit (L w) = false := by simpa using hh
    have hm2 : is_hit sl.ctx.state = false := by rw [b4]; exact hm
    have hacl := ReqRun.winner_acl E L h hm
    have hstep := req_after_lookup_acl_win E sl w post hm2 hacl
    have hr := hfin _ hstep (by intro s4 hc4; cases hc4)
    rw [req_finish_brk_miss E _ (by simp [is_hit])] at hr
    refine ⟨_, s1.ctx.keys, _, k, tl, [Call.test_rule w false .NST_OK], hr, e5k, hk, ?_, ?_, ?_⟩
    · simp [htr]
    · simp [b2]
    · simp [hh]

end first_match

/-- The setting `ReqRun` holds of `env_twins` with every lookup missing: the
second of the two twin rules is the winner. -/
lemma env_twins_run :
    ReqRun env_twins (fun _ => .INIT) (ctx0 3 1) [rule_a] rule_b [rule_200] where
  state_init := rfl
  meth_ok := by simp [env_twins, env0]
  parse_ok := rfl
  rules := rfl
  cnt := rfl
  idx := by
    intro r hr
    simp only [env_twins, List.mem_cons, List.mem_singleton, List.not_mem_nil, or_false] at hr
    rcases hr with h | h | h <;> subst h <;> decide
  build_ok := fun _ _ _ _ => rfl
  lookup := fun _ _ _ _ => rfl
  losers := by
    intro r hr
    simp only [List.mem_singleton] at hr
    subst hr
    rfl
  winner := rfl

/-- The run over the twin rules, call by call: the shared key is built once,
for `rule_a`, whose ACL test fails; `rule_b` is looked up with the same key and
wins by its ACL test; nothing is done for `rule_200`. -/
lemma env_twins_second_wins :
    ∃ o, _nst_cache_filter_http_headers env_twins false (ctx0 3 1) = some o ∧
      o.ctx.rule = [rule_b, rule_200] ∧ o.ctx.state = .PASS ∧
      o.trace = [.http_parse_htx .NST_OK,
                 .key_build 0 .NST_OK, .key_hash 0, .cache_exists 0 ⟨some [0], 1⟩ .INIT,
                 .test_rule rule_a false .NST_ERR,
                 .key_hash 0, .cache_exists 0 ⟨some [0], 1⟩ .INIT,
                 .test_rule rule_b false .NST_OK] := by
  refine ⟨_, rfl, ?_, ?_, ?_⟩ <;> decide

/-- C1: request-phase rule evaluation is first-match-wins.  In the setting
`ReqRun` (state `INIT`, cacheable method, parse and key builds succeeding, rule
list `pre ++ w :: post` with `w` the first rule, in configured order, that is
enabled and whose lookup hits or whose request ACL succeeds), and with serving a
hit leaving the state alone: the rule left in `ctx->rule` is `w`; the final
state is the hit state of `w` if its lookup hit and `PASS` otherwise; and the
calls of the event are exactly these, in order: the parse; for each enabled rule
before `w` its key build (made exactly when its key has no data at that moment),
hash, lookup and failing ACL test (`losers_trace`); for `w` its key build (again
exactly when its key has no data), hash and lookup (`visit_trace`); and then
either the successful ACL test of `w`, or, after a hit, calls that are neither
key builds nor lookups nor ACL tests.  So no call is made for a rule after `w`:
every key build, lookup and ACL test of the trace belongs to a rule up to `w`.
In particular each enabled rule up to `w` is looked up once, and each rule
before `w` (and `w` itself when it did not hit) is ACL-tested once. -/
theorem req_first_match_wins (E : Env) (L : nst_rule → nst_ctx_state) (ctx : nst_ctx)
    (pre : List nst_rule) (w : nst_rule) (post : List nst_rule)
    (h : ReqRun E L ctx pre w post)
    (hserve : ∀ c, (E.nst_cache_hit c).state = c.state) :
    ∃ o keysW key k tl tw, _nst_cache_filter_http_headers E false ctx = some o ∧
      o.ctx.rule = w :: post ∧
      o.ctx.state = (if is_hit (L w) = true then L w else .PASS) ∧
      o.trace = Call.http_parse_htx .NST_OK :: (tl ++ visit_trace L w key k ++ tw) ∧
      losers_trace E L pre ctx.keys tl keysW ∧ keysW[w.key_idx]? = some key ∧
      o.ctx.keys = keysW.set w.key_idx k ∧
      (if is_hit (L w) = true then key_builds tw = 0 ∧ lookups tw = 0 ∧ acl_tests tw = 0
        else tw = [Call.test_rule w false .NST_OK]) ∧
      lookups o.trace = enabled_cnt (pre ++ [w]) ∧
      key_builds o.trace ≤ enabled_cnt (pre ++ [w]) ∧
      acl_tests o.trace = enabled_cnt pre + (if is_hit (L w) = true then 0 else 1) := by
  obtain ⟨o, c0, c1, c2, c3, c4, c5⟩ := req_first_match_counts E L ctx pre w post h hserve
  obtain ⟨o2, keysW, key, k, tl, tw, t0, t1, t2, t3, t4, t5⟩ :=
    req_first_match_trace E L ctx pre w post h
  rw [c0] at t0
  cases t0
  exact ⟨o, keysW, key, k, tl, tw, c0, c1, c2, t3, t1, t2, t4, t5, c3, c4, c5⟩

theorem req_first_match_wins_witness :
    ReqRun env_twins (fun _ => .INIT) (ctx0 3 1) [rule_a] rule_b [rule_200] ∧
    (∀ c, (env_twins.nst_cache_hit c).state = c.state) ∧
    ∃ o keysW key k tl tw, _nst_cache_filter_http_headers env_twins false (ctx0 3 1) = some o ∧
      o.ctx.rule = rule_b :: [rule_200] ∧
      o.ctx.state = (if is_hit nst_ctx_state.INIT = true then .INIT else .PASS) ∧
      o.trace = Call.http_parse_htx .NST_OK
        :: (tl ++ visit_trace (fun _ => .INIT) rule_b key k ++ tw) ∧
      losers_trace env_twins (fun _ => .INIT) [rule_a] (ctx0 3 1).keys tl keysW ∧
      keysW[rule_b.key_idx]? = some key ∧
      o.ctx.keys = keysW.set rule_b.key_idx k ∧
      (if is_hit nst_ctx_state.INIT = true
        then key_builds tw = 0 ∧ lookups tw = 0 ∧ acl_tests tw = 0
        else tw = [Call.test_rule rule_b false .NST_OK]) ∧
      lookups o.trace = enabled_cnt ([rule_a] ++ [rule_b]) ∧
      key_builds o.trace ≤ enabled_cnt ([rule_a] ++ [rule_b]) ∧
      acl_tests o.trace
        = enabled_cnt [rule_a] + (if is_hit nst_ctx_state.INIT = true then 0 else 1) :=
  ⟨env_twins_run, fun _ => rfl,
   req_first_match_wins env_twins (fun _ => .INIT) (ctx0 3 1) [rule_a] rule_b [rule_200]
     env_twins_run (fun _ => rfl)⟩

end Nuster
